import Mathlib

/-!
# The ARM recompiler of the emulator (`Core/MIPS/ARM/ArmJit.cpp`)

A shallow embedding of `MIPSComp::Jit`: the block compiler `DoJit`, the
fallback `Comp_Generic`, the cycle-budget decrement `DoDownCount`, the three
exit writers and `Compile` / `ClearCache`.

The emitter, the block cache, the register cache and the opcode tables are
not part of the translated file.  The emitter is embedded as a list of
emitted instructions, the block cache and the register cache are modelled
from the specification, and the tables are parameters (`Env`).
-/

namespace MIPSComp

/-! ## Host side: registers, emitted instructions, their execution -/

/-- Host registers of the ARM emitter. -/
inductive ARMReg where
  | R0 | R1 | R2 | R3 | R4 | R5 | R6 | R7
  | R8 | R9 | R10 | R11 | R12 | R13 | R14 | R15
  deriving DecidableEq, Repr

/-- Condition codes used by `Jit` (`SetCC(CC_LT)`, `SetCC(CC_AL)`). -/
inductive CCFlags where
  | CC_LT
  | CC_AL
  deriving DecidableEq, Repr

/-- Second operand of a data-processing instruction: an immediate or a register. -/
inductive Operand2 where
  | imm (value : Nat)
  | reg (r : ARMReg)
  deriving DecidableEq, Repr

/-- The emitter calls that `ArmJit.cpp` makes.  `MOVI2R` stands for
`ARMABI_MOVI2R`, `B_reg` for `B(ARMReg)`, `B_ptr` for `B(const void *)`,
`CallFunctionC` for `ARMABI_CallFunctionC`, `PAD` for the filler of
`AlignCode16`. `LDR dest base off` loads from `[base + off]`,
`STR base src off` stores `src` to `[base + off]`. -/
inductive ArmOp where
  | MOVI2R (r : ARMReg) (val : Nat)
  | LDR (dest base : ARMReg) (off : Nat)
  | STR (base src : ARMReg) (off : Nat)
  | SUBS (dest src : ARMReg) (op2 : Operand2)
  | B_reg (r : ARMReg)
  | B_ptr (target : Nat)
  | CallFunctionC (func arg : Nat)
  | PAD
  deriving DecidableEq, Repr

/-- One emitted instruction: the condition that was current when it was
written, and the operation. -/
structure ArmInst where
  cond : CCFlags
  op : ArmOp
  deriving DecidableEq, Repr

/-- Truncation to an unsigned 32-bit value. -/
def u32 (n : Nat) : Nat := n % 2 ^ 32

/-- Sign bit of a 32-bit value. -/
def isNeg32 (n : Nat) : Bool := decide (2 ^ 31 ≤ u32 n)

/-- Host machine state seen by emitted code: registers, the four flags and
word-addressed memory (the cycle counter and the guest CPU state live there). -/
structure ArmState where
  r : ARMReg → Nat
  N : Bool
  Z : Bool
  C : Bool
  V : Bool
  mem : Nat → Nat

/-- Register write. -/
def ArmState.setReg (st : ArmState) (x : ARMReg) (v : Nat) : ArmState :=
  { st with r := fun y => if y = x then u32 v else st.r y }

/-- Memory write of one word. -/
def ArmState.store (st : ArmState) (addr v : Nat) : ArmState :=
  { st with mem := fun a => if a = u32 addr then u32 v else st.mem a }

/-- Value of a second operand. -/
def ArmState.operand (st : ArmState) : Operand2 → Nat
  | Operand2.imm v => u32 v
  | Operand2.reg x => u32 (st.r x)

/-- Whether a condition code passes on the current flags. `LT` is `N != V`. -/
def condHolds : CCFlags → ArmState → Bool
  | CCFlags.CC_AL, _ => true
  | CCFlags.CC_LT, st => st.N != st.V

/-- Flag-setting subtraction `dest = a - b` on 32 bits. -/
def ArmState.subs (st : ArmState) (dest : ARMReg) (a b : Nat) : ArmState :=
  let a := u32 a
  let b := u32 b
  let res := u32 (a + 2 ^ 32 - b)
  { st with
    r := fun y => if y = dest then res else st.r y
    N := isNeg32 res
    Z := decide (res = 0)
    C := decide (b ≤ a)
    V := (isNeg32 a != isNeg32 b) && (isNeg32 res != isNeg32 a) }

/-- Where straight-line emitted code ends up. -/
inductive Outcome where
  | fallthrough (st : ArmState)
  | jumped (target : Nat) (st : ArmState)
  | called (func arg : Nat) (st : ArmState)

/-- Final machine state of an outcome. -/
def Outcome.state : Outcome → ArmState
  | Outcome.fallthrough st => st
  | Outcome.jumped _ st => st
  | Outcome.called _ _ st => st

/-- Effect of one operation whose condition passed. -/
def execOp : ArmOp → ArmState → Outcome
  | ArmOp.MOVI2R x v, st => Outcome.fallthrough (st.setReg x v)
  | ArmOp.LDR d b off, st => Outcome.fallthrough (st.setReg d (st.mem (u32 (st.r b + off))))
  | ArmOp.STR b src off, st => Outcome.fallthrough (st.store (st.r b + off) (st.r src))
  | ArmOp.SUBS d src op2, st => Outcome.fallthrough (st.subs d (st.r src) (st.operand op2))
  | ArmOp.B_reg x, st => Outcome.jumped (u32 (st.r x)) st
  | ArmOp.B_ptr t, st => Outcome.jumped t st
  | ArmOp.CallFunctionC f a, st => Outcome.called f a st
  | ArmOp.PAD, st => Outcome.fallthrough st

/-- Execution of a run of emitted instructions up to the first taken branch
or call. An instruction whose condition fails is skipped. -/
def exec : List ArmInst → ArmState → Outcome
  | [], st => Outcome.fallthrough st
  | i :: rest, st =>
    if condHolds i.cond st then
      match execOp i.op st with
      | Outcome.fallthrough st1 => exec rest st1
      | o => o
    else exec rest st

/-! ## Register cache (`ArmRegCache`) -/

/-- Modelled from the spec: the binding of one guest register in the
Register State Cache (`ArmRegCache.h` is not among the sources): unbound, or
bound to a host register with a pending-writeback flag. -/
inductive RegBinding where
  | unbound
  | bound (host : ARMReg) (dirty : Bool)
  deriving DecidableEq, Repr

/-- Modelled from the spec: the Register State Cache `gpr`, one binding
per guest register (`ArmRegCache` is not among the sources). -/
structure ArmRegCache where
  bindings : List RegBinding
  deriving DecidableEq, Repr

/-- All bindings are unbound. -/
def ArmRegCache.allUnbound (c : ArmRegCache) : Prop :=
  ∀ b ∈ c.bindings, b = RegBinding.unbound

instance (c : ArmRegCache) : Decidable c.allUnbound := by
  unfold ArmRegCache.allUnbound; infer_instance

/-- Modelled from the spec: the stores that `gpr.FlushAll()` emits, one
for every bound guest register with a pending writeback, to its slot in the
guest register image (`R10` holds the guest CPU state, register `i` at
offset `4 * i`). -/
def flushStores : Nat → List RegBinding → List ArmOp
  | _, [] => []
  | i, RegBinding.bound h true :: rest => ArmOp.STR ARMReg.R10 h (4 * i) :: flushStores (i + 1) rest
  | i, _ :: rest => flushStores (i + 1) rest

/-- Modelled from the spec: the cache after `gpr.FlushAll()` or
`gpr.Start(analysis)`: every binding unbound. -/
def ArmRegCache.reset (c : ArmRegCache) : ArmRegCache :=
  { bindings := c.bindings.map (fun _ => RegBinding.unbound) }

/-! ## Block cache (`ArmJitBlockCache`) -/

/-- One translation block. `finalized` is the lifecycle flag of the
specification; the exit arrays are indexed by exit number. -/
structure ArmJitBlock where
  originalAddress : Nat
  checkedEntry : Nat
  normalEntry : Nat
  codeSize : Nat
  originalSize : Nat
  exitAddress : Nat → Nat
  exitPtrs : Nat → Nat
  linkStatus : Nat → Bool
  finalized : Bool

/-- Modelled from the spec: the block table of the Block Cache
(`ArmJitCache` is not among the sources): the allocated blocks in order of
allocation and the fixed capacity of the table. -/
structure ArmJitBlockCache where
  blocks : List ArmJitBlock
  capacity : Nat

/-- Failures of the compiler model. `CacheFull` is the failure of
`AllocateBlock` named by the specification; `OutOfFuel` says that the bound
on the compile loop given to the model was too small. -/
inductive JitError where
  | CacheFull
  | OutOfFuel
  deriving DecidableEq, Repr

/-- Modelled from the spec: the content of `exitAddress` in an exit slot
in which no exit has been recorded. -/
def INVALID_EXIT : Nat := 0xFFFFFFFF

/-- A freshly allocated block for `em_address`: no exit recorded, no exit
linked. -/
def ArmJitBlock.fresh (em_address : Nat) : ArmJitBlock :=
  { originalAddress := em_address, checkedEntry := 0, normalEntry := 0, codeSize := 0,
    originalSize := 0, exitAddress := fun _ => INVALID_EXIT, exitPtrs := fun _ => 0,
    linkStatus := fun _ => false, finalized := false }

/-- Modelled from the spec: `IsFull()`, true when no further block can be
allocated. -/
def ArmJitBlockCache.IsFull (c : ArmJitBlockCache) : Bool :=
  decide (c.capacity ≤ c.blocks.length)

/-- Modelled from the spec: `AllocateBlock(address)`, which reserves the
next slot and registers the address, and fails with `CacheFull` when the
capacity is exhausted. -/
def ArmJitBlockCache.AllocateBlock (c : ArmJitBlockCache) (em_address : Nat) :
    Except JitError (Nat × ArmJitBlockCache) :=
  if c.IsFull then Except.error JitError.CacheFull
  else Except.ok (c.blocks.length, { c with blocks := c.blocks ++ [ArmJitBlock.fresh em_address] })

/-- Modelled from the spec: `Clear()`, which invalidates every block. -/
def ArmJitBlockCache.Clear (c : ArmJitBlockCache) : ArmJitBlockCache :=
  { c with blocks := [] }

/-- The block at an index (`GetBlock`); a fresh block when the index is
not allocated. -/
def ArmJitBlockCache.GetBlock (c : ArmJitBlockCache) (i : Nat) : ArmJitBlock :=
  c.blocks.getD i (ArmJitBlock.fresh 0)

/-- Update of the block at an index. -/
def updateBlock (f : ArmJitBlock → ArmJitBlock) : Nat → List ArmJitBlock → List ArmJitBlock
  | _, [] => []
  | 0, b :: bs => f b :: bs
  | n + 1, b :: bs => b :: updateBlock f n bs

/-- Search of the finalized block that starts at `addr`, counting from `i`. -/
def findBlock (addr : Nat) : List ArmJitBlock → Nat → Int
  | [], _ => -1
  | b :: bs, i => if b.finalized && decide (b.originalAddress = addr) then (i : Int)
      else findBlock addr bs (i + 1)

/-- Modelled from the spec: `GetBlockNumberFromStartAddress(address)`,
the index of the finalized block registered under the address, or `-1`. -/
def ArmJitBlockCache.GetBlockNumberFromStartAddress (c : ArmJitBlockCache) (addr : Nat) : Int :=
  findBlock addr c.blocks 0

/-- Modelled from the spec: the Block Linker on exit slot `e` of block
`block_num`. When the slot holds a recorded exit that is not linked and
whose destination has a finalized block, the instruction at the patch
location of the slot becomes a direct jump to the checked entry of that
block and the slot is marked linked; otherwise nothing changes. `code` is
the code space, in which a patch location is four times a position. -/
def ArmJitBlockCache.LinkBlockExit (c : ArmJitBlockCache) (code : List ArmInst)
    (block_num e : Nat) : ArmJitBlockCache × List ArmInst :=
  let b := c.GetBlock block_num
  let destinationBlock := c.GetBlockNumberFromStartAddress (b.exitAddress e)
  if b.exitAddress e ≠ INVALID_EXIT ∧ b.linkStatus e = false ∧ 0 ≤ destinationBlock then
    let c1 : ArmJitBlockCache :=
      { c with
        blocks := updateBlock (fun blk =>
          { blk with linkStatus := fun i => if i = e then true else blk.linkStatus i })
          block_num c.blocks }
    let jump : ArmInst :=
      { cond := CCFlags.CC_AL,
        op := ArmOp.B_ptr (c.GetBlock destinationBlock.toNat).checkedEntry }
    (c1, code.set (b.exitPtrs e / 4) jump)
  else (c, code)

/-- Modelled from the spec: the Block Linker on the exit slots `0` to
`n - 1` of block `block_num`, in order. -/
def ArmJitBlockCache.LinkBlockExits (c : ArmJitBlockCache) (code : List ArmInst)
    (block_num : Nat) : Nat → ArmJitBlockCache × List ArmInst
  | 0 => (c, code)
  | n + 1 =>
    let r := ArmJitBlockCache.LinkBlockExits c code block_num n
    r.1.LinkBlockExit r.2 block_num n

/-- Modelled from the spec: `FinalizeBlock(blockIndex, enableLinking,
normalEntryPtr)`. It marks the block ready, with `normalEntryPtr` as its
normal entry; then, when `enableLinking` holds, the Block Linker patches
the exits of the block (`numExits` exit slots); when it does not hold, the
exits stay as they were written. The result is the block table and the
code space. -/
def ArmJitBlockCache.FinalizeBlock (c : ArmJitBlockCache) (code : List ArmInst)
    (numExits : Nat) (block_num : Nat) (enableLinking : Bool) (normalEntryPtr : Nat) :
    ArmJitBlockCache × List ArmInst :=
  let c1 : ArmJitBlockCache :=
    { c with blocks := updateBlock (fun b =>
        { b with finalized := true, normalEntry := normalEntryPtr }) block_num c.blocks }
  if enableLinking then c1.LinkBlockExits code block_num numExits else (c1, code)

/-! ## The compiler state -/

/-- Per-compilation state `js`. `curBlock` is the index of the block that
the pointer `js.curBlock` designates. `downcountAmount` is a C `int`; cycle
estimates are counts, so it is embedded as a natural number. -/
structure JitState where
  cancel : Bool
  blockStart : Nat
  compilerPC : Nat
  downcountAmount : Nat
  curBlock : Nat
  compiling : Bool
  inDelaySlot : Bool
  deriving DecidableEq, Repr

/-- Options `jo`. -/
structure JitOptions where
  enableBlocklink : Bool
  deriving DecidableEq, Repr

/-- The `Jit` object: compile state, options, block cache, register cache,
the emitter (code written so far and the current condition) and the guest
program counter `mips_->pc` at compile time. -/
structure Jit where
  js : JitState
  jo : JitOptions
  blocks : ArmJitBlockCache
  gpr : ArmRegCache
  code : List ArmInst
  condition : CCFlags
  mips_pc : Nat

/-- Calls that a per-opcode compile routine makes on the `Jit`: the public
operations of `ArmJit.cpp`, plain emission of a host instruction, and the
assignment `js.compiling = false` that ends the block. -/
inductive JitCall where
  | FlushAll
  | CompileAt (addr : Nat)
  | Comp_Generic (op : Nat)
  | WriteExit (destination : Nat) (exit_num : Nat)
  | WriteExitDestInR (Reg : ARMReg)
  | WriteSyscallExit
  | Emit (op : ArmOp)
  | StopCompiling
  deriving DecidableEq, Repr

/-- What `ArmJit.cpp` uses from outside: host addresses, guest memory and
the opcode tables. `compileTable op pc` lists the calls that the compile
routine of `op` makes when the compile cursor is `pc`;
`MIPSGetInterpretFunc` returns `0` for the null pointer; `numExits` is the
number of exit slots of a block (the length of the arrays `exitAddress`,
`exitPtrs` and `linkStatus`, declared outside the file). -/
structure Env where
  numExits : Nat
  downcountAddr : Nat
  pcOffset : Nat
  dispatcher : Nat
  outerLoop : Nat
  dispatcherCheckCoreState : Nat
  Read_Instruction : Nat → Nat
  MIPSGetInstructionCycleEstimate : Nat → Nat
  MIPSGetInterpretFunc : Nat → Nat
  compileTable : Nat → Nat → List JitCall

/-! ## The emitter -/

/-- Size of the code space: `AllocCodeSpace(1024 * 1024 * 16)`. -/
def codeSpaceSize : Nat := 1024 * 1024 * 16

/-- Emission of one instruction under the current condition. -/
def Jit.Write (s : Jit) (op : ArmOp) : Jit :=
  { s with code := s.code ++ [{ cond := s.condition, op := op }] }

/-- Emission of several instructions. -/
def Jit.WriteAll (s : Jit) (ops : List ArmOp) : Jit :=
  { s with code := s.code ++ ops.map (fun op => { cond := s.condition, op := op }) }

/-- Position of the next instruction (`GetCodePtr`), in bytes from the
start of the code space; every emitted item counts four bytes. -/
def Jit.GetCodePtr (s : Jit) : Nat := 4 * s.code.length

/-- Free bytes of the code space (`GetSpaceLeft`). -/
def Jit.GetSpaceLeft (s : Jit) : Nat := codeSpaceSize - s.GetCodePtr

/-- Reset of the code space (`ClearCodeSpace`). -/
def Jit.ClearCodeSpace (s : Jit) : Jit := { s with code := [] }

/-- The emitter call `SetCC`. -/
def Jit.SetCC (s : Jit) (c : CCFlags) : Jit := { s with condition := c }

/-- The emitter call `AlignCode16`: filler up to the next 16-byte boundary. -/
def Jit.AlignCode16 (s : Jit) : Jit :=
  s.WriteAll (List.replicate ((4 - s.code.length % 4) % 4) ArmOp.PAD)

/-- Update of the block that `js.curBlock` points to. -/
def Jit.updateCurBlock (s : Jit) (f : ArmJitBlock → ArmJitBlock) : Jit :=
  { s with blocks := { s.blocks with blocks := updateBlock f s.js.curBlock s.blocks.blocks } }

/-! ## `ArmJit.cpp` -/

/-- The function `Jit::FlushAll`: `gpr.FlushAll()`. -/
def Jit.FlushAll (s : Jit) : Jit :=
  { s.WriteAll (flushStores 0 s.gpr.bindings) with gpr := s.gpr.reset }

/-- The function `Jit::ClearCache`: `blocks.Clear(); ClearCodeSpace();`. -/
def Jit.ClearCache (s : Jit) : Jit :=
  ({ s with blocks := s.blocks.Clear }).ClearCodeSpace

/-- The function `Jit::MovToPC`: `STR(R10, r, offsetof(MIPSState, pc))`. -/
def Jit.MovToPC (env : Env) (s : Jit) (x : ARMReg) : Jit :=
  s.Write (ArmOp.STR ARMReg.R10 x env.pcOffset)

/-- The function `Jit::MovFromPC`: `LDR(r, R10, offsetof(MIPSState, pc))`. -/
def Jit.MovFromPC (env : Env) (s : Jit) (x : ARMReg) : Jit :=
  s.Write (ArmOp.LDR x ARMReg.R10 env.pcOffset)

/-- The function `Jit::Comp_Generic`: flush, then, when the opcode has an
interpreter function, set the guest pc to `js.compilerPC` and call it. -/
def Jit.Comp_Generic (env : Env) (s : Jit) (op : Nat) : Jit :=
  let s1 := s.FlushAll
  let func := env.MIPSGetInterpretFunc op
  if func ≠ 0 then
    let s2 := s1.Write (ArmOp.MOVI2R ARMReg.R0 s1.js.compilerPC)
    let s3 := s2.MovToPC env ARMReg.R0
    s3.Write (ArmOp.CallFunctionC func op)
  else s1

/-- The function `Jit::DoDownCount`: load the counter, subtract
`js.downcountAmount` (as an immediate below 255, through `R2` otherwise),
store it back. -/
def Jit.DoDownCount (env : Env) (s : Jit) : Jit :=
  let s1 := s.Write (ArmOp.MOVI2R ARMReg.R0 env.downcountAddr)
  let s2 := s1.Write (ArmOp.LDR ARMReg.R1 ARMReg.R0 0)
  if s2.js.downcountAmount < 255 then
    let s3 := s2.Write (ArmOp.SUBS ARMReg.R1 ARMReg.R1 (Operand2.imm s2.js.downcountAmount))
    s3.Write (ArmOp.STR ARMReg.R0 ARMReg.R1 0)
  else
    let s3 := s2.Write (ArmOp.MOVI2R ARMReg.R2 s2.js.downcountAmount)
    let s4 := s3.Write (ArmOp.SUBS ARMReg.R1 ARMReg.R1 (Operand2.reg ARMReg.R2))
    s4.Write (ArmOp.STR ARMReg.R0 ARMReg.R1 0)

/-- The function `Jit::WriteExit`. -/
def Jit.WriteExit (env : Env) (s : Jit) (destination : Nat) (exit_num : Nat) : Jit :=
  let s1 := s.DoDownCount env
  let s2 := s1.updateCurBlock (fun b =>
    { b with exitAddress := fun i => if i = exit_num then destination else b.exitAddress i })
  let s3 := s2.updateCurBlock (fun b =>
    { b with exitPtrs := fun i => if i = exit_num then s2.GetCodePtr else b.exitPtrs i })
  let block := s3.blocks.GetBlockNumberFromStartAddress destination
  if 0 ≤ block ∧ s3.jo.enableBlocklink = true then
    let s4 := s3.Write (ArmOp.B_ptr (s3.blocks.GetBlock block.toNat).checkedEntry)
    s4.updateCurBlock (fun b =>
      { b with linkStatus := fun i => if i = exit_num then true else b.linkStatus i })
  else
    let s4 := s3.Write (ArmOp.MOVI2R ARMReg.R0 destination)
    let s5 := s4.MovToPC env ARMReg.R0
    let s6 := s5.Write (ArmOp.MOVI2R ARMReg.R0 env.dispatcher)
    s6.Write (ArmOp.B_reg ARMReg.R0)

/-- The function `Jit::WriteExitDestInR`. -/
def Jit.WriteExitDestInR (env : Env) (s : Jit) (Reg : ARMReg) : Jit :=
  let s1 := s.MovToPC env Reg
  let s2 := s1.DoDownCount env
  let s3 := s2.Write (ArmOp.MOVI2R ARMReg.R0 env.dispatcher)
  s3.Write (ArmOp.B_reg ARMReg.R0)

/-- The function `Jit::WriteSyscallExit`. -/
def Jit.WriteSyscallExit (env : Env) (s : Jit) : Jit :=
  let s1 := s.DoDownCount env
  let s2 := s1.Write (ArmOp.MOVI2R ARMReg.R0 env.dispatcherCheckCoreState)
  s2.Write (ArmOp.B_reg ARMReg.R0)

/-- One call of a compile routine. `compileAt` is what `CompileAt` does
with the state (it is tied to `MIPSCompileOp` below). -/
def runCall (env : Env) (compileAt : Nat → Jit → Option Jit) (c : JitCall) (s : Jit) :
    Option Jit :=
  match c with
  | JitCall.FlushAll => some s.FlushAll
  | JitCall.CompileAt addr => compileAt addr s
  | JitCall.Comp_Generic op => some (s.Comp_Generic env op)
  | JitCall.WriteExit destination exit_num => some (s.WriteExit env destination exit_num)
  | JitCall.WriteExitDestInR x => some (s.WriteExitDestInR env x)
  | JitCall.WriteSyscallExit => some (s.WriteSyscallExit env)
  | JitCall.Emit op => some (s.Write op)
  | JitCall.StopCompiling => some { s with js := { s.js with compiling := false } }

/-- The calls of a compile routine, in order. -/
def runCalls (env : Env) (compileAt : Nat → Jit → Option Jit) : List JitCall → Jit → Option Jit
  | [], s => some s
  | c :: cs, s =>
    match runCall env compileAt c s with
    | none => none
    | some s1 => runCalls env compileAt cs s1

/-- The function `MIPSCompileOp`: run the compile routine of the opcode.
`depth` bounds the nesting of `CompileAt` inside compile routines; `none`
means the bound was reached. -/
def MIPSCompileOp (env : Env) : Nat → Nat → Jit → Option Jit
  | 0, _, _ => none
  | depth + 1, op, s =>
    runCalls env (fun addr s1 => MIPSCompileOp env depth (env.Read_Instruction addr) s1)
      (env.compileTable op s.js.compilerPC) s

/-- The function `Jit::CompileAt`: read the instruction at `addr` and
compile it. -/
def Jit.CompileAt (env : Env) (depth : Nat) (s : Jit) (addr : Nat) : Option Jit :=
  MIPSCompileOp env depth (env.Read_Instruction addr) s

/-- Lines 108 to 129 of `Jit::DoJit`: reset of `js`, the checked entry, the
normal entry and `gpr.Start`. -/
def Jit.DoJitEntry (env : Env) (s : Jit) (_em_address : Nat) (b : Nat) : Jit :=
  let s0 : Jit := { s with js :=
    { s.js with cancel := false, blockStart := s.mips_pc, compilerPC := s.mips_pc,
                downcountAmount := 0, curBlock := b, compiling := true, inDelaySlot := false } }
  let s1 := s0.updateCurBlock (fun blk => { blk with checkedEntry := s0.GetCodePtr })
  let s2 := s1.SetCC CCFlags.CC_LT
  let s3 := s2.Write (ArmOp.MOVI2R ARMReg.R0 s2.js.blockStart)
  let s4 := s3.MovToPC env ARMReg.R0
  let s5 := s4.Write (ArmOp.MOVI2R ARMReg.R0 env.outerLoop)
  let s6 := s5.Write (ArmOp.B_reg ARMReg.R0)
  let s7 := s6.SetCC CCFlags.CC_AL
  let s8 := s7.updateCurBlock (fun blk => { blk with normalEntry := s7.GetCodePtr })
  { s8 with gpr := s8.gpr.reset }

/-- The loop `while (js.compiling)` of `Jit::DoJit`, with the count
`numInstructions`. `fuel` bounds the number of iterations (and the nesting
inside `MIPSCompileOp`); `none` means the bound was reached. -/
def Jit.DoJitLoop (env : Env) (depth : Nat) : Nat → Jit → Nat → Option (Jit × Nat)
  | 0, s, numInstructions => if s.js.compiling then none else some (s, numInstructions)
  | fuel + 1, s, numInstructions =>
    if s.js.compiling then
      let inst := env.Read_Instruction s.js.compilerPC
      let s1 : Jit := { s with js := { s.js with
        downcountAmount := s.js.downcountAmount + env.MIPSGetInstructionCycleEstimate inst } }
      match MIPSCompileOp env depth inst s1 with
      | none => none
      | some s2 =>
        let s3 : Jit := { s2 with js := { s2.js with compilerPC := u32 (s2.js.compilerPC + 4) } }
        Jit.DoJitLoop env depth fuel s3 (numInstructions + 1)
    else some (s, numInstructions)

/-- Lines 156 to 167 of `Jit::DoJit`: code size, alignment, instruction
count; the result is the state and `b->normalEntry`. `FlushIcache` changes
nothing that the embedding holds. -/
def Jit.DoJitExit (s : Jit) (numInstructions : Nat) : Jit × Nat :=
  let s1 := s.updateCurBlock (fun blk => { blk with codeSize := s.GetCodePtr - blk.normalEntry })
  let s2 := s1.AlignCode16
  let s3 := s2.updateCurBlock (fun blk => { blk with originalSize := numInstructions })
  (s3, (s3.blocks.GetBlock s3.js.curBlock).normalEntry)

/-- The function `Jit::DoJit`. -/
def Jit.DoJit (env : Env) (fuel : Nat) (s : Jit) (em_address : Nat) (b : Nat) :
    Option (Jit × Nat) :=
  match Jit.DoJitLoop env fuel fuel (s.DoJitEntry env em_address b) 0 with
  | none => none
  | some (s1, numInstructions) => some (s1.DoJitExit numInstructions)

/-- The test at the head of `Jit::Compile`:
`GetSpaceLeft() < 0x10000 || blocks.IsFull()`. -/
def Jit.needsClear (s : Jit) : Bool :=
  decide (s.GetSpaceLeft < 0x10000) || s.blocks.IsFull

/-- Lines 88 to 91 of `Jit::Compile`: the conditional `ClearCache`. -/
def Jit.CompileClear (s : Jit) : Jit :=
  if s.needsClear then s.ClearCache else s

/-- The function `Jit::Compile`. -/
def Jit.Compile (env : Env) (fuel : Nat) (s : Jit) (em_address : Nat) : Except JitError Jit :=
  let s1 := s.CompileClear
  match s1.blocks.AllocateBlock em_address with
  | Except.error e => Except.error e
  | Except.ok (block_num, cache) =>
    let s2 : Jit := { s1 with blocks := cache }
    match s2.DoJit env fuel em_address block_num with
    | none => Except.error JitError.OutOfFuel
    | some (s3, normalEntry) =>
      let linked := s3.blocks.FinalizeBlock s3.code env.numExits block_num
        s3.jo.enableBlocklink normalEntry
      Except.ok { s3 with blocks := linked.1, code := linked.2 }

/-- The instructions that `s2` has emitted beyond those of `s1`. -/
def Jit.emittedSince (s2 s1 : Jit) : List ArmInst := s2.code.drop s1.code.length

/-! ## A concrete guest program, used to evaluate the definitions -/

/-- Opcode table of the example: `1` is translated by one host
instruction, `2` goes to the fallback, `3` is a jump back to `0x08000000`
with a delay slot, compiled through `CompileAt`; anything else is a syscall. -/
def exampleTable (op pc : Nat) : List JitCall :=
  if op = 1 then [JitCall.Emit (ArmOp.MOVI2R ARMReg.R4 7)]
  else if op = 2 then [JitCall.Comp_Generic 2]
  else if op = 3 then
    [JitCall.CompileAt (pc + 4), JitCall.FlushAll, JitCall.WriteExit 0x08000000 0,
     JitCall.StopCompiling]
  else [JitCall.FlushAll, JitCall.WriteSyscallExit, JitCall.StopCompiling]

/-- Guest memory of the example: `1, 2, 3, 1` at `0x08000000`, then syscalls. -/
def exampleMemory (addr : Nat) : Nat :=
  if addr = 0x08000000 then 1
  else if addr = 0x08000004 then 2
  else if addr = 0x08000008 then 3
  else if addr = 0x0800000C then 1
  else 4

/-- Environment of the example. A jump costs 2 cycles, anything else 1;
only opcode `2` has an interpreter function. -/
def exampleEnv : Env :=
  { numExits := 2,
    downcountAddr := 0x00A00000, pcOffset := 0x200, dispatcher := 0x00100040,
    outerLoop := 0x00100020, dispatcherCheckCoreState := 0x00100060,
    Read_Instruction := exampleMemory,
    MIPSGetInstructionCycleEstimate := fun op => if op = 3 then 2 else 1,
    MIPSGetInterpretFunc := fun op => if op = 2 then 0x00200000 else 0,
    compileTable := exampleTable }

/-- A `Jit` right after construction, with room for `capacity` blocks and
the guest program counter at `pc`. -/
def initialJit (capacity pc : Nat) : Jit :=
  { js := { cancel := false, blockStart := 0, compilerPC := 0, downcountAmount := 0,
            curBlock := 0, compiling := false, inDelaySlot := false },
    jo := { enableBlocklink := true },
    blocks := { blocks := [], capacity := capacity },
    gpr := { bindings := List.replicate 32 RegBinding.unbound },
    code := [], condition := CCFlags.CC_AL, mips_pc := pc }

/-- A `Jit` that holds one allocated block for `0x08000000` and a guest
register bound to `R5` with a pending writeback. -/
def exampleJit : Jit :=
  { initialJit 4 0x08000000 with
    blocks := { blocks := [ArmJitBlock.fresh 0x08000000], capacity := 4 },
    gpr := { bindings := [RegBinding.unbound, RegBinding.bound ARMReg.R5 true] } }

/-- A host state: every register and memory word zero but `R10`, flags clear. -/
def exampleArmState : ArmState :=
  { r := fun x => if x = ARMReg.R10 then 0x00B00000 else 0,
    N := false, Z := false, C := false, V := false, mem := fun _ => 0 }

/-- A `Jit` in the middle of compiling block 1 (for `0x08000100`) while
block 0, for `0x08000000`, is finalized with its checked entry at 64. -/
def linkingJit : Jit :=
  { initialJit 4 0x08000100 with
    js := { cancel := false, blockStart := 0x08000100, compilerPC := 0x08000108,
            downcountAmount := 3, curBlock := 1, compiling := true, inDelaySlot := false },
    blocks := { blocks := [{ ArmJitBlock.fresh 0x08000000 with
                             checkedEntry := 64, normalEntry := 80, finalized := true },
                           ArmJitBlock.fresh 0x08000100], capacity := 4 } }

/-- What the block lookup reads of a block: its start address and its
lifecycle flag. -/
def blockKey (b : ArmJitBlock) : Nat × Bool := (b.originalAddress, b.finalized)

/-- What a compile routine leaves alone when it runs its calls: the
compile cursor, the accumulated cycle cost, the block being compiled, the
options, the emitter condition, the guest program counter, the capacity
and the keys of the block table; the code only grows. -/
structure Jit.Frame (s s1 : Jit) : Prop where
  downcountAmount : s1.js.downcountAmount = s.js.downcountAmount
  compilerPC : s1.js.compilerPC = s.js.compilerPC
  blockStart : s1.js.blockStart = s.js.blockStart
  curBlock : s1.js.curBlock = s.js.curBlock
  jo : s1.jo = s.jo
  condition : s1.condition = s.condition
  mips_pc : s1.mips_pc = s.mips_pc
  capacity : s1.blocks.capacity = s.blocks.capacity
  keys : s1.blocks.blocks.map blockKey = s.blocks.blocks.map blockKey
  code : ∃ suffix, s1.code = s.code ++ suffix

/-- Sum of `MIPSGetInstructionCycleEstimate` over the `n` instructions at
`pc`, `pc + 4`, ... (32-bit addresses). -/
def cycleSum (env : Env) : Nat → Nat → Nat
  | _, 0 => 0
  | pc, n + 1 =>
    env.MIPSGetInstructionCycleEstimate (env.Read_Instruction pc) + cycleSum env (u32 (pc + 4)) n

/-- State part of the result of `DoJit` (the entry state when the bound
was reached). -/
def Jit.DoJitState (env : Env) (fuel : Nat) (s : Jit) (em_address b : Nat) : Jit :=
  match s.DoJit env fuel em_address b with
  | some r => r.1
  | none => s

/-- State after `Compile` (the entry state when it fails). -/
def Jit.CompileState (env : Env) (fuel : Nat) (s : Jit) (em_address : Nat) : Jit :=
  match s.Compile env fuel em_address with
  | Except.ok s1 => s1
  | Except.error _ => s

/-- The state in which `Compile` calls `DoJit`: after the conditional
clear, with the block for `em_address` allocated (the entry state when the
allocation fails). -/
def Jit.CompileAllocated (s : Jit) (em_address : Nat) : Jit :=
  match s.CompileClear.blocks.AllocateBlock em_address with
  | Except.ok (_, cache) => { s.CompileClear with blocks := cache }
  | Except.error _ => s

/-- The index of the block that `Compile` allocates: the next free slot
of the table left by the conditional clear. -/
def Jit.CompileBlock (s : Jit) : Nat := s.CompileClear.blocks.blocks.length

/-- The state in which `DoJit` returns inside `Compile(em_address)`, before
`FinalizeBlock` is called (the allocated state when the bound was reached). -/
def Jit.CompileJitted (env : Env) (fuel : Nat) (s : Jit) (em_address : Nat) : Jit :=
  (s.CompileAllocated em_address).DoJitState env fuel em_address s.CompileBlock

/-- A host state whose cycle counter (at `exampleEnv.downcountAddr`) holds 10. -/
def countingArmState : ArmState :=
  { exampleArmState with mem := fun a => if a = 0x00A00000 then 10 else 0 }

/-- Modelled from the spec: resolution of a guest address by the
Dispatcher (its code is not among the sources). The address is the current
guest program counter; a cached block is used as it is, and `Compile` is
called only when the lookup finds none. -/
def Jit.Dispatch (env : Env) (fuel : Nat) (s : Jit) (pc : Nat) : Except JitError Jit :=
  if 0 ≤ s.blocks.GetBlockNumberFromStartAddress pc then Except.ok { s with mips_pc := pc }
  else ({ s with mips_pc := pc } : Jit).Compile env fuel pc

/-- A call on the cache from the outer loop: a resolution or a clear. -/
inductive CacheCall where
  | Dispatch (pc : Nat)
  | ClearCache
  deriving DecidableEq, Repr

/-- A sequence of resolutions and clears; it stops at the first failure. -/
def Jit.cacheCalls (env : Env) (fuel : Nat) : List CacheCall → Jit → Except JitError Jit
  | [], s => Except.ok s
  | CacheCall.Dispatch pc :: rest, s =>
    match s.Dispatch env fuel pc with
    | Except.ok s1 => Jit.cacheCalls env fuel rest s1
    | Except.error e => Except.error e
  | CacheCall.ClearCache :: rest, s => Jit.cacheCalls env fuel rest s.ClearCache

/-- Every block of the table is finalized and no two blocks have the same
start address. -/
def Jit.oneBlockPerAddress (s : Jit) : Prop :=
  ((s.blocks.blocks.map blockKey).map Prod.fst).Nodup ∧
  ∀ k ∈ s.blocks.blocks.map blockKey, k.2 = true

instance (s : Jit) : Decidable s.oneBlockPerAddress := by
  unfold Jit.oneBlockPerAddress; infer_instance

/-- The instructions of `DoDownCount` for a given condition and amount:
the immediate form below 255, the form through `R2` otherwise. -/
def downCountCode (env : Env) (cond : CCFlags) (amount : Nat) : List ArmInst :=
  if amount < 255 then
    [{ cond := cond, op := ArmOp.MOVI2R ARMReg.R0 env.downcountAddr },
     { cond := cond, op := ArmOp.LDR ARMReg.R1 ARMReg.R0 0 },
     { cond := cond, op := ArmOp.SUBS ARMReg.R1 ARMReg.R1 (Operand2.imm amount) },
     { cond := cond, op := ArmOp.STR ARMReg.R0 ARMReg.R1 0 }]
  else
    [{ cond := cond, op := ArmOp.MOVI2R ARMReg.R0 env.downcountAddr },
     { cond := cond, op := ArmOp.LDR ARMReg.R1 ARMReg.R0 0 },
     { cond := cond, op := ArmOp.MOVI2R ARMReg.R2 amount },
     { cond := cond, op := ArmOp.SUBS ARMReg.R1 ARMReg.R1 (Operand2.reg ARMReg.R2) },
     { cond := cond, op := ArmOp.STR ARMReg.R0 ARMReg.R1 0 }]

/-- A 32-bit value read as a signed integer. -/
def toInt32 (n : Nat) : Int :=
  if u32 n < 2 ^ 31 then (u32 n : Int) else (u32 n : Int) - 2 ^ 32

/-- Result of the 32-bit subtraction `a - b`. -/
def sub32 (a b : Nat) : Nat := u32 (u32 a + 2 ^ 32 - u32 b)

/-- The `i`-th address after `pc` in steps of one instruction (32-bit). -/
def addrAt : Nat → Nat → Nat
  | pc, 0 => pc
  | pc, i + 1 => addrAt (u32 (pc + 4)) i

/-- Whether the calls of a compile routine clear `js.compiling`, given
what the instructions compiled through `CompileAt` do; `none` when one of
these has no answer. -/
def callsStop (compileAt : Nat → Option Bool) : List JitCall → Option Bool
  | [] => some false
  | JitCall.CompileAt addr :: cs =>
    match compileAt addr with
    | none => none
    | some a =>
      match callsStop compileAt cs with
      | none => none
      | some b => some (a || b)
  | JitCall.StopCompiling :: cs =>
    match callsStop compileAt cs with
    | none => none
    | some _ => some true
  | _ :: cs => callsStop compileAt cs

/-- Whether the compile routine of `op`, run with the compile cursor at
`pc`, clears `js.compiling`; `none` when the nesting of `CompileAt` exceeds
`depth`. -/
def routineStops (env : Env) : Nat → Nat → Nat → Option Bool
  | 0, _, _ => none
  | depth + 1, op, pc =>
    callsStop (fun addr => routineStops env depth (env.Read_Instruction addr) pc)
      (env.compileTable op pc)

/-- Value returned by `DoJit` (0 when the bound was reached). -/
def Jit.DoJitReturn (env : Env) (fuel : Nat) (s : Jit) (em_address b : Nat) : Nat :=
  match s.DoJit env fuel em_address b with
  | some r => r.2
  | none => 0

/-- A host state at the edge of the signed range: the cycle counter (at
`exampleEnv.downcountAddr`) holds `0x80000000`. -/
def overflowArmState : ArmState :=
  { exampleArmState with mem := fun a => if a = 0x00A00000 then 0x80000000 else 0 }

/-- The example `Jit` with one cycle accumulated. -/
def oneCycleJit : Jit :=
  { linkingJit with js := { linkingJit.js with downcountAmount := 1 } }

/-- Target of the branch that ended a run of emitted code, if one did. -/
def Outcome.jumpTarget : Outcome → Option Nat
  | Outcome.jumped t _ => some t
  | _ => none

/-- The result `r` of compiling in state `t` agrees with the answer `o`
about clearing `js.compiling`: no result when there is no answer; otherwise a
state whose flag is cleared exactly when the answer says so, with the compile
cursor where it was. -/
def StopsAs (r : Option Jit) (t : Jit) (o : Option Bool) : Prop :=
  match o with
  | none => r = none
  | some b => ∃ t1, r = some t1 ∧ t1.js.compiling = (t.js.compiling && !b) ∧
      t1.js.compilerPC = t.js.compilerPC

end MIPSComp

/-! # Semaphores of the kernel layer (`Core/HLE/sceKernelSemaphore.cpp`) -/

namespace HLE

/-- Kernel object identifier. -/
abbrev SceUID := Int

/-- The error constants that the semaphore calls return or hand to a
resumed thread. Their numeric values (in `sceKernel.h`) are not among the
sources; only that they are distinct names is used. -/
inductive SceError where
  | SCE_KERNEL_ERROR_ERROR
  | SCE_KERNEL_ERROR_ILLEGAL_ATTR
  | SCE_KERNEL_ERROR_ILLEGAL_COUNT
  | SCE_KERNEL_ERROR_SEMA_ZERO
  | SCE_KERNEL_ERROR_SEMA_OVF
  | SCE_KERNEL_ERROR_UNKNOWN_SEMID
  | SCE_KERNEL_ERROR_WAIT_CANCEL
  | SCE_KERNEL_ERROR_WAIT_DELETE
  | SCE_KERNEL_ERROR_WAIT_TIMEOUT
  deriving DecidableEq, Repr

/-- An `int` result: a plain value (0 for success) or an error constant. -/
inductive SceRet where
  | value (v : Int)
  | error (e : SceError)
  deriving DecidableEq, Repr

/-- The constant `PSP_SEMA_ATTR_FIFO`. -/
def PSP_SEMA_ATTR_FIFO : Nat := 0

/-- The constant `PSP_SEMA_ATTR_PRIORITY`. -/
def PSP_SEMA_ATTR_PRIORITY : Nat := 0x100

/-- The counters of `struct NativeSemaphore` (its `size` and `name` play
no part in the calls embedded here). The `int` fields are integers without
wrap-around. -/
structure NativeSemaphore where
  attr : Nat
  initCount : Int
  currentCount : Int
  maxCount : Int
  numWaitThreads : Int
  deriving DecidableEq, Repr

/-- The object `struct Semaphore`. -/
structure Semaphore where
  ns : NativeSemaphore
  waitingThreads : List SceUID
  deriving DecidableEq, Repr

/-- What the semaphore code reads and writes of a thread through the
functions of `sceKernelThread`, which is not among the sources: its priority
(`__KernelGetThreadPrio`), the object it waits on as a semaphore, the wait
value and the timeout pointer (`__KernelGetWaitID`, `__KernelGetWaitValue`,
`__KernelGetWaitTimeoutPtr`, set by `__KernelWaitCurThread`), whether it is
waiting, and the result handed over by `__KernelResumeThreadFromWait`. -/
structure Thread where
  prio : Nat
  waitID : SceUID
  waitValue : Int
  timeoutPtr : Nat
  waiting : Bool
  result : SceRet
  deriving DecidableEq, Repr

/-- The kernel state around the semaphores: the semaphore objects
(`kernelObjects`), the threads, the current thread, the timer id
`semaWaitTimer`, the scheduled timeout events (microseconds and thread), guest
memory for the timeout value, and whether `hleReSchedule` or
`hleCheckCurrentCallbacks` were called. -/
structure Kernel where
  semas : SceUID → Option Semaphore
  threads : SceUID → Thread
  curThread : SceUID
  semaWaitTimer : Int
  timeouts : List (Int × SceUID)
  Read_U32 : Nat → Nat
  rescheduled : Bool
  callbacksChecked : Bool

/-- Faults of the model: the bound on the retry loop was too small, or an
end iterator was dereferenced. -/
inductive Fault where
  | OutOfFuel
  | InvalidIterator
  deriving DecidableEq, Repr

/-- Replacement of one semaphore object. -/
def Kernel.setSema (k : Kernel) (id : SceUID) (s : Semaphore) : Kernel :=
  { k with semas := fun i => if i = id then some s else k.semas i }

/-- Replacement of one thread. -/
def Kernel.setThread (k : Kernel) (id : SceUID) (t : Thread) : Kernel :=
  { k with threads := fun i => if i = id then t else k.threads i }

/-- The function `__KernelGetThreadPrio`, a `u32`. -/
def __KernelGetThreadPrio (k : Kernel) (threadID : SceUID) : Nat :=
  MIPSComp.u32 (k.threads threadID).prio

/-- The function `__KernelResumeThreadFromWait`. -/
def __KernelResumeThreadFromWait (k : Kernel) (threadID : SceUID) (result : SceRet) : Kernel :=
  k.setThread threadID { k.threads threadID with waiting := false, result := result }

/-- The function `__KernelWaitCurThread` for `WAITTYPE_SEMA`. -/
def __KernelWaitCurThread (k : Kernel) (id : SceUID) (wantedCount : Int) (timeoutPtr : Nat) :
    Kernel :=
  k.setThread k.curThread
    { k.threads k.curThread with
      waitID := id, waitValue := wantedCount, timeoutPtr := timeoutPtr, waiting := true }

/-- The function `__KernelUnlockSemaForThread`. The result is whether the
thread should be removed, with the semaphore, the kernel state and
`wokeThreads` as the call leaves them. The time left that the code writes to
the guest at `timeoutPtr` is not embedded. -/
def __KernelUnlockSemaForThread (uid : SceUID) (s : Semaphore) (k : Kernel) (threadID : SceUID)
    (result : SceRet) (wokeThreads : Bool) : Bool × Semaphore × Kernel × Bool :=
  let waitID := (k.threads threadID).waitID
  let timeoutPtr := (k.threads threadID).timeoutPtr
  if waitID ≠ uid then (true, s, k, wokeThreads)
  else
    let wVal := (k.threads threadID).waitValue
    if result = SceRet.value 0 ∧ wVal > s.ns.currentCount then (false, s, k, wokeThreads)
    else
      let s1 : Semaphore :=
        if result = SceRet.value 0 then
          { s with ns := { s.ns with currentCount := s.ns.currentCount - wVal,
                                     numWaitThreads := s.ns.numWaitThreads - 1 } }
        else s
      let k1 : Kernel :=
        if timeoutPtr ≠ 0 ∧ k.semaWaitTimer ≠ 0 then
          { k with timeouts := k.timeouts.filter (fun e => decide (e.2 ≠ threadID)) }
        else k
      (true, s1, __KernelResumeThreadFromWait k1 threadID result, true)

/-- The loop of `__KernelSemaFindPriority` over the threads from `iter`
on: `best` and `best_prio` are updated on a strictly smaller priority. -/
def findPriorityLoop (k : Kernel) : List SceUID → Nat → Nat → Nat → Nat
  | [], _, best, _ => best
  | t :: rest, iter, best, best_prio =>
    if __KernelGetThreadPrio k t < best_prio then
      findPriorityLoop k rest (iter + 1) iter (__KernelGetThreadPrio k t)
    else findPriorityLoop k rest (iter + 1) best best_prio

/-- The function `__KernelSemaFindPriority`. Positions are indices into
`waiting`; `waiting.length` stands for `waiting.end()`. -/
def __KernelSemaFindPriority (k : Kernel) (waiting : List SceUID) (begin : Nat) : Nat :=
  findPriorityLoop k (waiting.drop begin) begin waiting.length 0xFFFFFFFF

/-- How one pass of the `for` loop of `sceKernelSignalSema` ends: at the
end of the list, at `goto retry` after an erase, or at an invalid `best`. -/
inductive PassResult where
  | finished (s : Semaphore) (k : Kernel) (wokeThreads : Bool)
  | retry (s : Semaphore) (k : Kernel) (wokeThreads : Bool)
  | invalid

/-- One pass of the `for` loop of `sceKernelSignalSema` from position
`iter`, with `n` positions left up to `end`. -/
def signalPass (uid : SceUID) : Nat → Nat → Semaphore → Kernel → Bool → PassResult
  | 0, _, s, k, wokeThreads => PassResult.finished s k wokeThreads
  | n + 1, iter, s, k, wokeThreads =>
    let best :=
      if s.ns.attr &&& PSP_SEMA_ATTR_PRIORITY ≠ 0 then
        __KernelSemaFindPriority k s.waitingThreads iter
      else iter
    match s.waitingThreads[best]? with
    | none => PassResult.invalid
    | some threadID =>
      match __KernelUnlockSemaForThread uid s k threadID (SceRet.value 0) wokeThreads with
      | (true, s1, k1, woke1) =>
        PassResult.retry { s1 with waitingThreads := s1.waitingThreads.eraseIdx best } k1 woke1
      | (false, s1, k1, woke1) => signalPass uid n (iter + 1) s1 k1 woke1

/-- The passes of `sceKernelSignalSema` from the label `retry` on; `fuel`
bounds their number. -/
def signalRetry (uid : SceUID) : Nat → Semaphore → Kernel → Bool →
    Except Fault (Semaphore × Kernel × Bool)
  | 0, _, _, _ => Except.error Fault.OutOfFuel
  | fuel + 1, s, k, wokeThreads =>
    match signalPass uid s.waitingThreads.length 0 s k wokeThreads with
    | PassResult.finished s1 k1 woke1 => Except.ok (s1, k1, woke1)
    | PassResult.retry s1 k1 woke1 => signalRetry uid fuel s1 k1 woke1
    | PassResult.invalid => Except.error Fault.InvalidIterator

/-- The function `sceKernelSignalSema`. -/
def sceKernelSignalSema (fuel : Nat) (k : Kernel) (id : SceUID) (signal : Int) :
    Except Fault (SceRet × Kernel) :=
  match k.semas id with
  | none => Except.ok (SceRet.error SceError.SCE_KERNEL_ERROR_UNKNOWN_SEMID, k)
  | some s =>
    if s.ns.currentCount + signal - s.ns.numWaitThreads > s.ns.maxCount then
      Except.ok (SceRet.error SceError.SCE_KERNEL_ERROR_SEMA_OVF, k)
    else
      let s1 : Semaphore :=
        { s with ns := { s.ns with currentCount := s.ns.currentCount + signal } }
      match signalRetry id fuel s1 k false with
      | Except.error f => Except.error f
      | Except.ok (s2, k2, wokeThreads) =>
        Except.ok (SceRet.value 0,
          { (k2.setSema id s2) with rescheduled := k2.rescheduled || wokeThreads })

/-- The function `__KernelSetSemaTimeout`. The word read at `timeoutPtr`
is cast to `int`, so a word from `0x80000000` on is negative. -/
def __KernelSetSemaTimeout (k : Kernel) (timeoutPtr : Nat) : Kernel :=
  if timeoutPtr = 0 ∨ k.semaWaitTimer = 0 then k
  else
    let micro : Int := MIPSComp.toInt32 (k.Read_U32 timeoutPtr)
    let micro1 : Int := if micro ≤ 3 then 15 else if micro ≤ 249 then 250 else micro
    { k with timeouts := (micro1, k.curThread) :: k.timeouts }

/-- The function `__KernelWaitSema`. -/
def __KernelWaitSema (k : Kernel) (id : SceUID) (wantedCount : Int) (timeoutPtr : Nat)
    (processCallbacks : Bool) : SceRet × Kernel :=
  match k.semas id with
  | none => (SceRet.error SceError.SCE_KERNEL_ERROR_UNKNOWN_SEMID, k)
  | some s =>
    if wantedCount > s.ns.maxCount ∨ wantedCount ≤ 0 then
      (SceRet.error SceError.SCE_KERNEL_ERROR_ILLEGAL_COUNT, k)
    else if s.ns.currentCount ≥ wantedCount then
      let k1 := k.setSema id
        { s with ns := { s.ns with currentCount := s.ns.currentCount - wantedCount } }
      (SceRet.value 0, if processCallbacks then { k1 with callbacksChecked := true } else k1)
    else
      let threadID := k.curThread
      let s1 : Semaphore :=
        { ns := { s.ns with numWaitThreads := s.ns.numWaitThreads + 1 },
          waitingThreads :=
            if threadID ∈ s.waitingThreads then s.waitingThreads
            else s.waitingThreads ++ [threadID] }
      let k1 := k.setSema id s1
      let k2 := __KernelSetSemaTimeout k1 timeoutPtr
      (SceRet.value 0, __KernelWaitCurThread k2 id wantedCount timeoutPtr)

/-- The function `sceKernelWaitSema`. -/
def sceKernelWaitSema (k : Kernel) (id : SceUID) (wantedCount : Int) (timeoutPtr : Nat) :
    SceRet × Kernel :=
  __KernelWaitSema k id wantedCount timeoutPtr false

/-- The function `sceKernelWaitSemaCB`. -/
def sceKernelWaitSemaCB (k : Kernel) (id : SceUID) (wantedCount : Int) (timeoutPtr : Nat) :
    SceRet × Kernel :=
  __KernelWaitSema k id wantedCount timeoutPtr true

/-- The function `sceKernelPollSema`. -/
def sceKernelPollSema (k : Kernel) (id : SceUID) (wantedCount : Int) : SceRet × Kernel :=
  if wantedCount ≤ 0 then (SceRet.error SceError.SCE_KERNEL_ERROR_ILLEGAL_COUNT, k)
  else
    match k.semas id with
    | none => (SceRet.error SceError.SCE_KERNEL_ERROR_UNKNOWN_SEMID, k)
    | some s =>
      if s.ns.currentCount ≥ wantedCount then
        (SceRet.value 0, k.setSema id
          { s with ns := { s.ns with currentCount := s.ns.currentCount - wantedCount } })
      else (SceRet.error SceError.SCE_KERNEL_ERROR_SEMA_ZERO, k)

/-! ## A concrete kernel, used to evaluate the definitions -/

/-- A thread that waits on semaphore 1 for `count`, with priority `prio`. -/
def waiter (prio : Nat) (count : Int) : Thread :=
  { prio := prio, waitID := 1, waitValue := count, timeoutPtr := 0, waiting := true,
    result := SceRet.value 0 }

/-- A kernel with one semaphore, id 1, of attribute `attr`, count 0 and
maximum 5, on which thread 11 (priority 20) waits for 1 and then thread 12
(priority 10) waits for 5; thread 10 is running. -/
def exampleKernel (attr : Nat) : Kernel :=
  { semas := fun i =>
      if i = 1 then
        some { ns := { attr := attr, initCount := 0, currentCount := 0, maxCount := 5,
                       numWaitThreads := 2 },
               waitingThreads := [11, 12] }
      else none,
    threads := fun i =>
      if i = 11 then waiter 20 1
      else if i = 12 then waiter 10 5
      else { prio := 32, waitID := 0, waitValue := 0, timeoutPtr := 0, waiting := false,
             result := SceRet.value 0 },
    curThread := 10, semaWaitTimer := 1, timeouts := [], Read_U32 := fun _ => 0,
    rescheduled := false, callbacksChecked := false }

/-- A kernel in which thread 7 has the priority `0xFFFFFFFF`. -/
def lowestPriorityKernel : Kernel :=
  { exampleKernel 0x100 with threads := fun _ => waiter 0xFFFFFFFF 1 }

/-- Value returned by `sceKernelSignalSema`, if the model reaches it. -/
def signalRet (fuel : Nat) (k : Kernel) (id : SceUID) (signal : Int) : Option SceRet :=
  match sceKernelSignalSema fuel k id signal with
  | Except.ok r => some r.1
  | Except.error _ => none

/-- Kernel state after `sceKernelSignalSema` (the state before when the
model reaches no result). -/
def signalState (fuel : Nat) (k : Kernel) (id : SceUID) (signal : Int) : Kernel :=
  match sceKernelSignalSema fuel k id signal with
  | Except.ok r => r.2
  | Except.error _ => k

end HLE

/-! # The draw engine of the GPU (`GPU/GLES/TransformPipeline.cpp`)

The draw decision of `TransformDrawEngine::Flush` and step 2 of
`SoftwareTransformAndDraw`, the expansion of rectangles into triangles.
`float` is a type parameter with a comparison; the index generator, the
`GE_PRIM_*` values and `CanUseHardwareTransform` are declared outside the
translated file and are parameters. -/

namespace GLES

/-- The OpenGL primitive modes that the table `glprim` names. -/
inductive GLenum
  | GL_POINTS
  | GL_LINES
  | GL_LINE_STRIP
  | GL_TRIANGLES
  | GL_TRIANGLE_STRIP
  | GL_TRIANGLE_FAN
  deriving DecidableEq, Repr

/-- The table `glprim[8]`, indexed by the primitive type of the PSP: its
seven initialisers in order (rectangles, the sprites, are drawn as
triangles), then the eighth entry, which has no initialiser and is
zero-initialised; zero is the value of `GL_POINTS`. An index beyond the
table gives `none`. -/
def glprim : List GLenum :=
  [GLenum.GL_POINTS, GLenum.GL_LINES, GLenum.GL_LINE_STRIP, GLenum.GL_TRIANGLES,
   GLenum.GL_TRIANGLE_STRIP, GLenum.GL_TRIANGLE_FAN, GLenum.GL_TRIANGLES, GLenum.GL_POINTS]

/-- What `TransformPipeline.cpp` takes from outside: whether the build
defines `USING_GLES2`, the values of the enumerators `GE_PRIM_*` that the
file compares with (the enumeration is declared in a header that is not
part of the sources), and the answer of `CanUseHardwareTransform(prim)`. -/
structure Env where
  USING_GLES2 : Bool
  GE_PRIM_POINTS : Nat
  GE_PRIM_LINES : Nat
  GE_PRIM_TRIANGLES : Nat
  GE_PRIM_RECTANGLES : Nat
  CanUseHardwareTransform : Nat → Bool

/-- What `Flush` reads from the member `indexGen`: the values that its
accessors return. `SeenPrims` is the 32-bit pattern of the returned `int`. -/
structure IndexGenerator where
  Empty : Bool
  Prim : Nat
  SeenPrims : Nat
  VertexCount : Int
  MaxIndex : Int

/-- One entry of the buffers `transformed` and `transformedExpanded`: the
layout that the `memcpy` calls of step 1 and the attribute pointers use
(three position floats, two texture coordinates, four and three colour
components). `F` stands for `float`. -/
structure TransformedVertex (F : Type) where
  x : F
  y : F
  z : F
  u : F
  v : F
  color0 : F × F × F × F
  color1 : F × F × F
  deriving DecidableEq, Repr

/-- A draw call as `Flush` and `SoftwareTransformAndDraw` issue it. The
index type of `glDrawElements` is always `GL_UNSIGNED_SHORT` and is left
out; `indices` is the content of the index buffer passed. -/
inductive GLDraw
  | glDrawArrays (mode : Option GLenum) (first : Int) (count : Int)
  | glDrawElements (mode : Option GLenum) (count : Int) (indices : Nat → Nat)

/-- Whether the call is `glDrawArrays`, the call that takes no index
buffer. -/
def GLDraw.isDrawArrays : GLDraw → Bool
  | GLDraw.glDrawArrays _ _ _ => true
  | GLDraw.glDrawElements _ _ _ => false

/-- The vertex count of a draw call. -/
def GLDraw.count : GLDraw → Int
  | GLDraw.glDrawArrays _ _ c => c
  | GLDraw.glDrawElements _ c _ => c

/-- The mode of a draw call. -/
def GLDraw.mode : GLDraw → Option GLenum
  | GLDraw.glDrawArrays m _ _ => m
  | GLDraw.glDrawElements m _ _ => m

/-- Function `SwapUVs(a, b)`: the two vertices after the exchange of their
texture coordinates. -/
def SwapUVs {F : Type} (a b : TransformedVertex F) :
    TransformedVertex F × TransformedVertex F :=
  let tempu := a.u
  let tempv := a.v
  let a1 := { a with u := b.u, v := b.v }
  let b1 := { b with u := tempu, v := tempv }
  (a1, b1)

/-- Function `RotateUVs(v)` on the four corners `v[0]` to `v[3]`: the four
corners afterwards. -/
def RotateUVs {F : Type} [LT F] [DecidableRel (fun (a b : F) => a < b)]
    (v0 v1 v2 v3 : TransformedVertex F) :
    TransformedVertex F × TransformedVertex F × TransformedVertex F × TransformedVertex F :=
  if (v0.x > v2.x ∧ v0.y < v2.y) ∨ (v0.x < v2.x ∧ v0.y > v2.y) then
    let r := SwapUVs v1 v3
    (v0, r.1, v2, r.2)
  else (v0, v1, v2, v3)

/-- State of the rectangle loop of `SoftwareTransformAndDraw`: `trans`
lists the entries of `transformedExpanded` written so far, from entry 0 on
(the pointer `trans` of the source stands right behind them), `numTrans` is
the counter and `saved` the local of that name. -/
structure Expansion (F : Type) where
  trans : List (TransformedVertex F)
  numTrans : Int
  saved : TransformedVertex F

/-- Body of the loop `for (int i = 0; i < vertexCount; i++)` of step 2, for
one value of `i`. `transformed` is the buffer of that name as step 1 leaves
it and `inds` the index buffer, read as `u16`. -/
def expandStep {F : Type} [LT F] [DecidableRel (fun (a b : F) => a < b)]
    (transformed : Nat → TransformedVertex F) (inds : Nat → Nat)
    (st : Expansion F) (i : Nat) : Expansion F :=
  let index := inds i % 2 ^ 16
  let transVtx := transformed index
  if i &&& 1 = 0 then
    { st with saved := transVtx }
  else
    let saved := st.saved
    let t0 := transVtx
    let t1 := { transVtx with y := saved.y, v := saved.v }
    let t2 := { transVtx with x := saved.x, y := saved.y, u := saved.u, v := saved.v }
    let t3 := { transVtx with x := saved.x, u := saved.u }
    let r := RotateUVs t0 t1 t2 t3
    let t4 := r.1
    let t5 := r.2.2.1
    { trans := st.trans ++ [r.1, r.2.1, r.2.2.1, r.2.2.2, t4, t5],
      numTrans := st.numTrans + 6,
      saved := saved }

/-- The rectangle loop of step 2, run for `i` from 0 up to `vertexCount`
(no iteration when `vertexCount` is not positive). `saved` is the
indeterminate initial content of the local of that name. -/
def expandRectangles {F : Type} [LT F] [DecidableRel (fun (a b : F) => a < b)]
    (transformed : Nat → TransformedVertex F) (inds : Nat → Nat)
    (vertexCount : Int) (saved : TransformedVertex F) : Expansion F :=
  (List.range vertexCount.toNat).foldl (expandStep transformed inds)
    { trans := [], numTrans := 0, saved := saved }

/-- The six entries that the odd branch of the loop writes when `saved`
holds `first` and the vertex read is `second`. -/
def rectangleOf {F : Type} [LT F] [DecidableRel (fun (a b : F) => a < b)]
    (first second : TransformedVertex F) : List (TransformedVertex F) :=
  let r := RotateUVs second
    { second with y := first.y, v := first.v }
    { second with x := first.x, y := first.y, u := first.u, v := first.v }
    { second with x := first.x, u := first.u }
  [r.1, r.2.1, r.2.2.1, r.2.2.2, r.1, r.2.2.1]

/-- The description of the six output vertices of a pair `(first, second)`:
positions `(second.x, second.y)`, `(second.x, first.y)`,
`(first.x, first.y)`, `(first.x, second.y)`, then copies of output vertex 0
and output vertex 2, with `z` and both colours taken from `second`. -/
def DescribedRectangle {F : Type} (first second : TransformedVertex F)
    (out : List (TransformedVertex F)) : Prop :=
  ∃ o0 o1 o2 o3 : TransformedVertex F, out = [o0, o1, o2, o3, o0, o2] ∧
    (o0.x = second.x ∧ o0.y = second.y) ∧
    (o1.x = second.x ∧ o1.y = first.y) ∧
    (o2.x = first.x ∧ o2.y = first.y) ∧
    (o3.x = first.x ∧ o3.y = second.y) ∧
    ∀ o ∈ out, o.z = second.z ∧ o.color0 = second.color0 ∧ o.color1 = second.color1

/-- Which buffer the vertex attribute pointers are set to. -/
inductive DrawBuffer
  | transformed
  | transformedExpanded
  deriving DecidableEq, Repr

/-- What `SoftwareTransformAndDraw` leaves behind: the locals `drawBuffer`,
`numTrans` and `drawIndexed`, the written part of `transformedExpanded`,
and the draw call issued. -/
structure SoftwareDraw (F : Type) where
  drawBuffer : DrawBuffer
  numTrans : Int
  drawIndexed : Bool
  transformedExpanded : List (TransformedVertex F)
  draw : GLDraw

/-- Capacity of `transformedExpanded`, allocated by the constructor as
`new TransformedVertex[65536 * 3]`. -/
def transformedExpandedCapacity : Int := 65536 * 3

/-- The clamp of `vertexCount` at the head of `SoftwareTransformAndDraw`,
compiled only when `USING_GLES2` is defined. -/
def clampVertexCount (env : Env) (vertexCount : Int) : Int :=
  if env.USING_GLES2 = true ∧ vertexCount > 0x10000 / 3 then 0x10000 / 3 else vertexCount

/-- Method `TransformDrawEngine::SoftwareTransformAndDraw`, from the clamp
of `vertexCount` to the draw call. Step 1 (transform and lighting) acts on
what follows only through the buffer `transformed`, which is taken as it
stands after step 1. -/
def SoftwareTransformAndDraw {F : Type} [LT F] [DecidableRel (fun (a b : F) => a < b)]
    (env : Env) (transformed : Nat → TransformedVertex F) (saved : TransformedVertex F)
    (prim : Nat) (vertexCount : Int) (inds : Nat → Nat) : SoftwareDraw F :=
  let vertexCount1 := clampVertexCount env vertexCount
  if prim ≠ env.GE_PRIM_RECTANGLES then
    { drawBuffer := DrawBuffer.transformed,
      numTrans := vertexCount1,
      drawIndexed := true,
      transformedExpanded := [],
      draw := GLDraw.glDrawElements glprim[prim]? vertexCount1 inds }
  else
    let st := expandRectangles transformed inds vertexCount1 saved
    { drawBuffer := DrawBuffer.transformedExpanded,
      numTrans := st.numTrans,
      drawIndexed := false,
      transformedExpanded := st.trans,
      draw := GLDraw.glDrawArrays glprim[prim]? 0 st.numTrans }

/-- The members of `TransformDrawEngine` that `Flush` uses: the index
generator, the index buffer `decIndex` and the buffer `transformed` as
step 1 of the software path leaves it. -/
structure TransformDrawEngine (F : Type) where
  indexGen : IndexGenerator
  decIndex : Nat → Nat
  transformed : Nat → TransformedVertex F

/-- The local `seen` of `Flush`, as a 32-bit pattern. -/
def Flush.seen (indexGen : IndexGenerator) : Nat :=
  (indexGen.SeenPrims ||| 0x83204820) % 2 ^ 32

/-- Method `TransformDrawEngine::Flush`: the draw call that it issues, or
`none` when the index generator is empty and it returns at once. `saved` is
the indeterminate initial content of the local of the software path. -/
def TransformDrawEngine.Flush {F : Type} [LT F] [DecidableRel (fun (a b : F) => a < b)]
    (env : Env) (e : TransformDrawEngine F) (saved : TransformedVertex F) : Option GLDraw :=
  if e.indexGen.Empty then none
  else
    let prim := e.indexGen.Prim
    if env.CanUseHardwareTransform prim then
      let seen := Flush.seen e.indexGen
      if seen = (1 <<< env.GE_PRIM_TRIANGLES) % 2 ^ 32 ∨ seen = (1 <<< env.GE_PRIM_LINES) % 2 ^ 32 ∨
          seen = (1 <<< env.GE_PRIM_POINTS) % 2 ^ 32 then
        some (GLDraw.glDrawArrays glprim[prim]? 0 e.indexGen.VertexCount)
      else
        some (GLDraw.glDrawElements glprim[prim]? e.indexGen.VertexCount e.decIndex)
    else
      some (SoftwareTransformAndDraw env e.transformed saved prim e.indexGen.VertexCount
        e.decIndex).draw

/-! ### Examples -/

/-- The primitive types of the PSP in the order of the entries of
`glprim`, in a build with or without `USING_GLES2`, where
`CanUseHardwareTransform` holds for everything but rectangles. -/
def exampleBuild (gles2 : Bool) : Env :=
  { USING_GLES2 := gles2,
    GE_PRIM_POINTS := 0,
    GE_PRIM_LINES := 1,
    GE_PRIM_TRIANGLES := 3,
    GE_PRIM_RECTANGLES := 6,
    CanUseHardwareTransform := fun prim => decide (prim ≠ 6) }

/-- A vertex with integer coordinates. -/
def exampleVertex (x y z u v : Int) : TransformedVertex Int :=
  { x := x, y := y, z := z, u := u, v := v, color0 := (z, z, z, z), color1 := (z, z, z) }

/-- A buffer `transformed` whose entry `i` lies at `(10 * i, 7 * i)`. -/
def exampleTransformed (i : Nat) : TransformedVertex Int :=
  exampleVertex (10 * i) (7 * i) i (i + 1) (i + 2)

/-- An engine that has seen three triangle vertices and nothing else. -/
def trianglesEngine : TransformDrawEngine Int :=
  { indexGen := { Empty := false, Prim := 3, SeenPrims := 1 <<< 3, VertexCount := 3, MaxIndex := 3 },
    decIndex := fun i => i,
    transformed := exampleTransformed }

end GLES

namespace MIPSComp

/-! ## Basic facts about the block table -/

theorem updateBlock_length (f : ArmJitBlock → ArmJitBlock) (i : Nat) (l : List ArmJitBlock) :
    (updateBlock f i l).length = l.length := by
  induction l generalizing i with
  | nil => cases i <;> rfl
  | cons b bs ih =>
    cases i with
    | zero => rfl
    | succ k => simp [updateBlock, ih]

theorem getD_updateBlock_self (f : ArmJitBlock → ArmJitBlock) (i : Nat) (l : List ArmJitBlock)
    (d : ArmJitBlock) (h : i < l.length) :
    (updateBlock f i l).getD i d = f (l.getD i d) := by
  induction l generalizing i with
  | nil => simp at h
  | cons b bs ih =>
    cases i with
    | zero => simp [updateBlock]
    | succ k =>
      have hk : k < bs.length := by simpa using h
      simpa [updateBlock] using ih k hk

theorem getD_updateBlock_ne (f : ArmJitBlock → ArmJitBlock) (i j : Nat) (l : List ArmJitBlock)
    (d : ArmJitBlock) (h : j ≠ i) :
    (updateBlock f i l).getD j d = l.getD j d := by
  induction l generalizing i j with
  | nil => cases i <;> rfl
  | cons b bs ih =>
    cases i with
    | zero =>
      cases j with
      | zero => exact absurd rfl h
      | succ m => simp [updateBlock]
    | succ k =>
      cases j with
      | zero => simp [updateBlock]
      | succ m =>
        have hm : m ≠ k := fun e => h (by rw [e])
        simpa [updateBlock] using ih k m hm

/-- A field that the update does not touch reads the same at every index. -/
theorem getD_updateBlock_field {α : Type} (g : ArmJitBlock → α) (f : ArmJitBlock → ArmJitBlock)
    (hf : ∀ b, g (f b) = g b) (i j : Nat) (l : List ArmJitBlock) (d : ArmJitBlock) :
    g ((updateBlock f i l).getD j d) = g (l.getD j d) := by
  induction l generalizing i j with
  | nil => cases i <;> rfl
  | cons b bs ih =>
    cases i with
    | zero =>
      cases j with
      | zero => simp [updateBlock, hf]
      | succ m => simp [updateBlock]
    | succ k =>
      cases j with
      | zero => simp [updateBlock]
      | succ m => simpa [updateBlock] using ih k m

/-- The lookup only reads the start address and the lifecycle flag. -/
theorem findBlock_updateBlock (f : ArmJitBlock → ArmJitBlock)
    (hfin : ∀ b, (f b).finalized = b.finalized)
    (haddr : ∀ b, (f b).originalAddress = b.originalAddress)
    (addr i k : Nat) (l : List ArmJitBlock) :
    findBlock addr (updateBlock f i l) k = findBlock addr l k := by
  induction l generalizing i k with
  | nil => cases i <;> rfl
  | cons b bs ih =>
    cases i with
    | zero => simp [updateBlock, findBlock, hfin, haddr]
    | succ m => simp [updateBlock, findBlock, ih]

/-! ## Flags are not touched by moves and stores -/

theorem condHolds_setReg (c : CCFlags) (st : ArmState) (x : ARMReg) (v : Nat) :
    condHolds c (st.setReg x v) = condHolds c st := by
  cases c <;> rfl

theorem condHolds_store (c : CCFlags) (st : ArmState) (a v : Nat) :
    condHolds c (st.store a v) = condHolds c st := by
  cases c <;> rfl

/-! ## The checked entry -/

theorem GetBlock_updateCurBlock_self (s : Jit) (f : ArmJitBlock → ArmJitBlock)
    (h : s.js.curBlock < s.blocks.blocks.length) :
    (s.updateCurBlock f).blocks.GetBlock s.js.curBlock = f (s.blocks.GetBlock s.js.curBlock) := by
  simp only [Jit.updateCurBlock, ArmJitBlockCache.GetBlock]
  exact getD_updateBlock_self f _ _ _ h

/-- C2: the code that `DoJit` emits between `checkedEntry` and
`normalEntry` is all conditional on `LT`; run with `LT` true it stores
`js.blockStart` to the guest program counter and branches to
`asm_.outerLoop`, run with `LT` false it falls through to `normalEntry` with
the machine state untouched. -/
theorem DoJitEntry_checked_entry (env : Env) (s : Jit) (em_address b : Nat) (st : ArmState) :
    (s.DoJitEntry env em_address b).code
        = s.code ++ (s.DoJitEntry env em_address b).emittedSince s ∧
    (∀ i ∈ (s.DoJitEntry env em_address b).emittedSince s, i.cond = CCFlags.CC_LT) ∧
    (b < s.blocks.blocks.length →
      ((s.DoJitEntry env em_address b).blocks.GetBlock b).checkedEntry = s.GetCodePtr ∧
      ((s.DoJitEntry env em_address b).blocks.GetBlock b).normalEntry
        = (s.DoJitEntry env em_address b).GetCodePtr) ∧
    exec ((s.DoJitEntry env em_address b).emittedSince s) st =
      (if condHolds CCFlags.CC_LT st then
        Outcome.jumped (u32 env.outerLoop)
          (((st.setReg ARMReg.R0 (s.DoJitEntry env em_address b).js.blockStart).store
              (st.r ARMReg.R10 + env.pcOffset) (s.DoJitEntry env em_address b).js.blockStart).setReg
            ARMReg.R0 env.outerLoop)
      else Outcome.fallthrough st) ∧
    (((st.setReg ARMReg.R0 (s.DoJitEntry env em_address b).js.blockStart).store
        (st.r ARMReg.R10 + env.pcOffset) (s.DoJitEntry env em_address b).js.blockStart).setReg
      ARMReg.R0 env.outerLoop).mem (u32 (st.r ARMReg.R10 + env.pcOffset))
      = u32 (s.DoJitEntry env em_address b).js.blockStart := by
  have hcode : (s.DoJitEntry env em_address b).code = s.code ++
      [ { cond := CCFlags.CC_LT, op := ArmOp.MOVI2R ARMReg.R0 s.mips_pc },
        { cond := CCFlags.CC_LT, op := ArmOp.STR ARMReg.R10 ARMReg.R0 env.pcOffset },
        { cond := CCFlags.CC_LT, op := ArmOp.MOVI2R ARMReg.R0 env.outerLoop },
        { cond := CCFlags.CC_LT, op := ArmOp.B_reg ARMReg.R0 } ] := by
    simp [Jit.DoJitEntry, Jit.Write, Jit.MovToPC, Jit.SetCC, Jit.updateCurBlock]
  have hseq : (s.DoJitEntry env em_address b).emittedSince s =
      [ { cond := CCFlags.CC_LT, op := ArmOp.MOVI2R ARMReg.R0 s.mips_pc },
        { cond := CCFlags.CC_LT, op := ArmOp.STR ARMReg.R10 ARMReg.R0 env.pcOffset },
        { cond := CCFlags.CC_LT, op := ArmOp.MOVI2R ARMReg.R0 env.outerLoop },
        { cond := CCFlags.CC_LT, op := ArmOp.B_reg ARMReg.R0 } ] := by
    simp [Jit.emittedSince, hcode]
  have hstart : (s.DoJitEntry env em_address b).js.blockStart = s.mips_pc := by
    simp [Jit.DoJitEntry, Jit.Write, Jit.MovToPC, Jit.SetCC, Jit.updateCurBlock]
  refine ⟨?_, ?_, ?_, ?_, ?_⟩
  · rw [hseq, hcode]
  · rw [hseq]
    intro i hi
    simp at hi
    rcases hi with h | h | h | h <;> rw [h]
  · intro hb
    constructor
    · simp only [Jit.DoJitEntry, Jit.Write, Jit.MovToPC, Jit.SetCC, Jit.updateCurBlock,
        ArmJitBlockCache.GetBlock, Jit.GetCodePtr]
      rw [getD_updateBlock_self _ _ _ _ (by rw [updateBlock_length]; exact hb)]
      simp only []
      rw [getD_updateBlock_self _ _ _ _ hb]
    · simp only [Jit.DoJitEntry, Jit.Write, Jit.MovToPC, Jit.SetCC, Jit.updateCurBlock,
        ArmJitBlockCache.GetBlock, Jit.GetCodePtr]
      rw [getD_updateBlock_self _ _ _ _ (by rw [updateBlock_length]; exact hb)]
  · rw [hseq, hstart]
    by_cases hc : condHolds CCFlags.CC_LT st = true
    · have hc1 : condHolds CCFlags.CC_LT (st.setReg ARMReg.R0 s.mips_pc) = true := hc
      simp only [exec, execOp, hc, hc1, if_true]
      have hc2 : condHolds CCFlags.CC_LT
          ((st.setReg ARMReg.R0 s.mips_pc).store
            ((st.setReg ARMReg.R0 s.mips_pc).r ARMReg.R10 + env.pcOffset)
            ((st.setReg ARMReg.R0 s.mips_pc).r ARMReg.R0)) = true := hc
      have hc3 : condHolds CCFlags.CC_LT
          (((st.setReg ARMReg.R0 s.mips_pc).store
            ((st.setReg ARMReg.R0 s.mips_pc).r ARMReg.R10 + env.pcOffset)
            ((st.setReg ARMReg.R0 s.mips_pc).r ARMReg.R0)).setReg ARMReg.R0 env.outerLoop)
            = true := hc
      simp only [hc2, hc3, if_true]
      simp [ArmState.setReg, ArmState.store, u32]
    · simp only [Bool.not_eq_true] at hc
      simp [exec, hc]
  · simp [ArmState.setReg, ArmState.store, u32]

/-- Witness of C2 on the example: block 0 of `exampleJit`, entered with
`LT` false. -/
theorem DoJitEntry_checked_entry_witness :
    (0 < exampleJit.blocks.blocks.length) ∧
    ((exampleJit.DoJitEntry exampleEnv 0x08000000 0).blocks.GetBlock 0).checkedEntry = 0 ∧
    ((exampleJit.DoJitEntry exampleEnv 0x08000000 0).blocks.GetBlock 0).normalEntry = 16 :=
  ⟨by decide,
   ((DoJitEntry_checked_entry exampleEnv exampleJit 0x08000000 0 exampleArmState).2.2.1
      (by decide)).1,
   ((DoJitEntry_checked_entry exampleEnv exampleJit 0x08000000 0 exampleArmState).2.2.1
      (by decide)).2⟩

/-! ## Exits -/

theorem findBlock_neg (addr : Nat) (l : List ArmJitBlock) (k : Nat) :
    findBlock addr l k = -1 ∨ 0 ≤ findBlock addr l k := by
  induction l generalizing k with
  | nil => left; rfl
  | cons b bs ih =>
    simp only [findBlock]
    split
    · right; exact Int.natCast_nonneg k
    · exact ih (k + 1)

/-- A successful lookup designates a finalized block registered under the
address. -/
theorem findBlock_found (addr : Nat) (d : ArmJitBlock) (l : List ArmJitBlock) (k : Nat)
    (h : 0 ≤ findBlock addr l k) :
    ∃ i, findBlock addr l k = ((k + i : Nat) : Int) ∧ i < l.length ∧
      (l.getD i d).finalized = true ∧ (l.getD i d).originalAddress = addr := by
  induction l generalizing k with
  | nil => simp [findBlock] at h
  | cons b bs ih =>
    simp only [findBlock] at h ⊢
    split
    · rename_i hb
      simp only [Bool.and_eq_true, decide_eq_true_eq] at hb
      exact ⟨0, by simp, by simp, by simpa using hb.1, by simpa using hb.2⟩
    · rename_i hb
      rw [if_neg hb] at h
      obtain ⟨i, h1, h2, h3, h4⟩ := ih (k + 1) h
      refine ⟨i + 1, ?_, by simpa using h2, by simpa using h3, by simpa using h4⟩
      rw [h1]; congr 1; omega

theorem DoDownCount_frame (env : Env) (s : Jit) :
    (s.DoDownCount env).js = s.js ∧ (s.DoDownCount env).jo = s.jo ∧
    (s.DoDownCount env).blocks = s.blocks ∧ (s.DoDownCount env).gpr = s.gpr ∧
    (s.DoDownCount env).condition = s.condition ∧ (s.DoDownCount env).mips_pc = s.mips_pc := by
  unfold Jit.DoDownCount
  simp only [Jit.Write]
  split <;> exact ⟨rfl, rfl, rfl, rfl, rfl, rfl⟩

/-- The lookup that `WriteExit` makes, after it has recorded the exit,
gives what the lookup gives before the call. -/
theorem WriteExit_lookup (env : Env) (s : Jit) (destination exit_num : Nat) :
    (((s.DoDownCount env).updateCurBlock (fun b =>
        { b with exitAddress := fun i => if i = exit_num then destination else b.exitAddress i })
      ).updateCurBlock (fun b =>
        { b with exitPtrs := fun i =>
            if i = exit_num then
              ((s.DoDownCount env).updateCurBlock (fun b =>
                { b with exitAddress := fun i =>
                    if i = exit_num then destination else b.exitAddress i })).GetCodePtr
            else b.exitPtrs i })).blocks.GetBlockNumberFromStartAddress destination
      = s.blocks.GetBlockNumberFromStartAddress destination := by
  simp only [Jit.updateCurBlock, ArmJitBlockCache.GetBlockNumberFromStartAddress]
  rw [findBlock_updateBlock, findBlock_updateBlock, (DoDownCount_frame env s).2.2.1]
  all_goals intro b; rfl

/-- C3: with block linking enabled and a block found for `destination`,
`WriteExit` emits the decrement and then one direct branch to the checked
entry of the block found, which is a finalized block registered under
`destination`, and nothing else; `linkStatus[exit_num]` of the current block
becomes true. -/
theorem WriteExit_links (env : Env) (s : Jit) (destination exit_num : Nat)
    (henable : s.jo.enableBlocklink = true)
    (hfound : 0 ≤ s.blocks.GetBlockNumberFromStartAddress destination) :
    (s.WriteExit env destination exit_num).code = (s.DoDownCount env).code ++
      [{ cond := s.condition,
         op := ArmOp.B_ptr (s.blocks.GetBlock
                (s.blocks.GetBlockNumberFromStartAddress destination).toNat).checkedEntry }] ∧
    (s.blocks.GetBlock (s.blocks.GetBlockNumberFromStartAddress destination).toNat).finalized
      = true ∧
    (s.blocks.GetBlock (s.blocks.GetBlockNumberFromStartAddress destination).toNat).originalAddress
      = destination ∧
    (s.js.curBlock < s.blocks.blocks.length →
      ((s.WriteExit env destination exit_num).blocks.GetBlock s.js.curBlock).linkStatus exit_num
        = true) := by
  obtain ⟨hjs, hjo, hblocks, hgpr, hcond, hpc⟩ := DoDownCount_frame env s
  have hlook := WriteExit_lookup env s destination exit_num
  have hguard : 0 ≤ s.blocks.GetBlockNumberFromStartAddress destination ∧
      s.jo.enableBlocklink = true := ⟨hfound, henable⟩
  obtain ⟨i, hi1, hi2, hi3, hi4⟩ :=
    findBlock_found destination (ArmJitBlock.fresh 0) s.blocks.blocks 0 hfound
  have hidx : (s.blocks.GetBlockNumberFromStartAddress destination).toNat = i := by
    unfold ArmJitBlockCache.GetBlockNumberFromStartAddress
    rw [hi1]; simp
  refine ⟨?_, ?_, ?_, ?_⟩
  · unfold Jit.WriteExit
    simp only [hlook]
    rw [if_pos (by simpa [Jit.updateCurBlock, hjo] using hguard)]
    simp only [Jit.updateCurBlock, Jit.Write, ArmJitBlockCache.GetBlock, hcond, hblocks]
    rw [getD_updateBlock_field (fun b => b.checkedEntry),
      getD_updateBlock_field (fun b => b.checkedEntry)]
    all_goals intro b; rfl
  · rw [hidx]; exact hi3
  · rw [hidx]; exact hi4
  · intro hcur
    unfold Jit.WriteExit
    simp only [hlook]
    rw [if_pos (by simpa [Jit.updateCurBlock, hjo] using hguard)]
    simp only [Jit.updateCurBlock, Jit.Write, ArmJitBlockCache.GetBlock, hjs, hblocks]
    rw [getD_updateBlock_self _ _ _ _ (by simpa [updateBlock_length] using hcur)]
    simp

/-- Witness of C3: `linkingJit` writes exit 0 to `0x08000000`, which block
0 holds. -/
theorem WriteExit_links_witness :
    linkingJit.jo.enableBlocklink = true ∧
    0 ≤ linkingJit.blocks.GetBlockNumberFromStartAddress 0x08000000 ∧
    (linkingJit.WriteExit exampleEnv 0x08000000 0).code =
      (linkingJit.DoDownCount exampleEnv).code ++
        [{ cond := CCFlags.CC_AL, op := ArmOp.B_ptr 64 }] ∧
    ((linkingJit.WriteExit exampleEnv 0x08000000 0).blocks.GetBlock 1).linkStatus 0 = true :=
  ⟨rfl, by decide,
   (WriteExit_links exampleEnv linkingJit 0x08000000 0 rfl (by decide)).1,
   (WriteExit_links exampleEnv linkingJit 0x08000000 0 rfl (by decide)).2.2.2 (by decide)⟩

/-- C4: with block linking disabled, or no block found for `destination`,
`WriteExit` emits the decrement and then the store of `destination` to the
guest program counter and the branch to `asm_.dispatcher`: no direct branch,
and no link recorded. Run where its condition passes, that code leaves
`destination` in the guest program counter and goes to the dispatcher. -/
theorem WriteExit_dispatcher (env : Env) (s : Jit) (destination exit_num : Nat) (st : ArmState)
    (h : s.jo.enableBlocklink = false ∨
      s.blocks.GetBlockNumberFromStartAddress destination < 0) :
    (s.WriteExit env destination exit_num).code = (s.DoDownCount env).code ++
      [{ cond := s.condition, op := ArmOp.MOVI2R ARMReg.R0 destination },
       { cond := s.condition, op := ArmOp.STR ARMReg.R10 ARMReg.R0 env.pcOffset },
       { cond := s.condition, op := ArmOp.MOVI2R ARMReg.R0 env.dispatcher },
       { cond := s.condition, op := ArmOp.B_reg ARMReg.R0 }] ∧
    (∀ j, ((s.WriteExit env destination exit_num).blocks.GetBlock j).linkStatus
      = (s.blocks.GetBlock j).linkStatus) ∧
    exec [{ cond := s.condition, op := ArmOp.MOVI2R ARMReg.R0 destination },
          { cond := s.condition, op := ArmOp.STR ARMReg.R10 ARMReg.R0 env.pcOffset },
          { cond := s.condition, op := ArmOp.MOVI2R ARMReg.R0 env.dispatcher },
          { cond := s.condition, op := ArmOp.B_reg ARMReg.R0 }] st =
      (if condHolds s.condition st then
        Outcome.jumped (u32 env.dispatcher)
          (((st.setReg ARMReg.R0 destination).store (st.r ARMReg.R10 + env.pcOffset)
              destination).setReg ARMReg.R0 env.dispatcher)
      else Outcome.fallthrough st) ∧
    (((st.setReg ARMReg.R0 destination).store (st.r ARMReg.R10 + env.pcOffset)
        destination).setReg ARMReg.R0 env.dispatcher).mem (u32 (st.r ARMReg.R10 + env.pcOffset))
      = u32 destination := by
  obtain ⟨hjs, hjo, hblocks, hgpr, hcond, hpc⟩ := DoDownCount_frame env s
  have hlook := WriteExit_lookup env s destination exit_num
  have hguard : ¬ (0 ≤ s.blocks.GetBlockNumberFromStartAddress destination ∧
      s.jo.enableBlocklink = true) := by
    rintro ⟨h1, h2⟩
    rcases h with h | h
    · rw [h] at h2; exact Bool.noConfusion h2
    · omega
  refine ⟨?_, ?_, ?_, ?_⟩
  · unfold Jit.WriteExit
    simp only [hlook]
    rw [if_neg (by simpa [Jit.updateCurBlock, hjo] using hguard)]
    simp [Jit.updateCurBlock, Jit.Write, Jit.MovToPC, hcond]
  · intro j
    unfold Jit.WriteExit
    simp only [hlook]
    rw [if_neg (by simpa [Jit.updateCurBlock, hjo] using hguard)]
    simp only [Jit.updateCurBlock, Jit.Write, Jit.MovToPC, ArmJitBlockCache.GetBlock, hblocks]
    rw [getD_updateBlock_field (fun b => b.linkStatus),
      getD_updateBlock_field (fun b => b.linkStatus)]
    all_goals intro b; rfl
  · by_cases hc : condHolds s.condition st = true
    · simp only [exec, execOp, condHolds_setReg, condHolds_store, hc, if_true]
      simp [ArmState.setReg, ArmState.store, u32]
    · simp only [Bool.not_eq_true] at hc
      simp [exec, hc]
  · simp [ArmState.setReg, ArmState.store, u32]

/-- Witness of C4: `linkingJit` writes an exit to `0x08000200`, which no
block holds. -/
theorem WriteExit_dispatcher_witness :
    linkingJit.blocks.GetBlockNumberFromStartAddress 0x08000200 < 0 ∧
    (linkingJit.WriteExit exampleEnv 0x08000200 1).code =
      (linkingJit.DoDownCount exampleEnv).code ++
      [{ cond := CCFlags.CC_AL, op := ArmOp.MOVI2R ARMReg.R0 0x08000200 },
       { cond := CCFlags.CC_AL, op := ArmOp.STR ARMReg.R10 ARMReg.R0 0x200 },
       { cond := CCFlags.CC_AL, op := ArmOp.MOVI2R ARMReg.R0 0x00100040 },
       { cond := CCFlags.CC_AL, op := ArmOp.B_reg ARMReg.R0 }] :=
  ⟨by decide,
   (WriteExit_dispatcher exampleEnv linkingJit 0x08000200 1 exampleArmState
      (Or.inr (by decide))).1⟩

/-! ## What the calls of a compile routine preserve -/

theorem map_blockKey_updateBlock (f : ArmJitBlock → ArmJitBlock)
    (hf : ∀ b, blockKey (f b) = blockKey b) (i : Nat) (l : List ArmJitBlock) :
    (updateBlock f i l).map blockKey = l.map blockKey := by
  induction l generalizing i with
  | nil => cases i <;> rfl
  | cons b bs ih =>
    cases i with
    | zero => simp [updateBlock, hf]
    | succ k => simp [updateBlock, ih]

theorem Frame_refl (s : Jit) : s.Frame s :=
  ⟨rfl, rfl, rfl, rfl, rfl, rfl, rfl, rfl, rfl, ⟨[], by simp⟩⟩

theorem Frame_trans {s s1 s2 : Jit} (h1 : s.Frame s1) (h2 : s1.Frame s2) : s.Frame s2 := by
  obtain ⟨x1, hx1⟩ := h1.code
  obtain ⟨x2, hx2⟩ := h2.code
  exact ⟨h2.downcountAmount.trans h1.downcountAmount, h2.compilerPC.trans h1.compilerPC,
    h2.blockStart.trans h1.blockStart, h2.curBlock.trans h1.curBlock, h2.jo.trans h1.jo,
    h2.condition.trans h1.condition, h2.mips_pc.trans h1.mips_pc,
    h2.capacity.trans h1.capacity, h2.keys.trans h1.keys,
    ⟨x1 ++ x2, by rw [hx2, hx1, List.append_assoc]⟩⟩

theorem Frame_Write (s : Jit) (op : ArmOp) : s.Frame (s.Write op) :=
  ⟨rfl, rfl, rfl, rfl, rfl, rfl, rfl, rfl, rfl, ⟨_, rfl⟩⟩

theorem Frame_updateCurBlock (s : Jit) (f : ArmJitBlock → ArmJitBlock)
    (hf : ∀ b, blockKey (f b) = blockKey b) : s.Frame (s.updateCurBlock f) :=
  ⟨rfl, rfl, rfl, rfl, rfl, rfl, rfl, rfl, map_blockKey_updateBlock f hf _ _, ⟨[], by
    simp [Jit.updateCurBlock]⟩⟩

theorem Frame_FlushAll (s : Jit) : s.Frame s.FlushAll :=
  ⟨rfl, rfl, rfl, rfl, rfl, rfl, rfl, rfl, rfl, ⟨_, rfl⟩⟩

theorem Frame_MovToPC (env : Env) (s : Jit) (x : ARMReg) : s.Frame (s.MovToPC env x) :=
  Frame_Write s _

theorem Frame_DoDownCount (env : Env) (s : Jit) : s.Frame (s.DoDownCount env) := by
  unfold Jit.DoDownCount
  simp only []
  split
  · exact Frame_trans (Frame_trans (Frame_trans (Frame_Write _ _) (Frame_Write _ _))
      (Frame_Write _ _)) (Frame_Write _ _)
  · exact Frame_trans (Frame_trans (Frame_trans (Frame_trans (Frame_Write _ _) (Frame_Write _ _))
      (Frame_Write _ _)) (Frame_Write _ _)) (Frame_Write _ _)

theorem Frame_Comp_Generic (env : Env) (s : Jit) (op : Nat) : s.Frame (s.Comp_Generic env op) := by
  unfold Jit.Comp_Generic
  simp only []
  split
  · exact Frame_trans (Frame_trans (Frame_trans (Frame_FlushAll s) (Frame_Write _ _))
      (Frame_MovToPC env _ _)) (Frame_Write _ _)
  · exact Frame_FlushAll s

theorem Frame_WriteExit (env : Env) (s : Jit) (destination exit_num : Nat) :
    s.Frame (s.WriteExit env destination exit_num) := by
  unfold Jit.WriteExit
  simp only []
  have h2 := Frame_trans (Frame_trans (Frame_DoDownCount env s)
    (Frame_updateCurBlock (s.DoDownCount env) (fun b =>
      { b with exitAddress := fun i => if i = exit_num then destination else b.exitAddress i })
      (fun _ => rfl)))
    (Frame_updateCurBlock _ (fun b =>
      { b with exitPtrs := fun i =>
          if i = exit_num then
            ((s.DoDownCount env).updateCurBlock (fun b =>
              { b with exitAddress := fun i =>
                  if i = exit_num then destination else b.exitAddress i })).GetCodePtr
          else b.exitPtrs i }) (fun _ => rfl))
  split
  · exact Frame_trans (Frame_trans h2 (Frame_Write _ _))
      (Frame_updateCurBlock _ _ (fun _ => rfl))
  · exact Frame_trans (Frame_trans (Frame_trans (Frame_trans h2 (Frame_Write _ _))
      (Frame_MovToPC env _ _)) (Frame_Write _ _)) (Frame_Write _ _)

theorem Frame_WriteExitDestInR (env : Env) (s : Jit) (x : ARMReg) :
    s.Frame (s.WriteExitDestInR env x) :=
  Frame_trans (Frame_trans (Frame_trans (Frame_MovToPC env s x) (Frame_DoDownCount env _))
    (Frame_Write _ _)) (Frame_Write _ _)

theorem Frame_WriteSyscallExit (env : Env) (s : Jit) : s.Frame (s.WriteSyscallExit env) :=
  Frame_trans (Frame_trans (Frame_DoDownCount env s) (Frame_Write _ _)) (Frame_Write _ _)

theorem Frame_runCalls (env : Env) (compileAt : Nat → Jit → Option Jit)
    (hc : ∀ addr s s1, compileAt addr s = some s1 → s.Frame s1)
    (cs : List JitCall) (s s1 : Jit) (h : runCalls env compileAt cs s = some s1) :
    s.Frame s1 := by
  induction cs generalizing s with
  | nil =>
    simp only [runCalls, Option.some.injEq] at h
    rw [← h]; exact Frame_refl s
  | cons c rest ih =>
    simp only [runCalls] at h
    cases hstep : runCall env compileAt c s with
    | none => rw [hstep] at h; exact Option.noConfusion h
    | some s2 =>
      rw [hstep] at h
      have h12 : s.Frame s2 := by
        cases c with
        | FlushAll => simp only [runCall, Option.some.injEq] at hstep; rw [← hstep]; exact Frame_FlushAll s
        | CompileAt addr => exact hc addr s s2 hstep
        | Comp_Generic op =>
          simp only [runCall, Option.some.injEq] at hstep; rw [← hstep]
          exact Frame_Comp_Generic env s op
        | WriteExit d n =>
          simp only [runCall, Option.some.injEq] at hstep; rw [← hstep]
          exact Frame_WriteExit env s d n
        | WriteExitDestInR x =>
          simp only [runCall, Option.some.injEq] at hstep; rw [← hstep]
          exact Frame_WriteExitDestInR env s x
        | WriteSyscallExit =>
          simp only [runCall, Option.some.injEq] at hstep; rw [← hstep]
          exact Frame_WriteSyscallExit env s
        | Emit op =>
          simp only [runCall, Option.some.injEq] at hstep; rw [← hstep]
          exact Frame_Write s op
        | StopCompiling =>
          simp only [runCall, Option.some.injEq] at hstep; rw [← hstep]
          exact ⟨rfl, rfl, rfl, rfl, rfl, rfl, rfl, rfl, rfl, ⟨[], by simp⟩⟩
      exact Frame_trans h12 (ih s2 h)

/-- A compile routine changes neither the compile cursor nor the cycle
cost accumulated by `DoJit`, and keeps the keys of the block table. -/
theorem Frame_MIPSCompileOp (env : Env) (depth op : Nat) (s s1 : Jit)
    (h : MIPSCompileOp env depth op s = some s1) : s.Frame s1 := by
  induction depth generalizing op s s1 with
  | zero => simp [MIPSCompileOp] at h
  | succ d ih =>
    simp only [MIPSCompileOp] at h
    exact Frame_runCalls env _ (fun addr t t1 ht => ih _ t t1 ht) _ s s1 h

/-! ## The compile loop -/

/-- What the loop of `DoJit` does to the compile state when it returns:
it has compiled `n - n0` instructions, one at least if it was entered with
`js.compiling` set, it has added their cycle estimates to
`js.downcountAmount`, and `js.compiling` is clear. -/
theorem DoJitLoop_result (env : Env) (depth fuel : Nat) (s s1 : Jit) (n0 n : Nat)
    (h : Jit.DoJitLoop env depth fuel s n0 = some (s1, n)) :
    n0 ≤ n ∧ (s.js.compiling = true → n0 < n) ∧
    s1.js.downcountAmount = s.js.downcountAmount + cycleSum env s.js.compilerPC (n - n0) ∧
    s1.js.compiling = false ∧
    s1.js.curBlock = s.js.curBlock ∧ s1.js.blockStart = s.js.blockStart ∧
    s1.jo = s.jo ∧ s1.condition = s.condition ∧ s1.mips_pc = s.mips_pc ∧
    s1.blocks.capacity = s.blocks.capacity ∧
    s1.blocks.blocks.map blockKey = s.blocks.blocks.map blockKey ∧
    (∃ suffix, s1.code = s.code ++ suffix) := by
  induction fuel generalizing s n0 with
  | zero =>
    simp only [Jit.DoJitLoop] at h
    split at h
    · exact Option.noConfusion h
    · rename_i hc
      simp only [Option.some.injEq, Prod.mk.injEq] at h
      obtain ⟨h1, h2⟩ := h
      subst h1; subst h2
      simp only [Bool.not_eq_true] at hc
      exact ⟨le_refl _, by simp [hc], by simp [cycleSum], hc, rfl, rfl, rfl, rfl, rfl, rfl, rfl,
        ⟨[], by simp⟩⟩
  | succ k ih =>
    simp only [Jit.DoJitLoop] at h
    split at h
    · rename_i hc
      split at h
      · exact Option.noConfusion h
      · rename_i s2 hop
        have hf := Frame_MIPSCompileOp env depth _ _ s2 hop
        obtain ⟨a1, a2, a3, a4, a5, a6, a7, a8, a9, a10, a11, x, a12⟩ := ih _ _ h
        obtain ⟨y, hy⟩ := hf.code
        have hn : n - n0 = (n - (n0 + 1)) + 1 := by omega
        refine ⟨by omega, fun _ => by omega, ?_, a4, ?_, ?_, ?_, ?_, ?_, ?_, ?_, ?_⟩
        · rw [a3, hn]
          simp only [cycleSum]
          rw [hf.downcountAmount, hf.compilerPC]
          simp only []
          omega
        · rw [a5]; exact hf.curBlock
        · rw [a6]; exact hf.blockStart
        · rw [a7]; exact hf.jo
        · rw [a8]; exact hf.condition
        · rw [a9]; exact hf.mips_pc
        · rw [a10]; exact hf.capacity
        · rw [a11]; exact hf.keys
        · exact ⟨y ++ x, by rw [a12]; simp only []; rw [hy]; simp⟩
    · rename_i hc
      simp only [Option.some.injEq, Prod.mk.injEq] at h
      obtain ⟨h1, h2⟩ := h
      subst h1; subst h2
      simp only [Bool.not_eq_true] at hc
      exact ⟨le_refl _, by simp [hc], by simp [cycleSum], hc, rfl, rfl, rfl, rfl, rfl, rfl, rfl,
        ⟨[], by simp⟩⟩

/-- The state that `DoJit` hands to its loop. -/
theorem DoJitEntry_state (env : Env) (s : Jit) (em_address b : Nat) :
    (s.DoJitEntry env em_address b).js.blockStart = s.mips_pc ∧
    (s.DoJitEntry env em_address b).js.compilerPC = s.mips_pc ∧
    (s.DoJitEntry env em_address b).js.downcountAmount = 0 ∧
    (s.DoJitEntry env em_address b).js.compiling = true ∧
    (s.DoJitEntry env em_address b).js.curBlock = b ∧
    (s.DoJitEntry env em_address b).jo = s.jo ∧
    (s.DoJitEntry env em_address b).condition = CCFlags.CC_AL ∧
    (s.DoJitEntry env em_address b).mips_pc = s.mips_pc ∧
    (s.DoJitEntry env em_address b).blocks.capacity = s.blocks.capacity ∧
    (s.DoJitEntry env em_address b).blocks.blocks.map blockKey = s.blocks.blocks.map blockKey := by
  refine ⟨rfl, rfl, rfl, rfl, rfl, rfl, rfl, rfl, rfl, ?_⟩
  simp only [Jit.DoJitEntry, Jit.updateCurBlock, Jit.Write, Jit.MovToPC, Jit.SetCC]
  rw [map_blockKey_updateBlock, map_blockKey_updateBlock]
  all_goals intro b; rfl

/-- What the tail of `DoJit` does: it records `numInstructions` in the
block and changes nothing of the compile state. -/
theorem DoJitExit_state (s : Jit) (n : Nat) :
    (s.DoJitExit n).1.js = s.js ∧ (s.DoJitExit n).1.jo = s.jo ∧
    (s.DoJitExit n).1.condition = s.condition ∧ (s.DoJitExit n).1.mips_pc = s.mips_pc ∧
    (s.DoJitExit n).1.blocks.capacity = s.blocks.capacity ∧
    (s.DoJitExit n).1.blocks.blocks.map blockKey = s.blocks.blocks.map blockKey ∧
    (s.js.curBlock < s.blocks.blocks.length →
      ((s.DoJitExit n).1.blocks.GetBlock s.js.curBlock).originalSize = n) := by
  refine ⟨rfl, rfl, rfl, rfl, rfl, ?_, ?_⟩
  · simp only [Jit.DoJitExit, Jit.updateCurBlock, Jit.AlignCode16, Jit.WriteAll]
    rw [map_blockKey_updateBlock, map_blockKey_updateBlock]
    all_goals intro b; rfl
  · intro hb
    simp only [Jit.DoJitExit, Jit.updateCurBlock, Jit.AlignCode16, Jit.WriteAll,
      ArmJitBlockCache.GetBlock]
    rw [getD_updateBlock_self _ _ _ _ (by rw [updateBlock_length]; exact hb)]

theorem length_of_map_blockKey {l1 l2 : List ArmJitBlock}
    (h : l1.map blockKey = l2.map blockKey) : l1.length = l2.length := by
  have := congrArg List.length h
  simpa using this

/-- The result of `DoJit`, when it returns, in terms of the state it was
called in. -/
theorem DoJit_result (env : Env) (fuel : Nat) (s : Jit) (em_address b : Nat) (r : Jit × Nat)
    (h : s.DoJit env fuel em_address b = some r) :
    ∃ n, 1 ≤ n ∧ r.1.js.downcountAmount = cycleSum env s.mips_pc n ∧
      r.1.js.compiling = false ∧ r.1.js.curBlock = b ∧ r.1.js.blockStart = s.mips_pc ∧
      r.1.jo = s.jo ∧ r.1.condition = CCFlags.CC_AL ∧ r.1.mips_pc = s.mips_pc ∧
      r.1.blocks.capacity = s.blocks.capacity ∧
      r.1.blocks.blocks.map blockKey = s.blocks.blocks.map blockKey ∧
      (b < s.blocks.blocks.length → (r.1.blocks.GetBlock b).originalSize = n) := by
  unfold Jit.DoJit at h
  split at h
  · exact Option.noConfusion h
  · rename_i s1 n hloop
    simp only [Option.some.injEq] at h
    subst h
    obtain ⟨e1, e2, e3, e4, e5, e6, e7, e8, e9, e10⟩ := DoJitEntry_state env s em_address b
    obtain ⟨a1, a2, a3, a4, a5, a6, a7, a8, a9, a10, a11, _⟩ :=
      DoJitLoop_result env fuel fuel _ s1 0 n hloop
    obtain ⟨x1, x2, x3, x4, x5, x6, x7⟩ := DoJitExit_state s1 n
    refine ⟨n, by have := a2 e4; omega, ?_, ?_, ?_, ?_, ?_, ?_, ?_, ?_, ?_, ?_⟩
    · rw [x1, a3, e3, e2]; simp
    · rw [x1]; exact a4
    · rw [x1, a5]; exact e5
    · rw [x1, a6]; exact e1
    · rw [x2, a7]; exact e6
    · rw [x3, a8]; exact e7
    · rw [x4, a9]; exact e8
    · rw [x5, a10]; exact e9
    · rw [x6, a11]; exact e10
    · intro hb
      have hlen : s1.blocks.blocks.length = s.blocks.blocks.length := by
        rw [length_of_map_blockKey a11, length_of_map_blockKey e10]
      have hcur : s1.js.curBlock = b := by rw [a5]; exact e5
      have := x7 (by rw [hcur, hlen]; exact hb)
      rw [hcur] at this
      exact this

/-! ## The cycle budget -/

theorem u32_u32 (n : Nat) : u32 (u32 n) = u32 n := by
  simp [u32]

theorem DoJitState_eq (env : Env) (fuel : Nat) (s : Jit) (em_address b : Nat) (r : Jit × Nat)
    (h : s.DoJit env fuel em_address b = some r) : s.DoJitState env fuel em_address b = r.1 := by
  simp [Jit.DoJitState, h]

theorem reset_allUnbound (c : ArmRegCache) : c.reset.allUnbound := by
  intro b hb
  simp only [ArmRegCache.reset, List.mem_map] at hb
  obtain ⟨_, _, h⟩ := hb
  exact h.symm

theorem WriteExit_gpr (env : Env) (s : Jit) (destination exit_num : Nat) :
    (s.WriteExit env destination exit_num).gpr = s.gpr := by
  unfold Jit.WriteExit
  simp only []
  split <;>
    simp [Jit.Write, Jit.updateCurBlock, Jit.MovToPC, (DoDownCount_frame env s).2.2.2.1]

theorem WriteExitDestInR_gpr (env : Env) (s : Jit) (x : ARMReg) :
    (s.WriteExitDestInR env x).gpr = s.gpr := by
  unfold Jit.WriteExitDestInR
  simp only [Jit.Write]
  exact (DoDownCount_frame env _).2.2.2.1

theorem WriteSyscallExit_gpr (env : Env) (s : Jit) : (s.WriteSyscallExit env).gpr = s.gpr := by
  unfold Jit.WriteSyscallExit
  simp only [Jit.Write]
  exact (DoDownCount_frame env _).2.2.2.1

/-- C5 fails as stated: none of the three exit writers flushes. With a
guest register bound to `R5` and its writeback pending, the register is still
bound after each of them. -/
theorem exit_writers_do_not_flush :
    ¬ (exampleJit.WriteExit exampleEnv 0x08000000 0).gpr.allUnbound ∧
    ¬ (exampleJit.WriteExitDestInR exampleEnv ARMReg.R5).gpr.allUnbound ∧
    ¬ (exampleJit.WriteSyscallExit exampleEnv).gpr.allUnbound := by
  refine ⟨by decide, by decide, by decide⟩

/-- C5, as amended: `WriteExit`, `WriteExitDestInR` and `WriteSyscallExit`
leave every binding of the register cache as it was; `FlushAll` unbinds every
guest register, so after an exit written right after `FlushAll` every binding
is unbound. -/
theorem exit_writers_keep_bindings (env : Env) (s : Jit) (destination exit_num : Nat)
    (x : ARMReg) :
    (s.WriteExit env destination exit_num).gpr = s.gpr ∧
    (s.WriteExitDestInR env x).gpr = s.gpr ∧
    (s.WriteSyscallExit env).gpr = s.gpr ∧
    s.FlushAll.gpr.allUnbound ∧
    (s.FlushAll.WriteExit env destination exit_num).gpr.allUnbound ∧
    (s.FlushAll.WriteExitDestInR env x).gpr.allUnbound ∧
    (s.FlushAll.WriteSyscallExit env).gpr.allUnbound := by
  have hflush : s.FlushAll.gpr.allUnbound := reset_allUnbound s.gpr
  refine ⟨WriteExit_gpr env s destination exit_num, WriteExitDestInR_gpr env s x,
    WriteSyscallExit_gpr env s, hflush, ?_, ?_, ?_⟩
  · rw [WriteExit_gpr]; exact hflush
  · rw [WriteExitDestInR_gpr]; exact hflush
  · rw [WriteSyscallExit_gpr]; exact hflush

/-- C6 fails as stated: opcode `1` has no interpreter function in the
example, and `Comp_Generic` emits for it the writeback of the flush and
nothing else: no store to the guest program counter, no call. -/
theorem Comp_Generic_without_interpreter :
    exampleEnv.MIPSGetInterpretFunc 1 = 0 ∧
    (exampleJit.Comp_Generic exampleEnv 1).code =
      [{ cond := CCFlags.CC_AL, op := ArmOp.STR ARMReg.R10 ARMReg.R5 4 }] := by
  refine ⟨by decide, by decide⟩

/-- C6, as amended: `Comp_Generic` flushes the register cache first (the
writebacks come first in the code and every binding is unbound afterwards);
then, when `MIPSGetInterpretFunc(op)` is not null, it emits the store of
`js.compilerPC` to the guest program counter and one call of that function
with `op` as argument, in that order; when it is null it emits nothing more.
The compile state `js` is not changed. -/
theorem Comp_Generic_emits (env : Env) (s : Jit) (op : Nat) (st : ArmState) :
    (s.Comp_Generic env op).gpr.allUnbound ∧
    (s.Comp_Generic env op).js = s.js ∧
    (s.Comp_Generic env op).code = s.FlushAll.code ++
      (if env.MIPSGetInterpretFunc op ≠ 0 then
        [{ cond := s.condition, op := ArmOp.MOVI2R ARMReg.R0 s.js.compilerPC },
         { cond := s.condition, op := ArmOp.STR ARMReg.R10 ARMReg.R0 env.pcOffset },
         { cond := s.condition, op := ArmOp.CallFunctionC (env.MIPSGetInterpretFunc op) op }]
      else []) ∧
    s.FlushAll.code = s.code ++
      (flushStores 0 s.gpr.bindings).map (fun o => { cond := s.condition, op := o }) ∧
    exec [{ cond := s.condition, op := ArmOp.MOVI2R ARMReg.R0 s.js.compilerPC },
          { cond := s.condition, op := ArmOp.STR ARMReg.R10 ARMReg.R0 env.pcOffset },
          { cond := s.condition, op := ArmOp.CallFunctionC (env.MIPSGetInterpretFunc op) op }] st =
      (if condHolds s.condition st then
        Outcome.called (env.MIPSGetInterpretFunc op) op
          ((st.setReg ARMReg.R0 s.js.compilerPC).store (st.r ARMReg.R10 + env.pcOffset)
            s.js.compilerPC)
      else Outcome.fallthrough st) ∧
    ((st.setReg ARMReg.R0 s.js.compilerPC).store (st.r ARMReg.R10 + env.pcOffset)
        s.js.compilerPC).mem (u32 (st.r ARMReg.R10 + env.pcOffset)) = u32 s.js.compilerPC := by
  refine ⟨?_, ?_, ?_, rfl, ?_, ?_⟩
  · unfold Jit.Comp_Generic
    simp only []
    split
    · exact reset_allUnbound s.gpr
    · exact reset_allUnbound s.gpr
  · unfold Jit.Comp_Generic
    simp only []
    split <;> rfl
  · unfold Jit.Comp_Generic
    simp only []
    split
    · simp [Jit.Write, Jit.MovToPC, Jit.FlushAll, Jit.WriteAll]
    · simp
  · by_cases hc : condHolds s.condition st = true
    · simp only [exec, execOp, condHolds_setReg, condHolds_store, hc, if_true]
      simp [ArmState.setReg, ArmState.store, u32]
    · simp only [Bool.not_eq_true] at hc
      simp [exec, hc]
  · simp [ArmState.setReg, ArmState.store, u32]

/-! ## `Compile` and `ClearCache` -/

theorem map_blockKey_finalize (K : List (Nat × Bool)) (a : Nat) (f : Bool) (p : Nat)
    (L : List ArmJitBlock) (h : L.map blockKey = K ++ [(a, f)]) :
    (updateBlock (fun b => { b with finalized := true, normalEntry := p }) K.length L).map
      blockKey = K ++ [(a, true)] := by
  induction K generalizing L with
  | nil =>
    cases L with
    | nil => simp at h
    | cons b bs =>
      simp only [List.map_cons, List.nil_append, List.cons.injEq, List.map_eq_nil_iff] at h
      obtain ⟨hb, hbs⟩ := h
      subst hbs
      have ha : b.originalAddress = a := congrArg Prod.fst hb
      simp [updateBlock, blockKey, ha]
  | cons k K1 ih =>
    cases L with
    | nil => simp at h
    | cons b bs =>
      simp only [List.map_cons, List.cons_append, List.cons.injEq] at h
      obtain ⟨hb, hbs⟩ := h
      simp [updateBlock, hb, ih bs hbs]

/-- The Block Linker on one exit slot keeps the keys and the capacity of
the block table and the length of the code. -/
theorem LinkBlockExit_keys (c : ArmJitBlockCache) (code : List ArmInst) (b e : Nat) :
    (c.LinkBlockExit code b e).1.blocks.map blockKey = c.blocks.map blockKey ∧
    (c.LinkBlockExit code b e).1.capacity = c.capacity ∧
    (c.LinkBlockExit code b e).2.length = code.length := by
  unfold ArmJitBlockCache.LinkBlockExit
  simp only []
  split
  · refine ⟨?_, rfl, by simp⟩
    simp only []
    rw [map_blockKey_updateBlock]
    intro blk; rfl
  · exact ⟨rfl, rfl, rfl⟩

/-- The Block Linker on the exit slots of a block keeps the keys and the
capacity of the block table and the length of the code. -/
theorem LinkBlockExits_keys (c : ArmJitBlockCache) (code : List ArmInst) (b n : Nat) :
    (c.LinkBlockExits code b n).1.blocks.map blockKey = c.blocks.map blockKey ∧
    (c.LinkBlockExits code b n).1.capacity = c.capacity ∧
    (c.LinkBlockExits code b n).2.length = code.length := by
  induction n with
  | zero => exact ⟨rfl, rfl, rfl⟩
  | succ n ih =>
    obtain ⟨h1, h2, h3⟩ := ih
    obtain ⟨k1, k2, k3⟩ := LinkBlockExit_keys (c.LinkBlockExits code b n).1
      (c.LinkBlockExits code b n).2 b n
    simp only [ArmJitBlockCache.LinkBlockExits]
    exact ⟨k1.trans h1, k2.trans h2, k3.trans h3⟩

/-- The block table after `FinalizeBlock` of the block allocated last: its
key says finalized, the other keys and the capacity are as before, and the
code has the same length. -/
theorem FinalizeBlock_keys (c : ArmJitBlockCache) (code : List ArmInst) (n : Nat)
    (K : List (Nat × Bool)) (a : Nat) (f link : Bool) (p : Nat)
    (h : c.blocks.map blockKey = K ++ [(a, f)]) :
    (c.FinalizeBlock code n K.length link p).1.blocks.map blockKey = K ++ [(a, true)] ∧
    (c.FinalizeBlock code n K.length link p).1.capacity = c.capacity ∧
    (c.FinalizeBlock code n K.length link p).2.length = code.length := by
  unfold ArmJitBlockCache.FinalizeBlock
  simp only []
  have hfin := map_blockKey_finalize K a f p c.blocks h
  split
  · refine ⟨?_, ?_, ?_⟩
    · rw [(LinkBlockExits_keys _ code K.length n).1]; exact hfin
    · rw [(LinkBlockExits_keys _ code K.length n).2.1]
    · rw [(LinkBlockExits_keys _ code K.length n).2.2]
  · exact ⟨hfin, rfl, rfl⟩

theorem CompileClear_frame (s : Jit) :
    s.CompileClear.blocks.capacity = s.blocks.capacity ∧ s.CompileClear.mips_pc = s.mips_pc ∧
    s.CompileClear.jo = s.jo := by
  unfold Jit.CompileClear
  split <;> exact ⟨rfl, rfl, rfl⟩

/-- After the conditional clear at the head of `Compile` the block table
has room, provided its capacity is not zero. -/
theorem CompileClear_not_full (s : Jit) (hcap : 0 < s.blocks.capacity) :
    s.CompileClear.blocks.IsFull = false := by
  unfold Jit.CompileClear
  split
  · simp [Jit.ClearCache, Jit.ClearCodeSpace, ArmJitBlockCache.Clear, ArmJitBlockCache.IsFull]
    exact Nat.pos_iff_ne_zero.mp hcap
  · rename_i h
    simp only [Jit.needsClear, Bool.or_eq_true, decide_eq_true_eq, not_or, Bool.not_eq_true] at h
    exact h.2

/-- The block table after a `Compile` that returns: the table left by the
conditional clear, with one more block, registered under `em_address` and
finalized. -/
theorem Compile_ok (env : Env) (fuel : Nat) (s s1 : Jit) (em_address : Nat)
    (h : s.Compile env fuel em_address = Except.ok s1) :
    s1.blocks.blocks.map blockKey
      = s.CompileClear.blocks.blocks.map blockKey ++ [(em_address, true)] ∧
    s1.blocks.capacity = s.blocks.capacity ∧ s1.mips_pc = s.mips_pc ∧ s1.jo = s.jo := by
  unfold Jit.Compile at h
  simp only [] at h
  split at h
  · exact Except.noConfusion h
  · rename_i block_num cache halloc
    split at h
    · exact Except.noConfusion h
    · rename_i s3 normalEntry hjit
      simp only [Except.ok.injEq] at h
      subst h
      unfold ArmJitBlockCache.AllocateBlock at halloc
      split at halloc
      · exact Except.noConfusion halloc
      · simp only [Except.ok.injEq, Prod.mk.injEq] at halloc
        obtain ⟨hnum, hcache⟩ := halloc
        obtain ⟨n, _, _, _, _, _, h7, _, h9, h10, h11, _⟩ :=
          DoJit_result env fuel _ em_address block_num (s3, normalEntry) hjit
        simp only [] at h7 h9 h10 h11
        obtain ⟨c1, c2, c3⟩ := CompileClear_frame s
        have hk : s3.blocks.blocks.map blockKey
            = s.CompileClear.blocks.blocks.map blockKey ++ [(em_address, false)] := by
          rw [h11, ← hcache]; simp [blockKey, ArmJitBlock.fresh]
        have hfin := FinalizeBlock_keys s3.blocks s3.code env.numExits _ em_address false
          s3.jo.enableBlocklink normalEntry hk
        rw [List.length_map, hnum] at hfin
        refine ⟨?_, ?_, ?_, ?_⟩
        · exact hfin.1
        · rw [hfin.2.1, h10, ← hcache]; exact c1
        · rw [h9]; exact c2
        · rw [h7]; exact c3

/-- On the table left by the conditional clear, `AllocateBlock` succeeds. -/
theorem CompileClear_AllocateBlock (s : Jit) (em_address : Nat) (hcap : 0 < s.blocks.capacity) :
    s.CompileClear.blocks.AllocateBlock em_address
      = Except.ok (s.CompileClear.blocks.blocks.length,
          { s.CompileClear.blocks with
            blocks := s.CompileClear.blocks.blocks ++ [ArmJitBlock.fresh em_address] }) := by
  unfold ArmJitBlockCache.AllocateBlock
  rw [CompileClear_not_full s hcap]; rfl

/-- The failure `CacheFull` does not come out of `Compile`. -/
theorem Compile_ne_CacheFull (env : Env) (fuel : Nat) (s : Jit) (em_address : Nat)
    (hcap : 0 < s.blocks.capacity) :
    s.Compile env fuel em_address ≠ Except.error JitError.CacheFull := by
  unfold Jit.Compile
  simp only []
  rw [CompileClear_AllocateBlock s em_address hcap]
  simp only []
  split
  · intro h; exact JitError.noConfusion (Except.error.inj h)
  · intro h; exact Except.noConfusion h

/-- C7: `Compile` clears the cache before it allocates exactly when less
than `0x10000` bytes of code space are free or the block table is full, and
leaves it as it is otherwise; so `AllocateBlock` runs on a table that is not
full, it succeeds, and `Compile` never fails with `CacheFull`. -/
theorem Compile_clears_when_needed (env : Env) (fuel : Nat) (s : Jit) (em_address : Nat)
    (hcap : 0 < s.blocks.capacity) :
    s.CompileClear
      = (if s.GetSpaceLeft < 0x10000 ∨ s.blocks.IsFull = true then s.ClearCache else s) ∧
    s.CompileClear.blocks.IsFull = false ∧
    s.CompileClear.blocks.AllocateBlock em_address
      = Except.ok (s.CompileClear.blocks.blocks.length,
          { s.CompileClear.blocks with
            blocks := s.CompileClear.blocks.blocks ++ [ArmJitBlock.fresh em_address] }) ∧
    s.Compile env fuel em_address ≠ Except.error JitError.CacheFull := by
  refine ⟨?_, CompileClear_not_full s hcap, CompileClear_AllocateBlock s em_address hcap,
    Compile_ne_CacheFull env fuel s em_address hcap⟩
  unfold Jit.CompileClear Jit.needsClear
  by_cases h : s.GetSpaceLeft < 0x10000 ∨ s.blocks.IsFull = true
  · rw [if_pos h, if_pos (by simpa using h)]
  · rw [if_neg h, if_neg (by simpa using h)]

/-- Witness of C7: the example table of capacity 4 holding one block. -/
theorem Compile_clears_when_needed_witness :
    0 < exampleJit.blocks.capacity ∧
    exampleJit.Compile exampleEnv 4 0x08000100 ≠ Except.error JitError.CacheFull :=
  ⟨by decide, (Compile_clears_when_needed exampleEnv 4 exampleJit 0x08000100 (by decide)).2.2.2⟩

/-- C8: after `ClearCache` the lookup finds no block at any address, the
code space is empty, and a `Compile` that follows, for whatever address,
allocates block 0 afresh: if it returns, the table holds that one block,
finalized, and it cannot fail otherwise than by the bound of the model. -/
theorem ClearCache_resets (env : Env) (fuel : Nat) (s : Jit) (em_address addr : Nat)
    (hcap : 0 < s.blocks.capacity) :
    s.ClearCache.blocks.GetBlockNumberFromStartAddress addr = -1 ∧
    s.ClearCache.code = [] ∧
    s.ClearCache.GetSpaceLeft = codeSpaceSize ∧
    s.ClearCache.CompileClear = s.ClearCache ∧
    s.ClearCache.blocks.AllocateBlock em_address
      = Except.ok (0, { blocks := [ArmJitBlock.fresh em_address],
                        capacity := s.blocks.capacity }) ∧
    (s.ClearCache.Compile env fuel em_address = Except.error JitError.OutOfFuel ∨
      ∃ s1, s.ClearCache.Compile env fuel em_address = Except.ok s1 ∧
        s1.blocks.blocks.map blockKey = [(em_address, true)]) := by
  have hclear : s.ClearCache.CompileClear = s.ClearCache := by
    unfold Jit.CompileClear
    have : s.ClearCache.needsClear = false := by
      simp [Jit.needsClear, Jit.ClearCache, Jit.ClearCodeSpace, ArmJitBlockCache.Clear,
        ArmJitBlockCache.IsFull, Jit.GetSpaceLeft, Jit.GetCodePtr, codeSpaceSize]
      exact Nat.pos_iff_ne_zero.mp hcap
    rw [this]; rfl
  have hcap1 : 0 < s.ClearCache.blocks.capacity := hcap
  refine ⟨rfl, rfl, rfl, hclear, ?_, ?_⟩
  · have := CompileClear_AllocateBlock s.ClearCache em_address hcap1
    rw [hclear] at this
    exact this
  · cases hres : s.ClearCache.Compile env fuel em_address with
    | error e =>
      left
      cases e with
      | CacheFull =>
        exact absurd hres (Compile_ne_CacheFull env fuel s.ClearCache em_address hcap1)
      | OutOfFuel => rfl
    | ok s1 =>
      right
      refine ⟨s1, rfl, ?_⟩
      have := (Compile_ok env fuel s.ClearCache s1 em_address hres).1
      rw [hclear] at this
      exact this

/-- Witness of C8: the example table, cleared, then `Compile` of the
address it held before. -/
theorem ClearCache_resets_witness :
    0 < exampleJit.blocks.capacity ∧
    exampleJit.ClearCache.blocks.GetBlockNumberFromStartAddress 0x08000000 = -1 ∧
    exampleJit.ClearCache.code = [] :=
  ⟨by decide,
   (ClearCache_resets exampleEnv 4 exampleJit 0x08000000 0x08000000 (by decide)).1,
   (ClearCache_resets exampleEnv 4 exampleJit 0x08000000 0x08000000 (by decide)).2.1⟩

/-! ## One block per start address -/

theorem findBlock_miss (addr : Nat) (l : List ArmJitBlock) (k : Nat)
    (h : ¬ 0 ≤ findBlock addr l k) : (addr, true) ∉ l.map blockKey := by
  induction l generalizing k with
  | nil => simp
  | cons b bs ih =>
    simp only [findBlock] at h
    split at h
    · exact absurd (Int.natCast_nonneg k) h
    · rename_i hb
      simp only [List.map_cons, List.mem_cons, not_or]
      refine ⟨?_, ih (k + 1) h⟩
      intro hk
      apply hb
      have h1 : b.originalAddress = addr := (congrArg Prod.fst hk).symm
      have h2 : b.finalized = true := (congrArg Prod.snd hk).symm
      simp [h1, h2]

theorem findBlock_hit (addr : Nat) (l : List ArmJitBlock) (k : Nat)
    (h : (addr, true) ∈ l.map blockKey) : 0 ≤ findBlock addr l k := by
  by_contra hn
  exact findBlock_miss addr l k hn h

/-- A resolution that finds no block, on a table with one block per
address, leaves a table with one block per address. -/
theorem oneBlockPerAddress_Compile (env : Env) (fuel : Nat) (s s1 : Jit) (pc : Nat)
    (hinv : s.oneBlockPerAddress)
    (hmiss : ¬ 0 ≤ s.blocks.GetBlockNumberFromStartAddress pc)
    (h : s.Compile env fuel pc = Except.ok s1) : s1.oneBlockPerAddress := by
  obtain ⟨hk, _, _, _⟩ := Compile_ok env fuel s s1 pc h
  unfold Jit.oneBlockPerAddress
  rw [hk]
  unfold Jit.CompileClear
  split
  · simp [Jit.ClearCache, Jit.ClearCodeSpace, ArmJitBlockCache.Clear]
  · obtain ⟨hnodup, hfin⟩ := hinv
    have hnot := findBlock_miss pc s.blocks.blocks 0 hmiss
    constructor
    · rw [List.map_append, List.nodup_append]
      refine ⟨hnodup, by simp, ?_⟩
      intro a ha hb
      simp only [List.map_cons, List.map_nil, List.mem_singleton] at hb
      subst hb
      obtain ⟨k, hkm, hka⟩ := List.mem_map.mp ha
      have hk2 := hfin k hkm
      apply hnot
      have : k = (k.1, true) := by rw [← hk2]
      rw [this, hka] at hkm
      exact hkm
    · intro k hkm
      rcases List.mem_append.mp hkm with h1 | h1
      · exact hfin k h1
      · simp only [List.mem_singleton] at h1
        rw [h1]

theorem oneBlockPerAddress_Dispatch (env : Env) (fuel : Nat) (s s1 : Jit) (pc : Nat)
    (hinv : s.oneBlockPerAddress) (h : s.Dispatch env fuel pc = Except.ok s1) :
    s1.oneBlockPerAddress := by
  unfold Jit.Dispatch at h
  split at h
  · simp only [Except.ok.injEq] at h
    rw [← h]; exact hinv
  · rename_i hmiss
    exact oneBlockPerAddress_Compile env fuel ({ s with mips_pc := pc } : Jit) s1 pc hinv hmiss h

theorem oneBlockPerAddress_cacheCalls (env : Env) (fuel : Nat) (calls : List CacheCall)
    (s s1 : Jit) (hinv : s.oneBlockPerAddress)
    (h : Jit.cacheCalls env fuel calls s = Except.ok s1) : s1.oneBlockPerAddress := by
  induction calls generalizing s with
  | nil =>
    simp only [Jit.cacheCalls, Except.ok.injEq] at h
    rw [← h]; exact hinv
  | cons c rest ih =>
    cases c with
    | Dispatch pc =>
      simp only [Jit.cacheCalls] at h
      split at h
      · rename_i s2 hd
        exact ih s2 (oneBlockPerAddress_Dispatch env fuel s s2 pc hinv hd) h
      · exact Except.noConfusion h
    | ClearCache =>
      simp only [Jit.cacheCalls] at h
      refine ih s.ClearCache ?_ h
      simp [Jit.oneBlockPerAddress, Jit.ClearCache, Jit.ClearCodeSpace, ArmJitBlockCache.Clear]

/-- A resolution that succeeded is a cache hit when it is repeated: the
state, hence the block found, is the same, and `Compile` is not called. -/
theorem Dispatch_again (env : Env) (fuel : Nat) (s s1 : Jit) (pc : Nat)
    (h : s.Dispatch env fuel pc = Except.ok s1) :
    0 ≤ s1.blocks.GetBlockNumberFromStartAddress pc ∧
    s1.Dispatch env fuel pc = Except.ok s1 := by
  have hpc : s1.mips_pc = pc ∧ 0 ≤ s1.blocks.GetBlockNumberFromStartAddress pc := by
    unfold Jit.Dispatch at h
    split at h
    · rename_i hhit
      simp only [Except.ok.injEq] at h
      rw [← h]; exact ⟨rfl, hhit⟩
    · obtain ⟨hk, _, hm, _⟩ := Compile_ok env fuel _ s1 pc h
      refine ⟨hm, findBlock_hit pc _ 0 ?_⟩
      rw [hk]; simp
  refine ⟨hpc.2, ?_⟩
  unfold Jit.Dispatch
  rw [if_pos hpc.2]
  congr 1
  cases s1
  simp only [] at hpc
  simp [hpc.1]

/-- C9 fails as stated: `Compile` does not look the address up. Two
calls of `Compile` for `0x08000000` with no clear in between, the second one
made although the lookup finds block 0, leave two finalized blocks with that
start address. -/
theorem Compile_twice_two_blocks :
    0 ≤ ((initialJit 4 0x08000000).CompileState exampleEnv 4
          0x08000000).blocks.GetBlockNumberFromStartAddress 0x08000000 ∧
    (((initialJit 4 0x08000000).CompileState exampleEnv 4 0x08000000).CompileState exampleEnv 4
        0x08000000).blocks.blocks.map blockKey
      = [(0x08000000, true), (0x08000000, true)] := by
  refine ⟨by decide, by decide⟩

/-- C9, as amended: when `Compile` is called only for an address that the
lookup does not find, as the Dispatcher does, every sequence of resolutions
and `ClearCache` calls that starts from a table with one finalized block per
start address ends in such a table; and a resolution repeated with no clear
in between is a hit on the same state, so it yields the same block. -/
theorem Dispatch_one_block_per_address (env : Env) (fuel : Nat) (calls : List CacheCall)
    (s : Jit) (pc : Nat) (hinv : s.oneBlockPerAddress) :
    match Jit.cacheCalls env fuel calls s with
    | Except.ok s1 =>
      s1.oneBlockPerAddress ∧
      (match s1.Dispatch env fuel pc with
       | Except.ok s2 =>
         s2.oneBlockPerAddress ∧ 0 ≤ s2.blocks.GetBlockNumberFromStartAddress pc ∧
         s2.Dispatch env fuel pc = Except.ok s2
       | Except.error _ => True)
    | Except.error _ => True := by
  split
  · rename_i s1 h1
    have hs1 := oneBlockPerAddress_cacheCalls env fuel calls s s1 hinv h1
    refine ⟨hs1, ?_⟩
    split
    · rename_i s2 h2
      exact ⟨oneBlockPerAddress_Dispatch env fuel s1 s2 pc hs1 h2,
        Dispatch_again env fuel s1 s2 pc h2⟩
    · trivial
  · trivial

/-- Witness of C9 as amended: from the empty table, resolve `0x08000000`
twice, clear, resolve it again. -/
theorem Dispatch_one_block_per_address_witness :
    (initialJit 4 0).oneBlockPerAddress ∧
    (match Jit.cacheCalls exampleEnv 4
        [CacheCall.Dispatch 0x08000000, CacheCall.Dispatch 0x08000000, CacheCall.ClearCache,
         CacheCall.Dispatch 0x08000000] (initialJit 4 0) with
     | Except.ok s1 => s1.blocks.blocks.map blockKey
     | Except.error _ => []) = [(0x08000000, true)] ∧
    match Jit.cacheCalls exampleEnv 4
        [CacheCall.Dispatch 0x08000000, CacheCall.Dispatch 0x08000000, CacheCall.ClearCache,
         CacheCall.Dispatch 0x08000000] (initialJit 4 0) with
    | Except.ok s1 =>
      s1.oneBlockPerAddress ∧
      (match s1.Dispatch exampleEnv 4 0x08000008 with
       | Except.ok s2 =>
         s2.oneBlockPerAddress ∧ 0 ≤ s2.blocks.GetBlockNumberFromStartAddress 0x08000008 ∧
         s2.Dispatch exampleEnv 4 0x08000008 = Except.ok s2
       | Except.error _ => True)
    | Except.error _ => True :=
  ⟨by decide, by decide,
   Dispatch_one_block_per_address exampleEnv 4
     [CacheCall.Dispatch 0x08000000, CacheCall.Dispatch 0x08000000, CacheCall.ClearCache,
      CacheCall.Dispatch 0x08000000] (initialJit 4 0) 0x08000008 (by decide)⟩

/-! ## The start of a compilation -/

/-- C10 fails as stated: `Compile(0x08000100)` called while `mips_->pc` is
`0x08000000` registers the block under `0x08000100`, and `DoJit` sets
`js.blockStart` and the compile cursor to `0x08000000`, not to `0x08000100`:
the block holds the three instructions at `0x08000000` and its checked entry
restores `0x08000000`. -/
theorem Compile_translates_from_mips_pc :
    ((initialJit 4 0x08000000).CompileState exampleEnv 4 0x08000100).blocks.blocks.map blockKey
      = [(0x08000100, true)] ∧
    ((initialJit 4 0x08000000).CompileClear.DoJitEntry exampleEnv 0x08000100 0).js.blockStart
      = 0x08000000 ∧
    ((initialJit 4 0x08000000).CompileClear.DoJitEntry exampleEnv 0x08000100 0).js.compilerPC
      = 0x08000000 ∧
    ((initialJit 4 0x08000000).CompileState exampleEnv 4 0x08000100).js.blockStart
      = 0x08000000 ∧
    (((initialJit 4 0x08000000).CompileState exampleEnv 4 0x08000100).blocks.GetBlock
      0).originalSize = 3 ∧
    ((initialJit 4 0x08000000).CompileState exampleEnv 4 0x08000100).code.take 1
      = [{ cond := CCFlags.CC_LT, op := ArmOp.MOVI2R ARMReg.R0 0x08000000 }] := by
  refine ⟨by decide, by decide, by decide, by decide, by decide, by decide⟩

/-! ## Execution of the decrement and of the exits -/

theorem exec_append (l1 l2 : List ArmInst) (st st1 : ArmState)
    (h : exec l1 st = Outcome.fallthrough st1) : exec (l1 ++ l2) st = exec l2 st1 := by
  induction l1 generalizing st with
  | nil =>
    simp only [exec, Outcome.fallthrough.injEq] at h
    rw [h]; rfl
  | cons i rest ih =>
    simp only [exec, List.cons_append] at h ⊢
    split
    · rename_i hc
      rw [if_pos hc] at h
      cases hop : execOp i.op st with
      | fallthrough st2 =>
        rw [hop] at h
        simp only [] at h ⊢
        exact ih st2 h
      | jumped t st2 => rw [hop] at h; simp at h
      | called f a st2 => rw [hop] at h; simp at h
    · rename_i hc
      rw [if_neg hc] at h
      exact ih st h

theorem DoDownCount_code (env : Env) (s : Jit) :
    (s.DoDownCount env).code = s.code ++ downCountCode env s.condition s.js.downcountAmount := by
  unfold Jit.DoDownCount downCountCode
  simp only [Jit.Write]
  split <;> simp

/-- The machine state after the decrement, run unconditionally: the
counter holds the 32-bit difference, no other word of memory is written, the
flags `N` and `V` are those of the subtraction, and only `R0`, `R1` and `R2`
may have changed. -/
theorem downCountCode_exec (env : Env) (amount : Nat) (st : ArmState) :
    ∃ st2, exec (downCountCode env CCFlags.CC_AL amount) st = Outcome.fallthrough st2 ∧
      st2.mem (u32 env.downcountAddr) = sub32 (st.mem (u32 env.downcountAddr)) amount ∧
      (∀ a, a ≠ u32 env.downcountAddr → st2.mem a = st.mem a) ∧
      st2.N = isNeg32 (sub32 (st.mem (u32 env.downcountAddr)) amount) ∧
      st2.V = ((isNeg32 (u32 (st.mem (u32 env.downcountAddr))) != isNeg32 (u32 amount)) &&
        (isNeg32 (sub32 (st.mem (u32 env.downcountAddr)) amount)
          != isNeg32 (u32 (st.mem (u32 env.downcountAddr))))) ∧
      (∀ x, x ≠ ARMReg.R0 → x ≠ ARMReg.R1 → x ≠ ARMReg.R2 → st2.r x = st.r x) := by
  unfold downCountCode
  split
  · simp only [exec, execOp, condHolds, if_true]
    refine ⟨_, rfl, ?_, ?_, ?_, ?_, ?_⟩
    · simp [ArmState.setReg, ArmState.store, ArmState.subs, ArmState.operand, u32_u32, sub32]
    · intro a ha
      simp [ArmState.setReg, ArmState.store, ArmState.subs, ArmState.operand, u32_u32, ha]
    · simp [ArmState.setReg, ArmState.store, ArmState.subs, ArmState.operand, u32_u32, sub32]
    · simp [ArmState.setReg, ArmState.store, ArmState.subs, ArmState.operand, u32_u32, sub32]
    · intro x h0 h1 h2
      simp [ArmState.setReg, ArmState.store, ArmState.subs, ArmState.operand, h0, h1]
  · simp only [exec, execOp, condHolds, if_true]
    refine ⟨_, rfl, ?_, ?_, ?_, ?_, ?_⟩
    · simp [ArmState.setReg, ArmState.store, ArmState.subs, ArmState.operand, u32_u32, sub32]
    · intro a ha
      simp [ArmState.setReg, ArmState.store, ArmState.subs, ArmState.operand, u32_u32, ha]
    · simp [ArmState.setReg, ArmState.store, ArmState.subs, ArmState.operand, u32_u32, sub32]
    · simp [ArmState.setReg, ArmState.store, ArmState.subs, ArmState.operand, u32_u32, sub32]
    · intro x h0 h1 h2
      simp [ArmState.setReg, ArmState.store, ArmState.subs, ArmState.operand, h0, h1, h2]

/-! ## What the exit writers record and emit -/

theorem updateCurBlock_GetBlock (s : Jit) (f : ArmJitBlock → ArmJitBlock)
    (h : s.js.curBlock < s.blocks.blocks.length) :
    (s.updateCurBlock f).blocks.GetBlock s.js.curBlock = f (s.blocks.GetBlock s.js.curBlock) ∧
    (s.updateCurBlock f).js = s.js ∧
    (s.updateCurBlock f).blocks.blocks.length = s.blocks.blocks.length ∧
    (s.updateCurBlock f).code = s.code := by
  refine ⟨?_, rfl, ?_, rfl⟩
  · simp only [Jit.updateCurBlock, ArmJitBlockCache.GetBlock]
    exact getD_updateBlock_self f _ _ _ h
  · simp only [Jit.updateCurBlock]
    exact updateBlock_length f _ _

/-- The current block after `WriteExit`, in terms of the current block
before: the two exit arrays are written at `exit_num`, and `linkStatus`
at most. -/
theorem WriteExit_curBlock (env : Env) (s : Jit) (destination exit_num : Nat)
    (hcur : s.js.curBlock < s.blocks.blocks.length) :
    ((s.WriteExit env destination exit_num).blocks.GetBlock s.js.curBlock).exitAddress
      = (fun i => if i = exit_num then destination
          else (s.blocks.GetBlock s.js.curBlock).exitAddress i) ∧
    ((s.WriteExit env destination exit_num).blocks.GetBlock s.js.curBlock).exitPtrs
      = (fun i => if i = exit_num then (s.DoDownCount env).GetCodePtr
          else (s.blocks.GetBlock s.js.curBlock).exitPtrs i) := by
  obtain ⟨hjs, hjo, hblocks, hgpr, hcond, hpc⟩ := DoDownCount_frame env s
  unfold Jit.WriteExit
  simp only []
  split
  · simp only [Jit.updateCurBlock, Jit.Write, ArmJitBlockCache.GetBlock, hjs, hblocks]
    rw [getD_updateBlock_self, getD_updateBlock_self, getD_updateBlock_self]
    · exact ⟨rfl, rfl⟩
    · exact hcur
    · rw [updateBlock_length]; exact hcur
    · rw [updateBlock_length, updateBlock_length]; exact hcur
  · simp only [Jit.updateCurBlock, Jit.Write, Jit.MovToPC, ArmJitBlockCache.GetBlock, hjs, hblocks]
    rw [getD_updateBlock_self, getD_updateBlock_self]
    · exact ⟨rfl, rfl⟩
    · exact hcur
    · rw [updateBlock_length]; exact hcur

theorem WriteExit_code_after_decrement (env : Env) (s : Jit) (destination exit_num : Nat) :
    ∃ tail, (s.WriteExit env destination exit_num).code = (s.DoDownCount env).code ++ tail := by
  unfold Jit.WriteExit
  simp only []
  split
  · simp only [Jit.updateCurBlock, Jit.Write]
    exact ⟨_, rfl⟩
  · simp only [Jit.updateCurBlock, Jit.Write, Jit.MovToPC, List.append_assoc]
    exact ⟨_, rfl⟩

/-- C13: `WriteExit` emits the decrement first; the current block then
has `destination` in `exitAddress[exit_num]` and the code position right
after the decrement in `exitPtrs[exit_num]`, and every other entry of the two
arrays is as before. -/
theorem WriteExit_records_exit (env : Env) (s : Jit) (destination exit_num : Nat)
    (hcur : s.js.curBlock < s.blocks.blocks.length) :
    (∃ tail, (s.WriteExit env destination exit_num).code
      = s.code ++ downCountCode env s.condition s.js.downcountAmount ++ tail) ∧
    ((s.WriteExit env destination exit_num).blocks.GetBlock s.js.curBlock).exitAddress exit_num
      = destination ∧
    ((s.WriteExit env destination exit_num).blocks.GetBlock s.js.curBlock).exitPtrs exit_num
      = 4 * (s.code ++ downCountCode env s.condition s.js.downcountAmount).length ∧
    (∀ m, m ≠ exit_num →
      ((s.WriteExit env destination exit_num).blocks.GetBlock s.js.curBlock).exitAddress m
        = (s.blocks.GetBlock s.js.curBlock).exitAddress m ∧
      ((s.WriteExit env destination exit_num).blocks.GetBlock s.js.curBlock).exitPtrs m
        = (s.blocks.GetBlock s.js.curBlock).exitPtrs m) := by
  obtain ⟨h1, h2⟩ := WriteExit_curBlock env s destination exit_num hcur
  obtain ⟨tail, ht⟩ := WriteExit_code_after_decrement env s destination exit_num
  refine ⟨⟨tail, by rw [ht, DoDownCount_code]⟩, ?_, ?_, ?_⟩
  · rw [h1]; simp
  · rw [h2]; simp [Jit.GetCodePtr, DoDownCount_code]
  · intro m hm
    rw [h1, h2]
    simp [hm]

/-- Witness of C13: `linkingJit` records exit 1 to `0x08000200` in block
1, right after the four instructions of the decrement. -/
theorem WriteExit_records_exit_witness :
    linkingJit.js.curBlock < linkingJit.blocks.blocks.length ∧
    ((linkingJit.WriteExit exampleEnv 0x08000200 1).blocks.GetBlock 1).exitAddress 1
      = 0x08000200 ∧
    ((linkingJit.WriteExit exampleEnv 0x08000200 1).blocks.GetBlock 1).exitPtrs 1 = 16 :=
  ⟨by decide,
   (WriteExit_records_exit exampleEnv linkingJit 0x08000200 1 (by decide)).2.1,
   (WriteExit_records_exit exampleEnv linkingJit 0x08000200 1 (by decide)).2.2.1⟩

/-- C14: `WriteExitDestInR` emits the store of `Reg` to the guest program
counter, then the decrement, then the branch to `asm_.dispatcher` through
`R0`, and leaves the block table as it is. Run unconditionally, with the
counter not at the address of the guest program counter, that code leaves the
value `Reg` had on entry in the guest program counter, the counter decremented,
and goes to the dispatcher. -/
theorem WriteExitDestInR_exit (env : Env) (s : Jit) (Reg : ARMReg) (st : ArmState)
    (hcond : s.condition = CCFlags.CC_AL)
    (halias : u32 env.downcountAddr ≠ u32 (st.r ARMReg.R10 + env.pcOffset)) :
    (s.WriteExitDestInR env Reg).emittedSince s =
      [{ cond := s.condition, op := ArmOp.STR ARMReg.R10 Reg env.pcOffset }]
        ++ downCountCode env s.condition s.js.downcountAmount
        ++ [{ cond := s.condition, op := ArmOp.MOVI2R ARMReg.R0 env.dispatcher },
            { cond := s.condition, op := ArmOp.B_reg ARMReg.R0 }] ∧
    (s.WriteExitDestInR env Reg).blocks = s.blocks ∧
    ∃ st2, exec ((s.WriteExitDestInR env Reg).emittedSince s) st
        = Outcome.jumped (u32 env.dispatcher) st2 ∧
      st2.mem (u32 (st.r ARMReg.R10 + env.pcOffset)) = u32 (st.r Reg) ∧
      st2.mem (u32 env.downcountAddr)
        = sub32 (st.mem (u32 env.downcountAddr)) s.js.downcountAmount := by
  have hcode : (s.WriteExitDestInR env Reg).emittedSince s =
      [{ cond := s.condition, op := ArmOp.STR ARMReg.R10 Reg env.pcOffset }]
        ++ downCountCode env s.condition s.js.downcountAmount
        ++ [{ cond := s.condition, op := ArmOp.MOVI2R ARMReg.R0 env.dispatcher },
            { cond := s.condition, op := ArmOp.B_reg ARMReg.R0 }] := by
    unfold Jit.WriteExitDestInR Jit.emittedSince
    simp only [Jit.Write, DoDownCount_code, Jit.MovToPC, (DoDownCount_frame env _).2.2.2.2.1]
    simp
  refine ⟨hcode, ?_, ?_⟩
  · unfold Jit.WriteExitDestInR
    simp only [Jit.Write]
    exact (DoDownCount_frame env _).2.2.1
  · rw [hcode, hcond]
    obtain ⟨st2, e1, e2, e3, _, _, e6⟩ := downCountCode_exec env s.js.downcountAmount
      (st.store (st.r ARMReg.R10 + env.pcOffset) (st.r Reg))
    have hfirst : exec [{ cond := CCFlags.CC_AL, op := ArmOp.STR ARMReg.R10 Reg env.pcOffset }] st
        = Outcome.fallthrough (st.store (st.r ARMReg.R10 + env.pcOffset) (st.r Reg)) := by
      simp [exec, execOp, condHolds]
    rw [List.append_assoc, exec_append _ _ _ _ hfirst, exec_append _ _ _ _ e1]
    refine ⟨st2.setReg ARMReg.R0 env.dispatcher, ?_, ?_, ?_⟩
    · simp [exec, execOp, condHolds, ArmState.setReg, u32_u32]
    · have := e3 (u32 (st.r ARMReg.R10 + env.pcOffset)) (fun h => halias h.symm)
      simp only [ArmState.setReg]
      rw [this]
      simp [ArmState.store]
    · simp only [ArmState.setReg]
      rw [e2]
      simp [ArmState.store, halias]

/-- Witness of C14: the exit through `R0`, which the decrement overwrites,
run on the example host state. -/
theorem WriteExitDestInR_exit_witness :
    linkingJit.condition = CCFlags.CC_AL ∧
    u32 exampleEnv.downcountAddr ≠ u32 (exampleArmState.r ARMReg.R10 + exampleEnv.pcOffset) ∧
    (linkingJit.WriteExitDestInR exampleEnv ARMReg.R0).blocks = linkingJit.blocks :=
  ⟨rfl, by decide,
   (WriteExitDestInR_exit exampleEnv linkingJit ARMReg.R0 exampleArmState rfl (by decide)).2.1⟩

/-- C15: `WriteSyscallExit` emits the decrement and then the branch to
`asm_.dispatcherCheckCoreState` through `R0`, nothing else, and leaves the
block table as it is. Run unconditionally, that code writes no word of memory
but the counter (so not the guest program counter) and goes to
`dispatcherCheckCoreState`. -/
theorem WriteSyscallExit_exit (env : Env) (s : Jit) (st : ArmState)
    (hcond : s.condition = CCFlags.CC_AL) :
    (s.WriteSyscallExit env).emittedSince s =
      downCountCode env s.condition s.js.downcountAmount
        ++ [{ cond := s.condition, op := ArmOp.MOVI2R ARMReg.R0 env.dispatcherCheckCoreState },
            { cond := s.condition, op := ArmOp.B_reg ARMReg.R0 }] ∧
    (s.WriteSyscallExit env).blocks = s.blocks ∧
    ∃ st2, exec ((s.WriteSyscallExit env).emittedSince s) st
        = Outcome.jumped (u32 env.dispatcherCheckCoreState) st2 ∧
      (∀ a, a ≠ u32 env.downcountAddr → st2.mem a = st.mem a) ∧
      st2.mem (u32 env.downcountAddr)
        = sub32 (st.mem (u32 env.downcountAddr)) s.js.downcountAmount := by
  have hcode : (s.WriteSyscallExit env).emittedSince s =
      downCountCode env s.condition s.js.downcountAmount
        ++ [{ cond := s.condition, op := ArmOp.MOVI2R ARMReg.R0 env.dispatcherCheckCoreState },
            { cond := s.condition, op := ArmOp.B_reg ARMReg.R0 }] := by
    unfold Jit.WriteSyscallExit Jit.emittedSince
    simp only [Jit.Write, DoDownCount_code, (DoDownCount_frame env _).2.2.2.2.1]
    simp
  refine ⟨hcode, ?_, ?_⟩
  · unfold Jit.WriteSyscallExit
    simp only [Jit.Write]
    exact (DoDownCount_frame env _).2.2.1
  · rw [hcode, hcond]
    obtain ⟨st2, e1, e2, e3, _, _, _⟩ := downCountCode_exec env s.js.downcountAmount st
    rw [exec_append _ _ _ _ e1]
    refine ⟨st2.setReg ARMReg.R0 env.dispatcherCheckCoreState, ?_, ?_, ?_⟩
    · simp [exec, execOp, condHolds, ArmState.setReg, u32_u32]
    · intro a ha
      simp only [ArmState.setReg]
      exact e3 a ha
    · simp only [ArmState.setReg]
      exact e2

/-- Witness of C15: the syscall exit of `linkingJit`. -/
theorem WriteSyscallExit_exit_witness :
    linkingJit.condition = CCFlags.CC_AL ∧
    (linkingJit.WriteSyscallExit exampleEnv).emittedSince linkingJit =
      downCountCode exampleEnv CCFlags.CC_AL 3
        ++ [{ cond := CCFlags.CC_AL, op := ArmOp.MOVI2R ARMReg.R0 0x00100060 },
            { cond := CCFlags.CC_AL, op := ArmOp.B_reg ARMReg.R0 }] :=
  ⟨rfl, (WriteSyscallExit_exit exampleEnv linkingJit exampleArmState rfl).1⟩

/-! ## The budget test at a linked entry -/

/-- After a flag-setting subtraction, `N != V` says that the first operand
is below the second as signed 32-bit integers. -/
theorem lt_flag_iff (a b : Nat) :
    (isNeg32 (sub32 a b) != ((isNeg32 (u32 a) != isNeg32 (u32 b)) &&
      (isNeg32 (sub32 a b) != isNeg32 (u32 a)))) = true ↔ toInt32 a < toInt32 b := by
  have ha : u32 a < 4294967296 := Nat.mod_lt _ (by norm_num)
  have hb : u32 b < 4294967296 := Nat.mod_lt _ (by norm_num)
  simp only [isNeg32, sub32, toInt32, u32_u32]
  generalize u32 a = A at ha ⊢
  generalize u32 b = B at hb ⊢
  simp only [u32, Nat.reducePow, Int.reducePow]
  by_cases h1 : 2147483648 ≤ A <;> by_cases h2 : 2147483648 ≤ B <;>
    by_cases h3 : 2147483648 ≤ (A + 4294967296 - B) % 4294967296 <;>
    simp [h1, h2, h3] <;> omega

/-- When the signed difference fits 32 bits, the 32-bit difference is
negative exactly when the first operand is below the second. -/
theorem neg_iff_of_no_overflow (a b : Nat)
    (h : -(2 ^ 31 : Int) ≤ toInt32 a - toInt32 b ∧ toInt32 a - toInt32 b < 2 ^ 31) :
    isNeg32 (sub32 a b) = true ↔ toInt32 a < toInt32 b := by
  have ha : u32 a < 4294967296 := Nat.mod_lt _ (by norm_num)
  have hb : u32 b < 4294967296 := Nat.mod_lt _ (by norm_num)
  simp only [isNeg32, sub32, toInt32, u32_u32] at h ⊢
  generalize u32 a = A at ha h ⊢
  generalize u32 b = B at hb h ⊢
  simp only [u32, Nat.reducePow, Int.reducePow] at h ⊢
  by_cases h1 : A < 2147483648 <;> by_cases h2 : B < 2147483648 <;>
    simp [h1, h2] at h ⊢ <;> omega

theorem DoJitEntry_emitted (env : Env) (s : Jit) (em_address b : Nat) :
    (s.DoJitEntry env em_address b).emittedSince s =
      [ { cond := CCFlags.CC_LT, op := ArmOp.MOVI2R ARMReg.R0 s.mips_pc },
        { cond := CCFlags.CC_LT, op := ArmOp.STR ARMReg.R10 ARMReg.R0 env.pcOffset },
        { cond := CCFlags.CC_LT, op := ArmOp.MOVI2R ARMReg.R0 env.outerLoop },
        { cond := CCFlags.CC_LT, op := ArmOp.B_reg ARMReg.R0 } ] := by
  simp [Jit.emittedSince, Jit.DoJitEntry, Jit.Write, Jit.MovToPC, Jit.SetCC, Jit.updateCurBlock]

/-- The checked entry branches, to `asm_.outerLoop`, exactly when `LT`
holds on arrival. -/
theorem checkedEntry_jumpTarget (env : Env) (s : Jit) (em_address b : Nat) (st : ArmState) :
    (exec ((s.DoJitEntry env em_address b).emittedSince s) st).jumpTarget
      = if condHolds CCFlags.CC_LT st = true then some (u32 env.outerLoop) else none := by
  rw [DoJitEntry_emitted]
  by_cases hc : condHolds CCFlags.CC_LT st = true
  · simp only [exec, execOp, condHolds_setReg, condHolds_store, hc, if_true]
    simp [Outcome.jumpTarget, ArmState.setReg, u32_u32]
  · simp only [Bool.not_eq_true] at hc
    simp [exec, hc, Outcome.jumpTarget]

theorem WriteExit_linked_emitted (env : Env) (s : Jit) (destination exit_num : Nat)
    (henable : s.jo.enableBlocklink = true)
    (hfound : 0 ≤ s.blocks.GetBlockNumberFromStartAddress destination) :
    (s.WriteExit env destination exit_num).emittedSince s =
      downCountCode env s.condition s.js.downcountAmount ++
        [{ cond := s.condition,
           op := ArmOp.B_ptr (s.blocks.GetBlock
                  (s.blocks.GetBlockNumberFromStartAddress destination).toNat).checkedEntry }] := by
  obtain ⟨hjs, hjo, hblocks, hgpr, hcond, hpc⟩ := DoDownCount_frame env s
  have hlook := WriteExit_lookup env s destination exit_num
  have hguard : 0 ≤ s.blocks.GetBlockNumberFromStartAddress destination ∧
      s.jo.enableBlocklink = true := ⟨hfound, henable⟩
  unfold Jit.WriteExit Jit.emittedSince
  simp only [hlook]
  rw [if_pos (by simpa [Jit.updateCurBlock, hjo] using hguard)]
  simp only [Jit.updateCurBlock, Jit.Write, ArmJitBlockCache.GetBlock, hcond, hblocks,
    DoDownCount_code, List.append_assoc, List.drop_left]
  rw [getD_updateBlock_field (fun b => b.checkedEntry),
    getD_updateBlock_field (fun b => b.checkedEntry)]
  all_goals intro b; rfl

/-- C17 fails as stated: with the counter at `0x80000000` and one cycle to
subtract, the linked exit stores `0x7FFFFFFF`, which is not negative, and
arrives at the checked entry (at 64) with `LT` true, so the checked entry
branches to `asm_.outerLoop`. -/
theorem linked_entry_yields_on_overflow :
    (exec ((oneCycleJit.WriteExit exampleEnv 0x08000000 0).emittedSince oneCycleJit)
      overflowArmState).jumpTarget = some 64 ∧
    (exec ((oneCycleJit.WriteExit exampleEnv 0x08000000 0).emittedSince oneCycleJit)
      overflowArmState).state.mem 0x00A00000 = 0x7FFFFFFF ∧
    isNeg32 ((exec ((oneCycleJit.WriteExit exampleEnv 0x08000000 0).emittedSince oneCycleJit)
      overflowArmState).state.mem 0x00A00000) = false ∧
    (exec ((exampleJit.DoJitEntry exampleEnv 0x08000000 0).emittedSince exampleJit)
      (exec ((oneCycleJit.WriteExit exampleEnv 0x08000000 0).emittedSince oneCycleJit)
        overflowArmState).state).jumpTarget = some 0x00100020 := by
  refine ⟨by decide, by decide, by decide, by decide⟩

/-- C17, as amended: a linked exit is the decrement followed by the direct
branch, so the flags on arrival are those of the `SUBS`; the checked entry
then branches to `asm_.outerLoop` exactly when `N != V`, that is when the
prior counter value is below the amount as signed 32-bit integers. That is
the same as the stored counter value being negative whenever the signed
difference fits 32 bits. -/
theorem linked_entry_yields_iff (env : Env) (s s0 : Jit) (destination exit_num em_address b : Nat)
    (st : ArmState)
    (hcond : s.condition = CCFlags.CC_AL)
    (henable : s.jo.enableBlocklink = true)
    (hfound : 0 ≤ s.blocks.GetBlockNumberFromStartAddress destination) :
    (s.WriteExit env destination exit_num).emittedSince s =
      downCountCode env s.condition s.js.downcountAmount ++
        [{ cond := s.condition,
           op := ArmOp.B_ptr (s.blocks.GetBlock
                  (s.blocks.GetBlockNumberFromStartAddress destination).toNat).checkedEntry }] ∧
    ∃ st2,
      exec ((s.WriteExit env destination exit_num).emittedSince s) st
        = Outcome.jumped (s.blocks.GetBlock
            (s.blocks.GetBlockNumberFromStartAddress destination).toNat).checkedEntry st2 ∧
      st2.mem (u32 env.downcountAddr)
        = sub32 (st.mem (u32 env.downcountAddr)) s.js.downcountAmount ∧
      (condHolds CCFlags.CC_LT st2 = true ↔
        toInt32 (st.mem (u32 env.downcountAddr)) < toInt32 s.js.downcountAmount) ∧
      (exec ((s0.DoJitEntry env em_address b).emittedSince s0) st2).jumpTarget
        = (if toInt32 (st.mem (u32 env.downcountAddr)) < toInt32 s.js.downcountAmount
            then some (u32 env.outerLoop) else none) ∧
      (-(2 ^ 31 : Int) ≤ toInt32 (st.mem (u32 env.downcountAddr)) - toInt32 s.js.downcountAmount ∧
        toInt32 (st.mem (u32 env.downcountAddr)) - toInt32 s.js.downcountAmount < 2 ^ 31 →
        (condHolds CCFlags.CC_LT st2 = true ↔
          isNeg32 (st2.mem (u32 env.downcountAddr)) = true)) := by
  have hcode := WriteExit_linked_emitted env s destination exit_num henable hfound
  refine ⟨hcode, ?_⟩
  rw [hcode, hcond]
  obtain ⟨st2, e1, e2, e3, e4, e5, e6⟩ := downCountCode_exec env s.js.downcountAmount st
  have hlt : condHolds CCFlags.CC_LT st2 = true ↔
      toInt32 (st.mem (u32 env.downcountAddr)) < toInt32 s.js.downcountAmount := by
    simp only [condHolds]
    rw [e4, e5]
    exact lt_flag_iff _ _
  refine ⟨st2, ?_, e2, hlt, ?_, ?_⟩
  · rw [exec_append _ _ _ _ e1]
    simp [exec, execOp, condHolds]
  · rw [checkedEntry_jumpTarget]
    by_cases h : toInt32 (st.mem (u32 env.downcountAddr)) < toInt32 s.js.downcountAmount
    · rw [if_pos h, if_pos (hlt.mpr h)]
    · rw [if_neg h, if_neg (fun hh => h (hlt.mp hh))]
  · intro hno
    rw [hlt, e2]
    exact (neg_iff_of_no_overflow _ _ hno).symm

/-- Witness of C17 as amended: the linked exit of `linkingJit` to block 0,
run with the counter at 10. -/
theorem linked_entry_yields_iff_witness :
    linkingJit.condition = CCFlags.CC_AL ∧ linkingJit.jo.enableBlocklink = true ∧
    0 ≤ linkingJit.blocks.GetBlockNumberFromStartAddress 0x08000000 ∧
    (linkingJit.WriteExit exampleEnv 0x08000000 0).emittedSince linkingJit =
      downCountCode exampleEnv CCFlags.CC_AL 3 ++
        [{ cond := CCFlags.CC_AL, op := ArmOp.B_ptr 64 }] :=
  ⟨rfl, rfl, by decide,
   (linked_entry_yields_iff exampleEnv linkingJit exampleJit 0x08000000 0 0x08000000 0
      countingArmState rfl rfl (by decide)).1⟩

/-! ## Where the compile loop stops -/

theorem Comp_Generic_js (env : Env) (s : Jit) (op : Nat) : (s.Comp_Generic env op).js = s.js := by
  unfold Jit.Comp_Generic
  simp only []
  split <;> rfl

theorem WriteExit_js (env : Env) (s : Jit) (destination exit_num : Nat) :
    (s.WriteExit env destination exit_num).js = s.js := by
  unfold Jit.WriteExit
  simp only []
  split <;>
    simp [Jit.Write, Jit.updateCurBlock, Jit.MovToPC, (DoDownCount_frame env s).1]

theorem WriteExitDestInR_js (env : Env) (s : Jit) (x : ARMReg) :
    (s.WriteExitDestInR env x).js = s.js := by
  unfold Jit.WriteExitDestInR
  simp only [Jit.Write]
  exact (DoDownCount_frame env _).1

theorem WriteSyscallExit_js (env : Env) (s : Jit) : (s.WriteSyscallExit env).js = s.js := by
  unfold Jit.WriteSyscallExit
  simp only [Jit.Write]
  exact (DoDownCount_frame env _).1

theorem StopsAs_same (t1 t : Jit) (o : Option Bool) (r : Option Jit) (hjs : t1.js = t.js)
    (h : StopsAs r t1 o) : StopsAs r t o := by
  unfold StopsAs at h ⊢
  rw [hjs] at h
  exact h

theorem runCalls_stops (env : Env) (pc : Nat) (compileAt : Nat → Jit → Option Jit)
    (stopAt : Nat → Option Bool)
    (hc : ∀ addr t, t.js.compilerPC = pc → StopsAs (compileAt addr t) t (stopAt addr))
    (cs : List JitCall) (s : Jit) (hpc : s.js.compilerPC = pc) :
    StopsAs (runCalls env compileAt cs s) s (callsStop stopAt cs) := by
  induction cs generalizing s with
  | nil => exact ⟨s, rfl, by simp, rfl⟩
  | cons c rest ih =>
    have hplain : ∀ s1 : Jit, s1.js = s.js → runCall env compileAt c s = some s1 →
        callsStop stopAt (c :: rest) = callsStop stopAt rest →
        StopsAs (runCalls env compileAt (c :: rest) s) s (callsStop stopAt (c :: rest)) := by
      intro s1 hjs hrun hstop
      rw [hstop]
      simp only [runCalls, hrun]
      exact StopsAs_same s1 s _ _ hjs (ih s1 (by rw [hjs]; exact hpc))
    cases c with
    | FlushAll => exact hplain s.FlushAll rfl rfl rfl
    | Comp_Generic op => exact hplain _ (Comp_Generic_js env s op) rfl rfl
    | WriteExit d n => exact hplain _ (WriteExit_js env s d n) rfl rfl
    | WriteExitDestInR x => exact hplain _ (WriteExitDestInR_js env s x) rfl rfl
    | WriteSyscallExit => exact hplain _ (WriteSyscallExit_js env s) rfl rfl
    | Emit op => exact hplain (s.Write op) rfl rfl rfl
    | CompileAt addr =>
      have h1 := hc addr s hpc
      simp only [runCalls, runCall, callsStop]
      cases ha : stopAt addr with
      | none =>
        rw [ha] at h1
        simp only [StopsAs] at h1 ⊢
        rw [h1]
      | some a =>
        rw [ha] at h1
        obtain ⟨t1, e1, e2, e3⟩ := h1
        rw [e1]
        simp only []
        have h2 := ih t1 (by rw [e3]; exact hpc)
        cases hb : callsStop stopAt rest with
        | none =>
          rw [hb] at h2
          simp only [StopsAs] at h2 ⊢
          exact h2
        | some b =>
          rw [hb] at h2
          obtain ⟨t2, f1, f2, f3⟩ := h2
          refine ⟨t2, f1, ?_, by rw [f3, e3]⟩
          rw [f2, e2]
          cases s.js.compiling <;> cases a <;> cases b <;> rfl
    | StopCompiling =>
      simp only [runCalls, runCall, callsStop]
      have h2 := ih ({ s with js := { s.js with compiling := false } } : Jit) hpc
      cases hb : callsStop stopAt rest with
      | none =>
        rw [hb] at h2
        simp only [StopsAs] at h2 ⊢
        exact h2
      | some b =>
        rw [hb] at h2
        obtain ⟨t2, f1, f2, f3⟩ := h2
        refine ⟨t2, f1, ?_, f3⟩
        rw [f2]
        simp

/-- The routine of an opcode clears `js.compiling` exactly as
`routineStops` says, and leaves the compile cursor where it was. -/
theorem MIPSCompileOp_stops (env : Env) (depth op : Nat) (s : Jit) :
    StopsAs (MIPSCompileOp env depth op s) s (routineStops env depth op s.js.compilerPC) := by
  induction depth generalizing op s with
  | zero => simp [StopsAs, MIPSCompileOp, routineStops]
  | succ d ih =>
    simp only [MIPSCompileOp, routineStops]
    exact runCalls_stops env s.js.compilerPC _ _
      (fun addr t ht => by rw [← ht]; exact ih _ t) _ s rfl

theorem addrAt_succ (pc k : Nat) : addrAt pc (k + 1) = u32 (addrAt pc k + 4) := by
  induction k generalizing pc with
  | zero => rfl
  | succ n ih =>
    show addrAt (u32 (pc + 4)) (n + 1) = u32 (addrAt (u32 (pc + 4)) n + 4)
    exact ih _

theorem DoJitLoop_done (env : Env) (depth fuel : Nat) (s : Jit) (n : Nat)
    (h : s.js.compiling = false) : Jit.DoJitLoop env depth fuel s n = some (s, n) := by
  cases fuel <;> simp [Jit.DoJitLoop, h]

/-- The loop of `DoJit` stops right after the first instruction whose
routine clears `js.compiling`: if that is the instruction number `k` from the
cursor, the loop returns, given `k + 1` iterations or more, having compiled
`k + 1` instructions. -/
theorem DoJitLoop_stops (env : Env) (depth : Nat) (k fuel : Nat) (s : Jit) (n0 : Nat)
    (hcomp : s.js.compiling = true) (hfuel : k < fuel)
    (hbefore : ∀ i, i < k → routineStops env depth
      (env.Read_Instruction (addrAt s.js.compilerPC i)) (addrAt s.js.compilerPC i) = some false)
    (hstop : routineStops env depth
      (env.Read_Instruction (addrAt s.js.compilerPC k)) (addrAt s.js.compilerPC k) = some true) :
    ∃ s1, Jit.DoJitLoop env depth fuel s n0 = some (s1, n0 + k + 1) ∧
      s1.js.compilerPC = addrAt s.js.compilerPC (k + 1) ∧ s1.js.compiling = false := by
  induction k generalizing fuel s n0 with
  | zero =>
    cases fuel with
    | zero => omega
    | succ f =>
      simp only [Jit.DoJitLoop]
      rw [if_pos hcomp]
      have h := MIPSCompileOp_stops env depth (env.Read_Instruction s.js.compilerPC)
        ({ s with js := { s.js with downcountAmount := s.js.downcountAmount +
            env.MIPSGetInstructionCycleEstimate (env.Read_Instruction s.js.compilerPC) } } : Jit)
      simp only [addrAt] at hstop
      simp only [] at h
      rw [hstop] at h
      obtain ⟨t1, e1, e2, e3⟩ := h
      rw [e1]
      simp only []
      refine ⟨_, DoJitLoop_done env depth f _ _ (by simp [e2]), ?_, by simp [e2]⟩
      simp only [addrAt]
      rw [e3]
  | succ j ih =>
    cases fuel with
    | zero => omega
    | succ f =>
      simp only [Jit.DoJitLoop]
      rw [if_pos hcomp]
      have h := MIPSCompileOp_stops env depth (env.Read_Instruction s.js.compilerPC)
        ({ s with js := { s.js with downcountAmount := s.js.downcountAmount +
            env.MIPSGetInstructionCycleEstimate (env.Read_Instruction s.js.compilerPC) } } : Jit)
      have h0 := hbefore 0 (by omega)
      simp only [addrAt] at h0
      simp only [] at h
      rw [h0] at h
      obtain ⟨t1, e1, e2, e3⟩ := h
      rw [e1]
      simp only []
      have e3a : t1.js.compilerPC = s.js.compilerPC := e3
      have hrec := ih f ({ t1 with js := { t1.js with compilerPC := u32 (t1.js.compilerPC + 4) } } : Jit)
        (n0 + 1) (by simp [e2, hcomp]) (by omega)
        (fun i hi => by
          have := hbefore (i + 1) (by omega)
          simp only [addrAt] at this
          simp only [e3a]
          exact this)
        (by
          simp only [addrAt] at hstop
          simp only [e3a]
          exact hstop)
      obtain ⟨s1, g1, g2, g3⟩ := hrec
      refine ⟨s1, ?_, ?_, g3⟩
      · rw [g1]
        congr 2
        omega
      · rw [g2]
        simp only [e3a]
        rfl

/-- `DoJit` returns when the instruction number `k` from `mips_->pc` is
the first whose routine clears `js.compiling`, and the block then counts
`k + 1` instructions. -/
theorem DoJit_stops (env : Env) (fuel : Nat) (s : Jit) (em_address b k : Nat)
    (hbefore : ∀ i, i < k → routineStops env fuel
      (env.Read_Instruction (addrAt s.mips_pc i)) (addrAt s.mips_pc i) = some false)
    (hstop : routineStops env fuel
      (env.Read_Instruction (addrAt s.mips_pc k)) (addrAt s.mips_pc k) = some true)
    (hfuel : k < fuel) (hb : b < s.blocks.blocks.length) :
    ∃ r, s.DoJit env fuel em_address b = some r ∧
      (r.1.blocks.GetBlock b).originalSize = k + 1 ∧
      r.2 = (r.1.blocks.GetBlock b).normalEntry ∧
      r.1.js.compilerPC = addrAt s.mips_pc (k + 1) ∧
      r.1.js.compiling = false ∧
      r.1.js.downcountAmount = cycleSum env s.mips_pc (k + 1) := by
  obtain ⟨e1, e2, e3, e4, e5, e6, e7, e8, e9, e10⟩ := DoJitEntry_state env s em_address b
  obtain ⟨s1, g1, g2, g3⟩ := DoJitLoop_stops env fuel k fuel (s.DoJitEntry env em_address b) 0 e4
    hfuel (by rw [e2]; exact hbefore) (by rw [e2]; exact hstop)
  have hjit : s.DoJit env fuel em_address b = some (s1.DoJitExit (0 + k + 1)) := by
    unfold Jit.DoJit
    rw [g1]
  obtain ⟨a1, a2, a3, a4, a5, a6, a7, a8, a9, a10, a11, _⟩ :=
    DoJitLoop_result env fuel fuel _ s1 0 (0 + k + 1) g1
  obtain ⟨x1, x2, x3, x4, x5, x6, x7⟩ := DoJitExit_state s1 (0 + k + 1)
  have hcur : s1.js.curBlock = b := by rw [a5]; exact e5
  have hlen : s1.blocks.blocks.length = s.blocks.blocks.length := by
    rw [length_of_map_blockKey a11, length_of_map_blockKey e10]
  refine ⟨_, hjit, ?_, ?_, ?_, ?_, ?_⟩
  · have := x7 (by rw [hcur, hlen]; exact hb)
    rw [hcur] at this
    rw [this]; omega
  · show ((s1.DoJitExit (0 + k + 1)).1.blocks.GetBlock (s1.DoJitExit (0 + k + 1)).1.js.curBlock).normalEntry = _
    rw [x1, hcur]
  · rw [x1, g2, e2]
  · rw [x1]; exact g3
  · rw [x1, a3, e3, e2]
    simp

/-- C11: when the instruction number `k` from the block start is the first
whose compile routine clears `js.compiling`, `DoJit` returns (given `k + 1`
iterations or more), having compiled the `k + 1` instructions at consecutive
addresses from the block start: the compile cursor ends one instruction past
the stopping one, `originalSize` is `k + 1`, which is one at least, and the
value returned is the block's `normalEntry`. -/
theorem DoJit_terminates (env : Env) (fuel : Nat) (s : Jit) (em_address b k : Nat)
    (hbefore : ∀ i, i < k → routineStops env fuel
      (env.Read_Instruction (addrAt s.mips_pc i)) (addrAt s.mips_pc i) = some false)
    (hstop : routineStops env fuel
      (env.Read_Instruction (addrAt s.mips_pc k)) (addrAt s.mips_pc k) = some true)
    (hfuel : k < fuel) (hb : b < s.blocks.blocks.length) :
    (s.DoJit env fuel em_address b).isSome = true ∧
    ((s.DoJitState env fuel em_address b).blocks.GetBlock b).originalSize = k + 1 ∧
    s.DoJitReturn env fuel em_address b
      = ((s.DoJitState env fuel em_address b).blocks.GetBlock b).normalEntry ∧
    (s.DoJitState env fuel em_address b).js.blockStart = s.mips_pc ∧
    (s.DoJitState env fuel em_address b).js.compilerPC = addrAt s.mips_pc (k + 1) ∧
    (s.DoJitState env fuel em_address b).js.compiling = false := by
  obtain ⟨r, h0, h1, h2, h3, h4, _⟩ :=
    DoJit_stops env fuel s em_address b k hbefore hstop hfuel hb
  obtain ⟨_, _, _, _, _, h5, _⟩ := DoJit_result env fuel s em_address b r h0
  have hst : s.DoJitState env fuel em_address b = r.1 := DoJitState_eq env fuel s em_address b r h0
  have hret : s.DoJitReturn env fuel em_address b = r.2 := by simp [Jit.DoJitReturn, h0]
  rw [hst, hret, h0]
  exact ⟨rfl, h1, h2, h5, h3, h4⟩

/-- Witness of C11: in the example the jump at `0x08000008` is the first
instruction that ends the block, so the block at `0x08000000` has three
instructions. -/
theorem DoJit_terminates_witness :
    (exampleJit.DoJit exampleEnv 4 0x08000000 0).isSome = true ∧
    ((exampleJit.DoJitState exampleEnv 4 0x08000000 0).blocks.GetBlock 0).originalSize = 3 ∧
    exampleJit.DoJitReturn exampleEnv 4 0x08000000 0 = 16 :=
  ⟨(DoJit_terminates exampleEnv 4 exampleJit 0x08000000 0 2 (by decide) (by decide)
      (by decide) (by decide)).1,
   (DoJit_terminates exampleEnv 4 exampleJit 0x08000000 0 2 (by decide) (by decide)
      (by decide) (by decide)).2.1,
   by decide⟩

/-- C16: `Comp_Generic` leaves the compile state `js` as it is, the flag
`js.compiling`, the cursor and the accumulated cycles included. So for a
stream of an instruction that does not end the block, one whose routine is
`Comp_Generic`, and one that ends the block, `DoJit` returns one block of
three instructions whose cycle cost is the sum of the three estimates. -/
theorem Comp_Generic_continues (env : Env) (fuel : Nat) (s : Jit) (em_address b : Nat)
    (h0 : routineStops env fuel (env.Read_Instruction s.mips_pc) s.mips_pc = some false)
    (h1 : env.compileTable (env.Read_Instruction (u32 (s.mips_pc + 4))) (u32 (s.mips_pc + 4))
      = [JitCall.Comp_Generic (env.Read_Instruction (u32 (s.mips_pc + 4)))])
    (h2 : routineStops env fuel (env.Read_Instruction (u32 (u32 (s.mips_pc + 4) + 4)))
      (u32 (u32 (s.mips_pc + 4) + 4)) = some true)
    (hfuel : 2 < fuel) (hb : b < s.blocks.blocks.length) :
    (∀ (t : Jit) (op : Nat), (t.Comp_Generic env op).js = t.js) ∧
    (s.DoJit env fuel em_address b).isSome = true ∧
    ((s.DoJitState env fuel em_address b).blocks.GetBlock b).originalSize = 3 ∧
    (s.DoJitState env fuel em_address b).js.downcountAmount
      = env.MIPSGetInstructionCycleEstimate (env.Read_Instruction s.mips_pc)
        + env.MIPSGetInstructionCycleEstimate (env.Read_Instruction (u32 (s.mips_pc + 4)))
        + env.MIPSGetInstructionCycleEstimate
            (env.Read_Instruction (u32 (u32 (s.mips_pc + 4) + 4))) := by
  have hgen : routineStops env fuel (env.Read_Instruction (u32 (s.mips_pc + 4)))
      (u32 (s.mips_pc + 4)) = some false := by
    cases fuel with
    | zero => omega
    | succ f => simp [routineStops, h1, callsStop]
  obtain ⟨r, e0, e1, _, _, _, e5⟩ := DoJit_stops env fuel s em_address b 2
    (fun i hi => by
      have hcases : i = 0 ∨ i = 1 := by omega
      rcases hcases with h | h
      · rw [h]; exact h0
      · rw [h]; exact hgen)
    h2 hfuel hb
  have hst : s.DoJitState env fuel em_address b = r.1 := DoJitState_eq env fuel s em_address b r e0
  rw [hst, e0]
  refine ⟨fun t op => Comp_Generic_js env t op, rfl, e1, ?_⟩
  rw [e5]
  simp only [cycleSum]
  omega

/-- Witness of C16: the example stream at `0x08000000`, whose second
instruction goes to the fallback. -/
theorem Comp_Generic_continues_witness :
    (exampleJit.DoJit exampleEnv 4 0x08000000 0).isSome = true ∧
    ((exampleJit.DoJitState exampleEnv 4 0x08000000 0).blocks.GetBlock 0).originalSize = 3 ∧
    (exampleJit.DoJitState exampleEnv 4 0x08000000 0).js.downcountAmount = 1 + 1 + 2 :=
  ⟨(Comp_Generic_continues exampleEnv 4 exampleJit 0x08000000 0 (by decide) (by decide)
      (by decide) (by decide) (by decide)).2.1,
   (Comp_Generic_continues exampleEnv 4 exampleJit 0x08000000 0 (by decide) (by decide)
      (by decide) (by decide) (by decide)).2.2.1,
   (Comp_Generic_continues exampleEnv 4 exampleJit 0x08000000 0 (by decide) (by decide)
      (by decide) (by decide) (by decide)).2.2.2⟩

/-! ## An exit to the block being compiled -/

theorem findBlock_mem (addr : Nat) (l : List ArmJitBlock) (k : Nat)
    (h : 0 ≤ findBlock addr l k) : (addr, true) ∈ l.map blockKey := by
  obtain ⟨i, _, hi, hfin, haddr⟩ := findBlock_found addr (ArmJitBlock.fresh 0) l k h
  refine List.mem_map.mpr ⟨l.getD i (ArmJitBlock.fresh 0), ?_, ?_⟩
  · rw [List.getD_eq_getElem l _ hi]
    exact List.getElem_mem hi
  · simp only [blockKey]
    rw [hfin, haddr]

/-- While the block for `A` is allocated and not yet finalized, and no
other finalized block is registered under `A`, the lookup of `A` finds
nothing. -/
theorem lookup_while_compiling (s t : Jit) (A : Nat)
    (hmiss : ¬ 0 ≤ s.blocks.GetBlockNumberFromStartAddress A)
    (hkeys : t.blocks.blocks.map blockKey
      = s.CompileClear.blocks.blocks.map blockKey ++ [(A, false)]) :
    t.blocks.GetBlockNumberFromStartAddress A = -1 := by
  rcases findBlock_neg A t.blocks.blocks 0 with h | h
  · exact h
  · exfalso
    have hm := findBlock_mem A t.blocks.blocks 0 h
    rw [hkeys] at hm
    rcases List.mem_append.mp hm with h1 | h1
    · unfold Jit.CompileClear at h1
      split at h1
      · simp [Jit.ClearCache, Jit.ClearCodeSpace, ArmJitBlockCache.Clear] at h1
      · exact findBlock_miss A s.blocks.blocks 0 hmiss h1
    · simp at h1

/-- The lookup reads only the keys of the blocks. -/
theorem findBlock_keys (addr : Nat) (l1 l2 : List ArmJitBlock) (k : Nat)
    (h : l1.map blockKey = l2.map blockKey) : findBlock addr l1 k = findBlock addr l2 k := by
  induction l1 generalizing l2 k with
  | nil =>
    cases l2 with
    | nil => rfl
    | cons b bs => simp at h
  | cons a as ih =>
    cases l2 with
    | nil => simp at h
    | cons b bs =>
      simp only [List.map_cons, List.cons.injEq] at h
      obtain ⟨hab, hrest⟩ := h
      have h1 : a.originalAddress = b.originalAddress := congrArg Prod.fst hab
      have h2 : a.finalized = b.finalized := congrArg Prod.snd hab
      simp only [findBlock, h1, h2, ih bs (k + 1) hrest]

/-- The lookup of an address whose only finalized block is the last of the
table finds that block. -/
theorem findBlock_last (addr : Nat) (K : List (Nat × Bool)) (l : List ArmJitBlock) (k : Nat)
    (h : l.map blockKey = K ++ [(addr, true)]) (hK : (addr, true) ∉ K) :
    findBlock addr l k = ((k + K.length : Nat) : Int) := by
  induction K generalizing l k with
  | nil =>
    cases l with
    | nil => simp at h
    | cons b bs =>
      simp only [List.map_cons, List.nil_append, List.cons.injEq] at h
      have h1 : b.originalAddress = addr := congrArg Prod.fst h.1
      have h2 : b.finalized = true := congrArg Prod.snd h.1
      simp [findBlock, h1, h2]
  | cons x K1 ih =>
    cases l with
    | nil => simp at h
    | cons b bs =>
      simp only [List.map_cons, List.cons_append, List.cons.injEq] at h
      obtain ⟨hb, hrest⟩ := h
      simp only [List.mem_cons, not_or] at hK
      have hne : ¬ (b.finalized && decide (b.originalAddress = addr)) = true := by
        intro hc
        simp only [Bool.and_eq_true, decide_eq_true_eq] at hc
        apply hK.1
        rw [← hb]
        simp [blockKey, hc.1, hc.2]
      simp only [findBlock]
      rw [if_neg hne, ih bs (k + 1) hrest hK.2]
      simp only [List.length_cons]
      congr 1
      omega

/-- An updated table holds, at each index, the old block or its update. -/
theorem getD_updateBlock_cases (f : ArmJitBlock → ArmJitBlock) (i j : Nat)
    (l : List ArmJitBlock) (d : ArmJitBlock) :
    (updateBlock f i l).getD j d = f (l.getD j d) ∨ (updateBlock f i l).getD j d = l.getD j d := by
  by_cases hj : j = i
  · subst hj
    by_cases hlen : j < l.length
    · left; exact getD_updateBlock_self f j l d hlen
    · right
      have h1 : (updateBlock f j l).length ≤ j := by rw [updateBlock_length]; omega
      rw [List.getD_eq_default _ _ h1, List.getD_eq_default _ _ (by omega)]
  · right; exact getD_updateBlock_ne f i j l d hj

/-- What the Block Linker leaves alone on one exit slot: the recorded
exits, the patch locations and the checked entries of every block, the
lookup, every link that is set, the link status of the other slots, and the
code outside the patch location of the slot. -/
theorem LinkBlockExit_frame (c : ArmJitBlockCache) (code : List ArmInst) (b e : Nat) :
    (∀ j, ((c.LinkBlockExit code b e).1.GetBlock j).exitAddress = (c.GetBlock j).exitAddress ∧
      ((c.LinkBlockExit code b e).1.GetBlock j).exitPtrs = (c.GetBlock j).exitPtrs ∧
      ((c.LinkBlockExit code b e).1.GetBlock j).checkedEntry = (c.GetBlock j).checkedEntry) ∧
    (∀ addr, (c.LinkBlockExit code b e).1.GetBlockNumberFromStartAddress addr
      = c.GetBlockNumberFromStartAddress addr) ∧
    (∀ j i, (c.GetBlock j).linkStatus i = true →
      ((c.LinkBlockExit code b e).1.GetBlock j).linkStatus i = true) ∧
    (∀ j i, i ≠ e →
      ((c.LinkBlockExit code b e).1.GetBlock j).linkStatus i = (c.GetBlock j).linkStatus i) ∧
    (∀ (k : Nat), k ≠ (c.GetBlock b).exitPtrs e / 4 →
      (c.LinkBlockExit code b e).2[k]? = code[k]?) := by
  refine ⟨?_, ?_, ?_, ?_, ?_⟩
  · intro j
    unfold ArmJitBlockCache.LinkBlockExit
    simp only []
    split
    · simp only [ArmJitBlockCache.GetBlock]
      refine ⟨?_, ?_, ?_⟩
      · rw [getD_updateBlock_field (fun x => x.exitAddress)]; intro x; rfl
      · rw [getD_updateBlock_field (fun x => x.exitPtrs)]; intro x; rfl
      · rw [getD_updateBlock_field (fun x => x.checkedEntry)]; intro x; rfl
    · exact ⟨rfl, rfl, rfl⟩
  · intro addr
    unfold ArmJitBlockCache.GetBlockNumberFromStartAddress
    exact findBlock_keys addr _ _ 0 (LinkBlockExit_keys c code b e).1
  · intro j i hi
    unfold ArmJitBlockCache.LinkBlockExit
    simp only []
    split
    · simp only [ArmJitBlockCache.GetBlock] at hi ⊢
      rcases getD_updateBlock_cases (fun blk =>
        { blk with linkStatus := fun i => if i = e then true else blk.linkStatus i })
        b j c.blocks (ArmJitBlock.fresh 0) with h | h
      · rw [h]
        simp only []
        split
        · rfl
        · exact hi
      · rw [h]; exact hi
    · exact hi
  · intro j i hie
    unfold ArmJitBlockCache.LinkBlockExit
    simp only []
    split
    · simp only [ArmJitBlockCache.GetBlock]
      rw [getD_updateBlock_field (fun x => x.linkStatus i)]
      intro x
      simp only []
      rw [if_neg hie]
    · rfl
  · intro k hk
    unfold ArmJitBlockCache.LinkBlockExit
    simp only []
    split
    · simp only []
      rw [List.getElem?_set_ne (Ne.symm hk)]
    · rfl

/-- The Block Linker on a recorded exit that is not linked and whose
destination has a finalized block: the patch and the mark. -/
theorem LinkBlockExit_links (c : ArmJitBlockCache) (code : List ArmInst) (b e : Nat)
    (hb : b < c.blocks.length)
    (hrec : (c.GetBlock b).exitAddress e ≠ INVALID_EXIT)
    (hun : (c.GetBlock b).linkStatus e = false)
    (hfound : 0 ≤ c.GetBlockNumberFromStartAddress ((c.GetBlock b).exitAddress e)) :
    ((c.LinkBlockExit code b e).1.GetBlock b).linkStatus e = true ∧
    (c.LinkBlockExit code b e).2 = code.set ((c.GetBlock b).exitPtrs e / 4)
      { cond := CCFlags.CC_AL,
        op := ArmOp.B_ptr (c.GetBlock (c.GetBlockNumberFromStartAddress
          ((c.GetBlock b).exitAddress e)).toNat).checkedEntry } := by
  unfold ArmJitBlockCache.LinkBlockExit
  simp only []
  rw [if_pos ⟨hrec, hun, hfound⟩]
  refine ⟨?_, rfl⟩
  simp only [ArmJitBlockCache.GetBlock]
  rw [getD_updateBlock_self _ _ _ _ hb]
  simp

/-- What the Block Linker leaves alone on the first `n` exit slots. -/
theorem LinkBlockExits_frame (c : ArmJitBlockCache) (code : List ArmInst) (b n : Nat) :
    (∀ j, ((c.LinkBlockExits code b n).1.GetBlock j).exitAddress = (c.GetBlock j).exitAddress ∧
      ((c.LinkBlockExits code b n).1.GetBlock j).exitPtrs = (c.GetBlock j).exitPtrs ∧
      ((c.LinkBlockExits code b n).1.GetBlock j).checkedEntry = (c.GetBlock j).checkedEntry) ∧
    (∀ addr, (c.LinkBlockExits code b n).1.GetBlockNumberFromStartAddress addr
      = c.GetBlockNumberFromStartAddress addr) ∧
    (∀ j i, n ≤ i →
      ((c.LinkBlockExits code b n).1.GetBlock j).linkStatus i = (c.GetBlock j).linkStatus i) := by
  induction n with
  | zero => exact ⟨fun _ => ⟨rfl, rfl, rfl⟩, fun _ => rfl, fun _ _ _ => rfl⟩
  | succ n ih =>
    obtain ⟨i1, i2, i3⟩ := ih
    obtain ⟨f1, f2, _, f4, _⟩ := LinkBlockExit_frame (c.LinkBlockExits code b n).1
      (c.LinkBlockExits code b n).2 b n
    simp only [ArmJitBlockCache.LinkBlockExits]
    refine ⟨?_, ?_, ?_⟩
    · intro j
      exact ⟨(f1 j).1.trans (i1 j).1, (f1 j).2.1.trans (i1 j).2.1,
        (f1 j).2.2.trans (i1 j).2.2⟩
    · intro addr
      exact (f2 addr).trans (i2 addr)
    · intro j i hi
      rw [f4 j i (by omega)]
      exact i3 j i (by omega)

/-- The Block Linker on the exit slots of a block links a recorded exit
whose destination has a finalized block: the slot is marked linked and the
instruction at its patch location is the direct jump to the checked entry
of the destination block, provided no other slot has the same patch
location. -/
theorem LinkBlockExits_links (c : ArmJitBlockCache) (code : List ArmInst) (b n e : Nat)
    (hb : b < c.blocks.length) (he : e < n)
    (hrec : (c.GetBlock b).exitAddress e ≠ INVALID_EXIT)
    (hun : (c.GetBlock b).linkStatus e = false)
    (hfound : 0 ≤ c.GetBlockNumberFromStartAddress ((c.GetBlock b).exitAddress e))
    (hin : (c.GetBlock b).exitPtrs e / 4 < code.length)
    (hptrs : ∀ e1, e1 < n → e1 ≠ e →
      (c.GetBlock b).exitPtrs e1 / 4 ≠ (c.GetBlock b).exitPtrs e / 4) :
    ((c.LinkBlockExits code b n).1.GetBlock b).linkStatus e = true ∧
    (c.LinkBlockExits code b n).2[(c.GetBlock b).exitPtrs e / 4]? = some
      { cond := CCFlags.CC_AL,
        op := ArmOp.B_ptr (c.GetBlock (c.GetBlockNumberFromStartAddress
          ((c.GetBlock b).exitAddress e)).toNat).checkedEntry } := by
  induction n with
  | zero => omega
  | succ n ih =>
    obtain ⟨i1, i2, i3⟩ := LinkBlockExits_frame c code b n
    obtain ⟨k1, _, k3⟩ := LinkBlockExits_keys c code b n
    have hlen : b < (c.LinkBlockExits code b n).1.blocks.length := by
      rw [length_of_map_blockKey k1]; exact hb
    simp only [ArmJitBlockCache.LinkBlockExits]
    by_cases hen : e = n
    · subst hen
      obtain ⟨l1, l2⟩ := LinkBlockExit_links (c.LinkBlockExits code b e).1
        (c.LinkBlockExits code b e).2 b e hlen
        (by rw [(i1 b).1]; exact hrec)
        (by rw [i3 b e (le_refl e)]; exact hun)
        (by rw [(i1 b).1, i2]; exact hfound)
      refine ⟨l1, ?_⟩
      rw [l2, (i1 b).1, (i1 b).2.1, i2, (i1 _).2.2]
      rw [List.getElem?_set_self (by rw [k3]; exact hin)]
    · obtain ⟨h1, h2⟩ := ih (by omega) (fun e1 h1 h2 => hptrs e1 (by omega) h2)
      obtain ⟨_, _, f3, _, f5⟩ := LinkBlockExit_frame (c.LinkBlockExits code b n).1
        (c.LinkBlockExits code b n).2 b n
      refine ⟨f3 b e h1, ?_⟩
      rw [f5 _ (by rw [(i1 b).2.1]; exact Ne.symm (hptrs n (by omega) (Ne.symm hen)))]
      exact h2

/-- The state in which `Compile` calls `DoJit`, when the table has a
capacity. -/
theorem CompileAllocated_eq (s : Jit) (A : Nat) (hcap : 0 < s.blocks.capacity) :
    s.CompileAllocated A = { s.CompileClear with blocks :=
      { s.CompileClear.blocks with
        blocks := s.CompileClear.blocks.blocks ++ [ArmJitBlock.fresh A] } } := by
  unfold Jit.CompileAllocated
  rw [CompileClear_AllocateBlock s A hcap]

/-- The result of `Compile` in terms of the result of its call of `DoJit`. -/
theorem Compile_eq (env : Env) (fuel : Nat) (s : Jit) (A : Nat) (r : Jit × Nat)
    (hcap : 0 < s.blocks.capacity)
    (hjit : (s.CompileAllocated A).DoJit env fuel A s.CompileBlock = some r) :
    s.Compile env fuel A = Except.ok { r.1 with
      blocks := (r.1.blocks.FinalizeBlock r.1.code env.numExits s.CompileBlock
        r.1.jo.enableBlocklink r.2).1,
      code := (r.1.blocks.FinalizeBlock r.1.code env.numExits s.CompileBlock
        r.1.jo.enableBlocklink r.2).2 } := by
  rw [CompileAllocated_eq s A hcap] at hjit
  unfold Jit.CompileBlock at hjit
  unfold Jit.Compile
  simp only []
  rw [CompileClear_AllocateBlock s A hcap]
  simp only []
  rw [hjit]
  rfl

/-- C12 fails as stated: in `Compile(0x08000000)` of the tight loop at
`0x08000000` (two instructions and a jump back to `0x08000000`), with block
linking enabled, `WriteExit` does not link the exit. In the state in which
`DoJit` returns, the block is allocated and not finalized, exit 0 is recorded
for `0x08000000` and is not linked, and the code that `WriteExit` wrote is
the store of `0x08000000` to the guest program counter and the branch to
`asm_.dispatcher`. -/
theorem self_exit_not_linked_by_WriteExit :
    (initialJit 4 0x08000000).jo.enableBlocklink = true ∧
    ((initialJit 4 0x08000000).CompileJitted exampleEnv 4 0x08000000).blocks.blocks.map blockKey
      = [(0x08000000, false)] ∧
    (((initialJit 4 0x08000000).CompileJitted exampleEnv 4 0x08000000).blocks.GetBlock
      0).exitAddress 0 = 0x08000000 ∧
    (((initialJit 4 0x08000000).CompileJitted exampleEnv 4 0x08000000).blocks.GetBlock
      0).linkStatus 0 = false ∧
    ((initialJit 4 0x08000000).CompileJitted exampleEnv 4 0x08000000).code.drop 13 =
      [{ cond := CCFlags.CC_AL, op := ArmOp.MOVI2R ARMReg.R0 0x08000000 },
       { cond := CCFlags.CC_AL, op := ArmOp.STR ARMReg.R10 ARMReg.R0 0x200 },
       { cond := CCFlags.CC_AL, op := ArmOp.MOVI2R ARMReg.R0 0x00100040 },
       { cond := CCFlags.CC_AL, op := ArmOp.B_reg ARMReg.R0 },
       { cond := CCFlags.CC_AL, op := ArmOp.PAD },
       { cond := CCFlags.CC_AL, op := ArmOp.PAD },
       { cond := CCFlags.CC_AL, op := ArmOp.PAD }] := by
  refine ⟨rfl, by decide, by decide, by decide, by decide⟩

/-- C12, as amended. `Compile(A)` is called with block linking enabled, for
an address that the lookup does not find, and the block records in slot `e`
an exit to `A` itself. While the block is compiled the table holds it not
yet finalized, so in every such state the lookup of `A` finds nothing and
`WriteExit` to `A` emits the store of `A` to the guest program counter and
the branch to `asm_.dispatcher` and links nothing. `FinalizeBlock`, which
`Compile` calls when `DoJit` has returned, makes the link: after `Compile`
the lookup of `A` finds the block, slot `e` is marked linked, the
instruction at its patch location is the direct jump to the checked entry of
the block itself, and a resolution of `A` is a hit that does not call
`Compile`. -/
theorem self_exit_linked_by_FinalizeBlock (env : Env) (fuel : Nat) (s : Jit) (A e : Nat)
    (hcap : 0 < s.blocks.capacity)
    (hlink : s.jo.enableBlocklink = true)
    (hmiss : ¬ 0 ≤ s.blocks.GetBlockNumberFromStartAddress A)
    (hret : ((s.CompileAllocated A).DoJit env fuel A s.CompileBlock).isSome = true)
    (he : e < env.numExits)
    (hA : A ≠ INVALID_EXIT)
    (hexit : ((s.CompileJitted env fuel A).blocks.GetBlock s.CompileBlock).exitAddress e = A)
    (hun : ((s.CompileJitted env fuel A).blocks.GetBlock s.CompileBlock).linkStatus e = false)
    (hin : ((s.CompileJitted env fuel A).blocks.GetBlock s.CompileBlock).exitPtrs e / 4
      < (s.CompileJitted env fuel A).code.length)
    (hptrs : ∀ e1, e1 < env.numExits → e1 ≠ e →
      ((s.CompileJitted env fuel A).blocks.GetBlock s.CompileBlock).exitPtrs e1 / 4
        ≠ ((s.CompileJitted env fuel A).blocks.GetBlock s.CompileBlock).exitPtrs e / 4) :
    (∀ (w : Jit) (exit_num : Nat),
      w.blocks.blocks.map blockKey
        = s.CompileClear.blocks.blocks.map blockKey ++ [(A, false)] →
      w.blocks.GetBlockNumberFromStartAddress A = -1 ∧
      (w.WriteExit env A exit_num).emittedSince w =
        downCountCode env w.condition w.js.downcountAmount ++
        [{ cond := w.condition, op := ArmOp.MOVI2R ARMReg.R0 A },
         { cond := w.condition, op := ArmOp.STR ARMReg.R10 ARMReg.R0 env.pcOffset },
         { cond := w.condition, op := ArmOp.MOVI2R ARMReg.R0 env.dispatcher },
         { cond := w.condition, op := ArmOp.B_reg ARMReg.R0 }] ∧
      ∀ j, ((w.WriteExit env A exit_num).blocks.GetBlock j).linkStatus
        = (w.blocks.GetBlock j).linkStatus) ∧
    (s.CompileJitted env fuel A).blocks.blocks.map blockKey
      = s.CompileClear.blocks.blocks.map blockKey ++ [(A, false)] ∧
    ∃ s1, s.Compile env fuel A = Except.ok s1 ∧
      s1.blocks.GetBlockNumberFromStartAddress A = ((s.CompileBlock : Nat) : Int) ∧
      (s1.blocks.GetBlock s.CompileBlock).exitAddress e = A ∧
      (s1.blocks.GetBlock s.CompileBlock).linkStatus e = true ∧
      s1.code[(s1.blocks.GetBlock s.CompileBlock).exitPtrs e / 4]? = some
        { cond := CCFlags.CC_AL,
          op := ArmOp.B_ptr (s1.blocks.GetBlock s.CompileBlock).checkedEntry } ∧
      s1.Dispatch env fuel A = Except.ok { s1 with mips_pc := A } := by
  -- the call of `DoJit` and its result
  obtain ⟨r, hjit⟩ := Option.isSome_iff_exists.mp hret
  have ht : s.CompileJitted env fuel A = r.1 := by
    unfold Jit.CompileJitted Jit.DoJitState
    rw [hjit]
  rw [ht] at hexit hun hin hptrs ⊢
  have hjit1 := hjit
  rw [CompileAllocated_eq s A hcap] at hjit1
  obtain ⟨_, _, _, _, _, _, hjo, _, _, _, hkeys0, _⟩ :=
    DoJit_result env fuel _ A s.CompileBlock r hjit1
  simp only [] at hjo hkeys0
  have hkeys : r.1.blocks.blocks.map blockKey
      = s.CompileClear.blocks.blocks.map blockKey ++ [(A, false)] := by
    rw [hkeys0]; simp [blockKey, ArmJitBlock.fresh]
  have hen : r.1.jo.enableBlocklink = true := by
    rw [hjo, (CompileClear_frame s).2.2]; exact hlink
  refine ⟨?_, hkeys, ?_⟩
  · -- `WriteExit` while the block is not finalized
    intro w exit_num hw
    have hlookup := lookup_while_compiling s w A hmiss hw
    obtain ⟨_, hwjo, hblocks, _, hcond, _⟩ := DoDownCount_frame env w
    have hlook := WriteExit_lookup env w A exit_num
    have hguard : ¬ (0 ≤ w.blocks.GetBlockNumberFromStartAddress A ∧
        w.jo.enableBlocklink = true) := by
      rw [hlookup]; rintro ⟨h1, _⟩; omega
    refine ⟨hlookup, ?_, ?_⟩
    · unfold Jit.WriteExit Jit.emittedSince
      simp only [hlook]
      rw [if_neg (by simpa [Jit.updateCurBlock, hwjo] using hguard)]
      simp [Jit.updateCurBlock, Jit.Write, Jit.MovToPC, hcond, DoDownCount_code]
    · intro j
      unfold Jit.WriteExit
      simp only [hlook]
      rw [if_neg (by simpa [Jit.updateCurBlock, hwjo] using hguard)]
      simp only [Jit.updateCurBlock, Jit.Write, Jit.MovToPC, ArmJitBlockCache.GetBlock, hblocks]
      rw [getD_updateBlock_field (fun b => b.linkStatus),
        getD_updateBlock_field (fun b => b.linkStatus)]
      all_goals intro b; rfl
  · -- `FinalizeBlock`
    have hK : (A, true) ∉ s.CompileClear.blocks.blocks.map blockKey := by
      unfold Jit.CompileClear
      split
      · simp [Jit.ClearCache, Jit.ClearCodeSpace, ArmJitBlockCache.Clear]
      · exact findBlock_miss A s.blocks.blocks 0 hmiss
    have hb : s.CompileBlock = (s.CompileClear.blocks.blocks.map blockKey).length := by
      unfold Jit.CompileBlock; simp
    have hlen : s.CompileBlock < r.1.blocks.blocks.length := by
      rw [length_of_map_blockKey hkeys0]; unfold Jit.CompileBlock; simp
    refine ⟨_, Compile_eq env fuel s A r hcap hjit, ?_⟩
    simp only []
    unfold ArmJitBlockCache.FinalizeBlock
    simp only []
    rw [if_pos hen]
    -- the table right after the mark, before the linker runs
    generalize hc1 : ({ r.1.blocks with blocks := updateBlock (fun b =>
        { b with finalized := true, normalEntry := r.2 }) s.CompileBlock r.1.blocks.blocks }
        : ArmJitBlockCache) = c1
    have hc1keys : c1.blocks.map blockKey
        = s.CompileClear.blocks.blocks.map blockKey ++ [(A, true)] := by
      rw [← hc1, hb]
      exact map_blockKey_finalize _ A false r.2 _ hkeys
    have hc1len : s.CompileBlock < c1.blocks.length := by
      rw [← hc1]; simp only []; rw [updateBlock_length]; exact hlen
    have hc1blk : (c1.GetBlock s.CompileBlock).exitAddress
          = (r.1.blocks.GetBlock s.CompileBlock).exitAddress ∧
        (c1.GetBlock s.CompileBlock).exitPtrs
          = (r.1.blocks.GetBlock s.CompileBlock).exitPtrs ∧
        (c1.GetBlock s.CompileBlock).linkStatus
          = (r.1.blocks.GetBlock s.CompileBlock).linkStatus := by
      rw [← hc1]
      simp only [ArmJitBlockCache.GetBlock]
      refine ⟨?_, ?_, ?_⟩
      · rw [getD_updateBlock_field (fun x => x.exitAddress)]; intro x; rfl
      · rw [getD_updateBlock_field (fun x => x.exitPtrs)]; intro x; rfl
      · rw [getD_updateBlock_field (fun x => x.linkStatus)]; intro x; rfl
    have hc1look : c1.GetBlockNumberFromStartAddress A = ((s.CompileBlock : Nat) : Int) := by
      unfold ArmJitBlockCache.GetBlockNumberFromStartAddress
      rw [findBlock_last A _ c1.blocks 0 hc1keys hK, hb]
      simp
    obtain ⟨f1, f2, _⟩ := LinkBlockExits_frame c1 r.1.code s.CompileBlock env.numExits
    obtain ⟨l1, l2⟩ := LinkBlockExits_links c1 r.1.code s.CompileBlock env.numExits e hc1len he
      (by rw [hc1blk.1, hexit]; exact hA)
      (by rw [hc1blk.2.2]; exact hun)
      (by rw [hc1blk.1, hexit, hc1look]; exact Int.natCast_nonneg _)
      (by rw [hc1blk.2.1]; exact hin)
      (by rw [hc1blk.2.1]; exact hptrs)
    rw [hc1blk.1, hexit, hc1look, Int.toNat_ofNat] at l2
    have hhit : (c1.LinkBlockExits r.1.code s.CompileBlock
        env.numExits).1.GetBlockNumberFromStartAddress A = ((s.CompileBlock : Nat) : Int) := by
      rw [f2]; exact hc1look
    refine ⟨hhit, ?_, l1, ?_, ?_⟩
    · rw [(f1 _).1, hc1blk.1]; exact hexit
    · rw [(f1 _).2.1, (f1 _).2.2]; exact l2
    · unfold Jit.Dispatch
      rw [if_pos (by simp only []; rw [hhit]; exact Int.natCast_nonneg _)]

/-- Witness of C12 as amended: `Compile(0x08000000)` of the tight loop on a
fresh `Jit`; exit 0 is patched at position 13 of the code. -/
theorem self_exit_linked_by_FinalizeBlock_witness :
    ∃ s1, (initialJit 4 0x08000000).Compile exampleEnv 4 0x08000000 = Except.ok s1 ∧
      s1.blocks.GetBlockNumberFromStartAddress 0x08000000
        = (((initialJit 4 0x08000000).CompileBlock : Nat) : Int) ∧
      (s1.blocks.GetBlock (initialJit 4 0x08000000).CompileBlock).exitAddress 0 = 0x08000000 ∧
      (s1.blocks.GetBlock (initialJit 4 0x08000000).CompileBlock).linkStatus 0 = true ∧
      s1.code[(s1.blocks.GetBlock (initialJit 4 0x08000000).CompileBlock).exitPtrs 0 / 4]? = some
        { cond := CCFlags.CC_AL,
          op := ArmOp.B_ptr
            (s1.blocks.GetBlock (initialJit 4 0x08000000).CompileBlock).checkedEntry } ∧
      s1.Dispatch exampleEnv 4 0x08000000 = Except.ok { s1 with mips_pc := 0x08000000 } :=
  (self_exit_linked_by_FinalizeBlock exampleEnv 4 (initialJit 4 0x08000000) 0x08000000 0
    (by decide) (by decide) (by decide) (by decide) (by decide) (by decide) (by decide)
    (by decide) (by decide) (by decide)).2.2

/-! ## The start of a compilation, from the current guest program counter -/

/-- The reset at the head of `DoJit` inside `Compile(A)`, whatever `A` is:
`js.blockStart` and the compile cursor are the current guest program
counter `mips_->pc`, the accumulated cost is 0 and `js.compiling` is set. -/
theorem Compile_DoJit_reset (env : Env) (s : Jit) (A : Nat) :
    ((s.CompileAllocated A).DoJitEntry env A s.CompileBlock).js.blockStart = s.mips_pc ∧
    ((s.CompileAllocated A).DoJitEntry env A s.CompileBlock).js.compilerPC = s.mips_pc ∧
    ((s.CompileAllocated A).DoJitEntry env A s.CompileBlock).js.downcountAmount = 0 ∧
    ((s.CompileAllocated A).DoJitEntry env A s.CompileBlock).js.compiling = true := by
  have hpc : (s.CompileAllocated A).mips_pc = s.mips_pc := by
    unfold Jit.CompileAllocated
    split
    · exact (CompileClear_frame s).2.1
    · rfl
  obtain ⟨e1, e2, e3, e4, _⟩ := DoJitEntry_state env (s.CompileAllocated A) A s.CompileBlock
  exact ⟨e1.trans hpc, e2.trans hpc, e3, e4⟩

/-- The compile state after a `Compile` that returns: the block started at
the guest program counter of the call and its cost is the sum over the
instructions fetched from there. -/
theorem Compile_js (env : Env) (fuel : Nat) (s s1 : Jit) (A : Nat)
    (h : s.Compile env fuel A = Except.ok s1) :
    s1.js.blockStart = s.mips_pc ∧ s1.js.compiling = false ∧
    ∃ n, 1 ≤ n ∧ s1.js.downcountAmount = cycleSum env s.mips_pc n := by
  unfold Jit.Compile at h
  simp only [] at h
  split at h
  · exact Except.noConfusion h
  · rename_i block_num cache halloc
    split at h
    · exact Except.noConfusion h
    · rename_i s3 normalEntry hjit
      simp only [Except.ok.injEq] at h
      subst h
      obtain ⟨n, hn, hd, hc, _, hbs, _⟩ :=
        DoJit_result env fuel _ A block_num (s3, normalEntry) hjit
      simp only [] at hd hc hbs
      obtain ⟨_, c2, _⟩ := CompileClear_frame s
      exact ⟨by rw [hbs]; exact c2, hc, n, hn, by rw [hd, c2]⟩

/-- C10, as amended: when `Compile(A)` is called while the guest program
counter `mips_->pc` is `A`, which is how the Dispatcher calls it, the block
is allocated and registered under `A`, `DoJit` resets the compile state so
that `js.blockStart` and the initial compile cursor are `A`, the accumulated
cost is 0 and `js.compiling` is true, and when `Compile` returns the block is
finalized under `A`, `js.blockStart` is `A` and the cost is the sum of the
estimates of the instructions fetched from `A` on. A resolution of `A` by
the Dispatcher that finds no block is such a call. -/
theorem Compile_translates_from_current_pc (env : Env) (fuel : Nat) (s : Jit) (A : Nat)
    (hcap : 0 < s.blocks.capacity) (hpc : s.mips_pc = A) :
    (s.CompileAllocated A).blocks.blocks.map blockKey
      = s.CompileClear.blocks.blocks.map blockKey ++ [(A, false)] ∧
    ((s.CompileAllocated A).DoJitEntry env A s.CompileBlock).js.blockStart = A ∧
    ((s.CompileAllocated A).DoJitEntry env A s.CompileBlock).js.compilerPC = A ∧
    ((s.CompileAllocated A).DoJitEntry env A s.CompileBlock).js.downcountAmount = 0 ∧
    ((s.CompileAllocated A).DoJitEntry env A s.CompileBlock).js.compiling = true ∧
    (∀ s1, s.Compile env fuel A = Except.ok s1 →
      s1.blocks.blocks.map blockKey
        = s.CompileClear.blocks.blocks.map blockKey ++ [(A, true)] ∧
      s1.js.blockStart = A ∧
      ∃ n, 1 ≤ n ∧ s1.js.downcountAmount = cycleSum env A n) ∧
    (∀ (s0 s1 : Jit), ¬ 0 ≤ s0.blocks.GetBlockNumberFromStartAddress A →
      s0.Dispatch env fuel A = Except.ok s1 →
      s1.js.blockStart = A ∧ 0 ≤ s1.blocks.GetBlockNumberFromStartAddress A) := by
  obtain ⟨r1, r2, r3, r4⟩ := Compile_DoJit_reset env s A
  refine ⟨?_, r1.trans hpc, r2.trans hpc, r3, r4, ?_, ?_⟩
  · rw [CompileAllocated_eq s A hcap]
    simp [blockKey, ArmJitBlock.fresh]
  · intro s1 h1
    obtain ⟨j1, _, n, hn, j3⟩ := Compile_js env fuel s s1 A h1
    refine ⟨(Compile_ok env fuel s s1 A h1).1, j1.trans hpc, n, hn, ?_⟩
    rw [j3, hpc]
  · intro s0 s1 hmiss0 h1
    unfold Jit.Dispatch at h1
    rw [if_neg hmiss0] at h1
    obtain ⟨j1, _, _⟩ := Compile_js env fuel _ s1 A h1
    refine ⟨j1, findBlock_hit A _ 0 ?_⟩
    rw [(Compile_ok env fuel _ s1 A h1).1]
    simp

/-- Witness of C10 as amended: `Compile(0x08000000)` on a fresh `Jit` whose
guest program counter is `0x08000000`. -/
theorem Compile_translates_from_current_pc_witness :
    0 < (initialJit 4 0x08000000).blocks.capacity ∧
    (initialJit 4 0x08000000).mips_pc = 0x08000000 ∧
    (((initialJit 4 0x08000000).CompileAllocated 0x08000000).DoJitEntry exampleEnv 0x08000000
      (initialJit 4 0x08000000).CompileBlock).js.blockStart = 0x08000000 ∧
    (((initialJit 4 0x08000000).CompileAllocated 0x08000000).DoJitEntry exampleEnv 0x08000000
      (initialJit 4 0x08000000).CompileBlock).js.compilerPC = 0x08000000 ∧
    (((initialJit 4 0x08000000).CompileAllocated 0x08000000).DoJitEntry exampleEnv 0x08000000
      (initialJit 4 0x08000000).CompileBlock).js.downcountAmount = 0 ∧
    (((initialJit 4 0x08000000).CompileAllocated 0x08000000).DoJitEntry exampleEnv 0x08000000
      (initialJit 4 0x08000000).CompileBlock).js.compiling = true :=
  ⟨by decide, rfl,
   (Compile_translates_from_current_pc exampleEnv 4 (initialJit 4 0x08000000) 0x08000000
      (by decide) rfl).2.1,
   (Compile_translates_from_current_pc exampleEnv 4 (initialJit 4 0x08000000) 0x08000000
      (by decide) rfl).2.2.1,
   (Compile_translates_from_current_pc exampleEnv 4 (initialJit 4 0x08000000) 0x08000000
      (by decide) rfl).2.2.2.1,
   (Compile_translates_from_current_pc exampleEnv 4 (initialJit 4 0x08000000) 0x08000000
      (by decide) rfl).2.2.2.2.1⟩

end MIPSComp

/-! # Semaphores: polling, signalling, the priority search -/

namespace HLE

/-- C18 on the code: with the count at 0 and the maximum at 5,
`sceKernelWaitSema` for 6 returns `ILLEGAL_COUNT` without blocking the thread
and `sceKernelPollSema` for 6 returns `SEMA_ZERO`; and for an unknown
semaphore and a count of 0, the first returns `UNKNOWN_SEMID` and the second
`ILLEGAL_COUNT`. -/
theorem PollSema_differs_from_WaitSema :
    (sceKernelWaitSema (exampleKernel 0) 1 6 0).1
      = SceRet.error SceError.SCE_KERNEL_ERROR_ILLEGAL_COUNT ∧
    ((sceKernelWaitSema (exampleKernel 0) 1 6 0).2.threads 10).waiting = false ∧
    (sceKernelWaitSema (exampleKernel 0) 1 6 0).2.semas 1 = (exampleKernel 0).semas 1 ∧
    (sceKernelPollSema (exampleKernel 0) 1 6).1
      = SceRet.error SceError.SCE_KERNEL_ERROR_SEMA_ZERO ∧
    (sceKernelWaitSema (exampleKernel 0) 2 0 0).1
      = SceRet.error SceError.SCE_KERNEL_ERROR_UNKNOWN_SEMID ∧
    (sceKernelPollSema (exampleKernel 0) 2 0).1
      = SceRet.error SceError.SCE_KERNEL_ERROR_ILLEGAL_COUNT := by
  refine ⟨by decide, by decide, by decide, by decide, by decide, by decide⟩

/-- Where the two calls do agree: for a semaphore that exists and a count
from 1 to its maximum, both take the count and return 0 when enough is
available, with the same semaphore afterwards and the thread not blocked;
otherwise `sceKernelPollSema` returns `SEMA_ZERO` and changes nothing, while
`sceKernelWaitSema` blocks the current thread. -/
theorem PollSema_agrees_in_range (k : Kernel) (id : SceUID) (s : Semaphore)
    (wantedCount : Int) (timeoutPtr : Nat)
    (hs : k.semas id = some s) (hpos : 0 < wantedCount) (hmax : wantedCount ≤ s.ns.maxCount) :
    (s.ns.currentCount ≥ wantedCount →
      sceKernelWaitSema k id wantedCount timeoutPtr = sceKernelPollSema k id wantedCount ∧
      (sceKernelPollSema k id wantedCount).1 = SceRet.value 0 ∧
      (sceKernelPollSema k id wantedCount).2.threads = k.threads) ∧
    (¬ s.ns.currentCount ≥ wantedCount →
      sceKernelPollSema k id wantedCount
        = (SceRet.error SceError.SCE_KERNEL_ERROR_SEMA_ZERO, k) ∧
      (sceKernelWaitSema k id wantedCount timeoutPtr).1 = SceRet.value 0 ∧
      ((sceKernelWaitSema k id wantedCount timeoutPtr).2.threads
        (sceKernelWaitSema k id wantedCount timeoutPtr).2.curThread).waiting = true) := by
  have h1 : ¬ (wantedCount > s.ns.maxCount ∨ wantedCount ≤ 0) := by omega
  have h2 : ¬ wantedCount ≤ 0 := by omega
  constructor
  · intro hge
    have hw : sceKernelWaitSema k id wantedCount timeoutPtr
        = (SceRet.value 0, k.setSema id
            { s with ns := { s.ns with currentCount := s.ns.currentCount - wantedCount } }) := by
      unfold sceKernelWaitSema __KernelWaitSema
      rw [hs]
      simp only []
      rw [if_neg h1, if_pos hge]
      rfl
    have hp : sceKernelPollSema k id wantedCount
        = (SceRet.value 0, k.setSema id
            { s with ns := { s.ns with currentCount := s.ns.currentCount - wantedCount } }) := by
      unfold sceKernelPollSema
      rw [if_neg h2, hs]
      simp only []
      rw [if_pos hge]
    rw [hw, hp]
    exact ⟨rfl, rfl, rfl⟩
  · intro hlt
    have hp : sceKernelPollSema k id wantedCount
        = (SceRet.error SceError.SCE_KERNEL_ERROR_SEMA_ZERO, k) := by
      unfold sceKernelPollSema
      rw [if_neg h2, hs]
      simp only []
      rw [if_neg hlt]
    refine ⟨hp, ?_, ?_⟩
    · unfold sceKernelWaitSema __KernelWaitSema
      rw [hs]
      simp only []
      rw [if_neg h1, if_neg hlt]
    · unfold sceKernelWaitSema __KernelWaitSema
      rw [hs]
      simp only []
      rw [if_neg h1, if_neg hlt]
      by_cases ht : timeoutPtr = 0 ∨ k.semaWaitTimer = 0
      · simp [__KernelWaitCurThread, Kernel.setThread, __KernelSetSemaTimeout, Kernel.setSema, ht]
      · simp [__KernelWaitCurThread, Kernel.setThread, __KernelSetSemaTimeout, Kernel.setSema, ht]

/-- Witness of the agreement: the example semaphore, count 0, polled and
waited on for 1. -/
theorem PollSema_agrees_in_range_witness :
    sceKernelPollSema (exampleKernel 0) 1 1
      = (SceRet.error SceError.SCE_KERNEL_ERROR_SEMA_ZERO, exampleKernel 0) :=
  ((PollSema_agrees_in_range (exampleKernel 0) 1
      { ns := { attr := 0, initCount := 0, currentCount := 0, maxCount := 5,
                numWaitThreads := 2 },
        waitingThreads := [11, 12] } 1 0 rfl (by decide) (by decide)).2 (by decide)).1

/-- C19 on the code: in priority mode, with thread 11 (priority 20)
waiting for 1 ahead of thread 12 (priority 10) waiting for 5, a signal of 1
returns 0 and wakes nobody: both threads stay in `waitingThreads` and the
count is 1, which is what thread 11 waits for. In FIFO mode the same signal
wakes thread 11. -/
theorem SignalSema_priority_leaves_waiter :
    signalRet 3 (exampleKernel 0x100) 1 1 = some (SceRet.value 0) ∧
    (signalState 3 (exampleKernel 0x100) 1 1).semas 1
      = some { ns := { attr := 0x100, initCount := 0, currentCount := 1, maxCount := 5,
                       numWaitThreads := 2 },
               waitingThreads := [11, 12] } ∧
    ((signalState 3 (exampleKernel 0x100) 1 1).threads 11).waitID = 1 ∧
    ((signalState 3 (exampleKernel 0x100) 1 1).threads 11).waitValue = 1 ∧
    ((signalState 3 (exampleKernel 0x100) 1 1).threads 11).waiting = true ∧
    (signalState 3 (exampleKernel 0) 1 1).semas 1
      = some { ns := { attr := 0, initCount := 0, currentCount := 0, maxCount := 5,
                       numWaitThreads := 1 },
               waitingThreads := [12] } ∧
    ((signalState 3 (exampleKernel 0) 1 1).threads 11).waiting = false := by
  refine ⟨by decide, by decide, by decide, by decide, by decide, by decide, by decide⟩

/-- C20 on the code: for a waiting list of one thread whose priority is
`0xFFFFFFFF`, `__KernelSemaFindPriority` returns the end of the list. -/
theorem FindPriority_returns_end :
    __KernelGetThreadPrio lowestPriorityKernel 7 = 0xFFFFFFFF ∧
    __KernelSemaFindPriority lowestPriorityKernel [7] 0 = [(7 : SceUID)].length := by
  refine ⟨by decide, by decide⟩

/-! ## The priority search when some priority is below the sentinel -/

theorem findPriorityLoop_spec (k : Kernel) (l : List SceUID) (iter best bp : Nat) :
    (findPriorityLoop k l iter best bp = best ∧ ∀ t ∈ l, bp ≤ __KernelGetThreadPrio k t) ∨
    (∃ (j : Nat) (t : SceUID), l[j]? = some t ∧ findPriorityLoop k l iter best bp = iter + j ∧
      __KernelGetThreadPrio k t < bp ∧
      (∀ (i : Nat) (u : SceUID), l[i]? = some u → __KernelGetThreadPrio k t ≤ __KernelGetThreadPrio k u) ∧
      (∀ (i : Nat) (u : SceUID), i < j → l[i]? = some u →
        __KernelGetThreadPrio k t < __KernelGetThreadPrio k u)) := by
  induction l generalizing iter best bp with
  | nil => left; exact ⟨rfl, by simp⟩
  | cons a rest ih =>
    simp only [findPriorityLoop]
    split
    · rename_i hlt
      right
      rcases ih (iter + 1) iter (__KernelGetThreadPrio k a) with ⟨h1, h2⟩ | ⟨j, t, h1, h2, h3, h4, h5⟩
      · refine ⟨0, a, by simp, by rw [h1]; rfl, hlt, ?_, ?_⟩
        · intro i u hi
          cases i with
          | zero => simp at hi; rw [hi]
          | succ m =>
            simp at hi
            exact h2 u (List.getElem?_mem hi)
        · intro i u hi; omega
      · refine ⟨j + 1, t, by simpa using h1, by rw [h2]; omega, by omega, ?_, ?_⟩
        · intro i u hi
          cases i with
          | zero => simp at hi; rw [← hi]; omega
          | succ m => simp at hi; exact h4 m u hi
        · intro i u hij hi
          cases i with
          | zero => simp at hi; rw [← hi]; exact h3
          | succ m => simp at hi; exact h5 m u (by omega) hi
    · rename_i hge
      rcases ih (iter + 1) best bp with ⟨h1, h2⟩ | ⟨j, t, h1, h2, h3, h4, h5⟩
      · left
        refine ⟨h1, ?_⟩
        intro t ht
        rcases List.mem_cons.mp ht with h | h
        · rw [h]; omega
        · exact h2 t h
      · right
        refine ⟨j + 1, t, by simpa using h1, by rw [h2]; omega, h3, ?_, ?_⟩
        · intro i u hi
          cases i with
          | zero => simp at hi; rw [← hi]; omega
          | succ m => simp at hi; exact h4 m u hi
        · intro i u hij hi
          cases i with
          | zero => simp at hi; rw [← hi]; omega
          | succ m => simp at hi; exact h5 m u (by omega) hi

/-- When some thread from `begin` on has a priority below `0xFFFFFFFF`,
`__KernelSemaFindPriority` returns a position of the list, not before
`begin`, whose thread has the smallest priority value among the threads from
`begin` on, and it is the earliest such. -/
theorem FindPriority_best (k : Kernel) (waiting : List SceUID) (begin : Nat)
    (hsome : ∃ (i : Nat) (t : SceUID), begin ≤ i ∧ waiting[i]? = some t ∧ __KernelGetThreadPrio k t < 0xFFFFFFFF) :
    ∃ t, waiting[__KernelSemaFindPriority k waiting begin]? = some t ∧
      begin ≤ __KernelSemaFindPriority k waiting begin ∧
      __KernelSemaFindPriority k waiting begin < waiting.length ∧
      (∀ (i : Nat) (u : SceUID), begin ≤ i → waiting[i]? = some u →
        __KernelGetThreadPrio k t ≤ __KernelGetThreadPrio k u) ∧
      (∀ (i : Nat) (u : SceUID), begin ≤ i → i < __KernelSemaFindPriority k waiting begin → waiting[i]? = some u →
        __KernelGetThreadPrio k t < __KernelGetThreadPrio k u) := by
  unfold __KernelSemaFindPriority
  rcases findPriorityLoop_spec k (waiting.drop begin) begin waiting.length 0xFFFFFFFF with
    ⟨_, h2⟩ | ⟨j, t, h1, h2, h3, h4, h5⟩
  · exfalso
    obtain ⟨i, t, hi, ht, hp⟩ := hsome
    have hmem : t ∈ waiting.drop begin := by
      have : (waiting.drop begin)[i - begin]? = some t := by
        rw [List.getElem?_drop]
        rw [show begin + (i - begin) = i by omega]
        exact ht
      exact List.getElem?_mem this
    have := h2 t hmem
    omega
  · rw [List.getElem?_drop] at h1
    rw [h2]
    refine ⟨t, h1, by omega, ?_, ?_, ?_⟩
    · by_contra hlen
      rw [List.getElem?_eq_none (by omega)] at h1
      exact Option.noConfusion h1
    · intro i u hi hu
      refine h4 (i - begin) u ?_
      rw [List.getElem?_drop, show begin + (i - begin) = i by omega]
      exact hu
    · intro i u hi hlt hu
      refine h5 (i - begin) u (by omega) ?_
      rw [List.getElem?_drop, show begin + (i - begin) = i by omega]
      exact hu

/-- Witness of the priority search: in the example, from position 0, the
thread of priority 10 at position 1 is found. -/
theorem FindPriority_best_witness :
    ∃ t, [(11 : SceUID), 12][__KernelSemaFindPriority (exampleKernel 0x100) [11, 12] 0]?
      = some t :=
  (FindPriority_best (exampleKernel 0x100) [11, 12] 0
    ⟨0, 11, Nat.le_refl 0, rfl, by decide⟩).imp (fun _ h => h.1)

/-! ## The retry loop of `sceKernelSignalSema` -/

/-- When `__KernelUnlockSemaForThread` keeps the thread, it has changed
nothing, and the thread waits on this semaphore for more than the count. -/
theorem Unlock_false (uid : SceUID) (s s1 : Semaphore) (k k1 : Kernel) (t : SceUID)
    (w w1 : Bool)
    (h : __KernelUnlockSemaForThread uid s k t (SceRet.value 0) w = (false, s1, k1, w1)) :
    s1 = s ∧ k1 = k ∧ w1 = w ∧ (k.threads t).waitID = uid ∧
      (k.threads t).waitValue > s.ns.currentCount := by
  unfold __KernelUnlockSemaForThread at h
  simp only [] at h
  split at h
  · simp at h
  · rename_i hid
    split at h
    · rename_i hw
      simp only [Prod.mk.injEq, true_and] at h
      obtain ⟨h1, h2, h3⟩ := h
      exact ⟨h1.symm, h2.symm, h3.symm, by simpa using hid, hw.2⟩
    · simp at h

/-- When it removes the thread, the waiting list and the attribute are as
before. -/
theorem Unlock_true (uid : SceUID) (s s1 : Semaphore) (k k1 : Kernel) (t : SceUID)
    (r : SceRet) (w w1 : Bool)
    (h : __KernelUnlockSemaForThread uid s k t r w = (true, s1, k1, w1)) :
    s1.waitingThreads = s.waitingThreads ∧ s1.ns.attr = s.ns.attr := by
  unfold __KernelUnlockSemaForThread at h
  simp only [] at h
  split at h
  · simp only [Prod.mk.injEq, true_and] at h
    rw [← h.1]; exact ⟨rfl, rfl⟩
  · split at h
    · simp at h
    · simp only [Prod.mk.injEq, true_and] at h
      rw [← h.1]
      split <;> exact ⟨rfl, rfl⟩

/-- A pass that ends at `goto retry` has erased one thread. -/
theorem signalPass_retry (uid : SceUID) (n iter : Nat) (s s1 : Semaphore) (k k1 : Kernel)
    (w w1 : Bool) (h : signalPass uid n iter s k w = PassResult.retry s1 k1 w1) :
    s1.waitingThreads.length + 1 = s.waitingThreads.length ∧ s1.ns.attr = s.ns.attr := by
  induction n generalizing iter with
  | zero => simp [signalPass] at h
  | succ m ih =>
    simp only [signalPass] at h
    split at h
    · exact PassResult.noConfusion h
    · rename_i threadID hbest
      split at h
      · rename_i s2 k2 w2 hun
        simp only [PassResult.retry.injEq] at h
        obtain ⟨hs, _, _⟩ := h
        obtain ⟨hwt, hattr⟩ := Unlock_true uid s s2 k k2 threadID _ w w2 hun
        rw [← hs]
        simp only []
        rw [hwt]
        have hlt := (List.getElem?_eq_some_iff.mp hbest).1
        refine ⟨?_, hattr⟩
        rw [List.length_eraseIdx, if_pos hlt]
        omega
      · rename_i s2 k2 w2 hun
        obtain ⟨e1, e2, e3, _, _⟩ := Unlock_false uid s s2 k k2 threadID w w2 hun
        subst e1; subst e2; subst e3
        exact ih (iter + 1) h

/-- The retry loop of `sceKernelSignalSema` terminates: a bound above the
number of waiting threads is never reached. -/
theorem signalRetry_terminates (uid : SceUID) (fuel : Nat) (s : Semaphore) (k : Kernel)
    (w : Bool) (hfuel : s.waitingThreads.length < fuel) :
    signalRetry uid fuel s k w ≠ Except.error Fault.OutOfFuel := by
  induction fuel generalizing s k w with
  | zero => omega
  | succ f ih =>
    simp only [signalRetry]
    split
    · intro h; exact Except.noConfusion h
    · rename_i s1 k1 w1 hpass
      obtain ⟨hlen, _⟩ := signalPass_retry uid _ 0 s s1 k k1 w w1 hpass
      exact ih s1 k1 w1 (by omega)
    · intro h
      exact Fault.noConfusion (Except.error.inj h)

/-- In FIFO mode, a pass that reaches the end of the list has changed
nothing and has found every thread it went over waiting on this semaphore for
more than the count. -/
theorem signalPass_finished_fifo (uid : SceUID) (n iter : Nat) (s s1 : Semaphore)
    (k k1 : Kernel) (w w1 : Bool)
    (hfifo : s.ns.attr &&& PSP_SEMA_ATTR_PRIORITY = 0)
    (h : signalPass uid n iter s k w = PassResult.finished s1 k1 w1) :
    s1 = s ∧ k1 = k ∧ w1 = w ∧
    ∀ (j : Nat) (t : SceUID), iter ≤ j → j < iter + n → s.waitingThreads[j]? = some t →
      (k.threads t).waitID = uid ∧ (k.threads t).waitValue > s.ns.currentCount := by
  induction n generalizing iter with
  | zero =>
    simp only [signalPass, PassResult.finished.injEq] at h
    exact ⟨h.1.symm, h.2.1.symm, h.2.2.symm, fun j t h1 h2 => by omega⟩
  | succ m ih =>
    simp only [signalPass, hfifo, ne_eq, not_true_eq_false, if_false] at h
    split at h
    · exact PassResult.noConfusion h
    · rename_i threadID hbest
      split at h
      · exact PassResult.noConfusion h
      · rename_i s2 k2 w2 hun
        obtain ⟨e1, e2, e3, e4, e5⟩ := Unlock_false uid s s2 k k2 threadID w w2 hun
        subst e1; subst e2; subst e3
        obtain ⟨f1, f2, f3, f4⟩ := ih (iter + 1) h
        refine ⟨f1, f2, f3, ?_⟩
        intro j t hj1 hj2 hjt
        by_cases hji : j = iter
        · rw [hji, hbest] at hjt
          rw [← Option.some.inj hjt]
          exact ⟨e4, e5⟩
        · exact f4 j t (by omega) (by omega) hjt

theorem signalPass_fifo_valid (uid : SceUID) (n iter : Nat) (s : Semaphore) (k : Kernel)
    (w : Bool) (hfifo : s.ns.attr &&& PSP_SEMA_ATTR_PRIORITY = 0)
    (hlen : iter + n ≤ s.waitingThreads.length) :
    signalPass uid n iter s k w ≠ PassResult.invalid := by
  induction n generalizing iter with
  | zero => simp [signalPass]
  | succ m ih =>
    simp only [signalPass, hfifo, ne_eq, not_true_eq_false, if_false]
    split
    · rename_i hnone
      rw [List.getElem?_eq_none_iff] at hnone
      omega
    · rename_i threadID hbest
      split
      · intro h; exact PassResult.noConfusion h
      · rename_i s2 k2 w2 hun
        obtain ⟨e1, e2, e3, _, _⟩ := Unlock_false uid s s2 k k2 threadID w w2 hun
        subst e1; subst e2; subst e3
        exact ih (iter + 1) (by omega)

/-- In FIFO mode the retry loop returns, and every thread it leaves in
`waitingThreads` waits on this semaphore for more than the count it leaves. -/
theorem signalRetry_fifo (uid : SceUID) (fuel : Nat) (s : Semaphore) (k : Kernel) (w : Bool)
    (hfifo : s.ns.attr &&& PSP_SEMA_ATTR_PRIORITY = 0)
    (hfuel : s.waitingThreads.length < fuel) :
    ∃ s1 k1 w1, signalRetry uid fuel s k w = Except.ok (s1, k1, w1) ∧
      ∀ t ∈ s1.waitingThreads,
        (k1.threads t).waitID = uid ∧ (k1.threads t).waitValue > s1.ns.currentCount := by
  induction fuel generalizing s k w with
  | zero => omega
  | succ f ih =>
    simp only [signalRetry]
    split
    · rename_i s1 k1 w1 hpass
      obtain ⟨e1, e2, e3, e4⟩ := signalPass_finished_fifo uid _ 0 s s1 k k1 w w1 hfifo hpass
      refine ⟨s1, k1, w1, rfl, ?_⟩
      subst e1; subst e2
      intro t ht
      obtain ⟨j, hj⟩ := List.getElem?_of_mem ht
      have hlt := (List.getElem?_eq_some_iff.mp hj).1
      exact e4 j t (Nat.zero_le j) (by omega) hj
    · rename_i s1 k1 w1 hpass
      obtain ⟨hlen, hattr⟩ := signalPass_retry uid _ 0 s s1 k k1 w w1 hpass
      exact ih s1 k1 w1 (by rw [hattr]; exact hfifo) (by omega)
    · rename_i hpass
      exact absurd hpass (signalPass_fifo_valid uid _ 0 s k w hfifo (by omega))

/-- For a FIFO semaphore, a signal that does not overflow returns 0 and
leaves in `waitingThreads` only threads that wait on this semaphore for more
than the resulting count; and in either mode the bound of the retry loop is
not reached. -/
theorem SignalSema_fifo (fuel : Nat) (k : Kernel) (id : SceUID) (s : Semaphore) (signal : Int)
    (hs : k.semas id = some s)
    (hfifo : s.ns.attr &&& PSP_SEMA_ATTR_PRIORITY = 0)
    (hfuel : s.waitingThreads.length < fuel)
    (hovf : ¬ s.ns.currentCount + signal - s.ns.numWaitThreads > s.ns.maxCount) :
    ∃ k1 s1, sceKernelSignalSema fuel k id signal = Except.ok (SceRet.value 0, k1) ∧
      k1.semas id = some s1 ∧
      ∀ t ∈ s1.waitingThreads,
        (k1.threads t).waitID = id ∧ (k1.threads t).waitValue > s1.ns.currentCount := by
  obtain ⟨s2, k2, w2, hrun, hall⟩ := signalRetry_fifo id fuel
    { s with ns := { s.ns with currentCount := s.ns.currentCount + signal } } k false hfifo hfuel
  unfold sceKernelSignalSema
  rw [hs]
  simp only []
  rw [if_neg hovf, hrun]
  refine ⟨_, s2, rfl, by simp [Kernel.setSema], ?_⟩
  intro t ht
  exact hall t ht

/-- Witness of the FIFO signal: the example semaphore in FIFO mode,
signalled by 1. -/
theorem SignalSema_fifo_witness :
    ∃ k1 s1, sceKernelSignalSema 3 (exampleKernel 0) 1 1 = Except.ok (SceRet.value 0, k1) ∧
      k1.semas 1 = some s1 ∧
      ∀ t ∈ s1.waitingThreads,
        (k1.threads t).waitID = 1 ∧ (k1.threads t).waitValue > s1.ns.currentCount :=
  SignalSema_fifo 3 (exampleKernel 0) 1
    { ns := { attr := 0, initCount := 0, currentCount := 0, maxCount := 5, numWaitThreads := 2 },
      waitingThreads := [11, 12] } 1 rfl (by decide) (by decide) (by decide)

/-- Whatever the mode, `sceKernelSignalSema` does not reach a bound above
the number of waiting threads. -/
theorem SignalSema_terminates (fuel : Nat) (k : Kernel) (id : SceUID) (s : Semaphore)
    (signal : Int) (hs : k.semas id = some s) (hfuel : s.waitingThreads.length < fuel) :
    sceKernelSignalSema fuel k id signal ≠ Except.error Fault.OutOfFuel := by
  unfold sceKernelSignalSema
  rw [hs]
  simp only []
  split
  · intro h; exact Except.noConfusion h
  · have hterm := signalRetry_terminates id fuel
      { s with ns := { s.ns with currentCount := s.ns.currentCount + signal } } k false hfuel
    split
    · rename_i f hf
      intro h
      rw [Except.error.inj h] at hf
      exact hterm hf
    · intro h; exact Except.noConfusion h

/-- Witness of termination: the example semaphore in priority mode. -/
theorem SignalSema_terminates_witness :
    sceKernelSignalSema 3 (exampleKernel 0x100) 1 1 ≠ Except.error Fault.OutOfFuel :=
  SignalSema_terminates 3 (exampleKernel 0x100) 1
    { ns := { attr := 0x100, initCount := 0, currentCount := 0, maxCount := 5,
              numWaitThreads := 2 },
      waitingThreads := [11, 12] } 1 rfl (by decide)

end HLE

namespace GLES

/-! ## The draw call of `Flush` -/

/-- Bits 5 and 11 of the constant `0x83204820` are set in `seen`. -/
theorem seen_testBit (g : IndexGenerator) :
    (Flush.seen g).testBit 5 = true ∧ (Flush.seen g).testBit 11 = true := by
  unfold Flush.seen
  constructor
  · rw [Nat.testBit_mod_two_pow, Nat.testBit_or]
    have : Nat.testBit 0x83204820 5 = true := by decide
    simp [this]
  · rw [Nat.testBit_mod_two_pow, Nat.testBit_or]
    have : Nat.testBit 0x83204820 11 = true := by decide
    simp [this]

/-- The local `seen` has at least two bits set, so it is no `1 << p`. -/
theorem seen_ne_one_shiftLeft (g : IndexGenerator) (p : Nat) :
    Flush.seen g ≠ (1 <<< p) % 2 ^ 32 := by
  intro h
  obtain ⟨h5, h11⟩ := seen_testBit g
  rw [h, Nat.testBit_mod_two_pow, Nat.one_shiftLeft, Nat.testBit_two_pow] at h5 h11
  simp at h5 h11
  omega

/-- On the hardware-transform path the test of `seen` fails whatever the
index generator has seen. -/
theorem Flush_seen_test (env : Env) (g : IndexGenerator) :
    ¬ (Flush.seen g = (1 <<< env.GE_PRIM_TRIANGLES) % 2 ^ 32 ∨
       Flush.seen g = (1 <<< env.GE_PRIM_LINES) % 2 ^ 32 ∨
       Flush.seen g = (1 <<< env.GE_PRIM_POINTS) % 2 ^ 32) := by
  intro h
  rcases h with h | h | h
  · exact seen_ne_one_shiftLeft g _ h
  · exact seen_ne_one_shiftLeft g _ h
  · exact seen_ne_one_shiftLeft g _ h

/-- C21: on the hardware-transform path `Flush` issues `glDrawElements`
with the index buffer `decIndex` whatever `indexGen.SeenPrims()` is, also
when it is `1 << GE_PRIM_TRIANGLES`, `1 << GE_PRIM_LINES` or
`1 << GE_PRIM_POINTS`: the `glDrawArrays` branch is never taken, because
`seen` is `SeenPrims() | 0x83204820`. -/
theorem Flush_hardware_draws_elements {F : Type} [LT F] [DecidableRel (fun (a b : F) => a < b)]
    (env : Env) (e : TransformDrawEngine F) (saved : TransformedVertex F)
    (hne : e.indexGen.Empty = false)
    (hhw : env.CanUseHardwareTransform e.indexGen.Prim = true) :
    TransformDrawEngine.Flush env e saved =
      some (GLDraw.glDrawElements glprim[e.indexGen.Prim]? e.indexGen.VertexCount e.decIndex) := by
  unfold TransformDrawEngine.Flush
  rw [hne]
  simp only [Bool.false_eq_true, if_false]
  rw [if_pos hhw, if_neg (Flush_seen_test env e.indexGen)]

/-- Failing input of C21: three triangle vertices and no other primitive
seen, on the hardware path. `SeenPrims()` is `1 << GE_PRIM_TRIANGLES`, and
the draw is `glDrawElements`. -/
theorem Flush_hardware_draws_elements_witness :
    trianglesEngine.indexGen.SeenPrims = 1 <<< (exampleBuild false).GE_PRIM_TRIANGLES ∧
    TransformDrawEngine.Flush (exampleBuild false) trianglesEngine (exampleVertex 0 0 0 0 0) =
      some (GLDraw.glDrawElements (some GLenum.GL_TRIANGLES) 3 trianglesEngine.decIndex) :=
  ⟨by decide, Flush_hardware_draws_elements (exampleBuild false) trianglesEngine
    (exampleVertex 0 0 0 0 0) rfl rfl⟩

/-! ## The expansion of rectangles -/

/-- An even and the following odd iteration write one rectangle. -/
theorem expandStep_pair {F : Type} [LT F] [DecidableRel (fun (a b : F) => a < b)]
    (transformed : Nat → TransformedVertex F) (inds : Nat → Nat) (st : Expansion F) (k : Nat) :
    expandStep transformed inds (expandStep transformed inds st (2 * k)) (2 * k + 1) =
      { trans := st.trans ++ rectangleOf (transformed (inds (2 * k) % 2 ^ 16))
          (transformed (inds (2 * k + 1) % 2 ^ 16)),
        numTrans := st.numTrans + 6,
        saved := transformed (inds (2 * k) % 2 ^ 16) } := by
  have h0 : (2 * k) &&& 1 = 0 := by rw [Nat.and_one_is_mod]; omega
  have h1 : ¬ ((2 * k + 1) &&& 1 = 0) := by rw [Nat.and_one_is_mod]; omega
  unfold expandStep
  simp only []
  rw [if_pos h0, if_neg h1]
  rfl

/-- The pairs of vertices that `n` indices hold, expanded in order. -/
theorem expandLoop_even {F : Type} [LT F] [DecidableRel (fun (a b : F) => a < b)]
    (transformed : Nat → TransformedVertex F) (inds : Nat → Nat) (st : Expansion F) (k : Nat) :
    ∃ s, (List.range (2 * k)).foldl (expandStep transformed inds) st =
      { trans := st.trans ++ (List.range k).flatMap (fun j =>
          rectangleOf (transformed (inds (2 * j) % 2 ^ 16))
            (transformed (inds (2 * j + 1) % 2 ^ 16))),
        numTrans := st.numTrans + 6 * k,
        saved := s } := by
  induction k with
  | zero => exact ⟨st.saved, by simp⟩
  | succ k ih =>
    obtain ⟨s, hs⟩ := ih
    refine ⟨transformed (inds (2 * k) % 2 ^ 16), ?_⟩
    have hr : List.range (2 * (k + 1)) = List.range (2 * k) ++ [2 * k, 2 * k + 1] := by
      rw [show 2 * (k + 1) = (2 * k + 1) + 1 by ring, List.range_succ, List.range_succ]
      simp
    rw [hr, List.foldl_append, hs]
    simp only [List.foldl_cons, List.foldl_nil]
    rw [expandStep_pair]
    simp only [List.range_succ, List.flatMap_append, List.flatMap_cons, List.flatMap_nil,
      List.append_nil, List.append_assoc]
    congr 1
    push_cast
    ring

/-- The whole loop: only the pairs produce output, six entries each. -/
theorem expandRectangles_result {F : Type} [LT F] [DecidableRel (fun (a b : F) => a < b)]
    (transformed : Nat → TransformedVertex F) (inds : Nat → Nat) (n : Int)
    (saved : TransformedVertex F) :
    ∃ s, expandRectangles transformed inds n saved =
      { trans := (List.range (n.toNat / 2)).flatMap (fun j =>
          rectangleOf (transformed (inds (2 * j) % 2 ^ 16))
            (transformed (inds (2 * j + 1) % 2 ^ 16))),
        numTrans := 6 * ((n.toNat / 2 : Nat) : Int),
        saved := s } := by
  unfold expandRectangles
  obtain ⟨s, hs⟩ := expandLoop_even transformed inds
    { trans := [], numTrans := 0, saved := saved } (n.toNat / 2)
  simp only [List.nil_append, zero_add] at hs
  rcases Nat.mod_two_eq_zero_or_one n.toNat with hpar | hpar
  · have hn : n.toNat = 2 * (n.toNat / 2) := by omega
    refine ⟨s, ?_⟩
    rw [← hs, ← hn]
  · have hn : n.toNat = 2 * (n.toNat / 2) + 1 := by omega
    have h0 : (2 * (n.toNat / 2)) &&& 1 = 0 := by rw [Nat.and_one_is_mod]; omega
    refine ⟨transformed (inds (2 * (n.toNat / 2)) % 2 ^ 16), ?_⟩
    conv_lhs => rw [hn]
    rw [List.range_succ, List.foldl_append, hs]
    simp only [List.foldl_cons, List.foldl_nil]
    unfold expandStep
    simp only []
    rw [if_pos h0]

/-- A rectangle has six entries. -/
theorem rectangleOf_length {F : Type} [LT F] [DecidableRel (fun (a b : F) => a < b)]
    (first second : TransformedVertex F) : (rectangleOf first second).length = 6 := by
  unfold rectangleOf
  rfl

/-- The six entries of a rectangle are as described, whether or not the
texture coordinates are rotated. -/
theorem rectangleOf_described {F : Type} [LT F] [DecidableRel (fun (a b : F) => a < b)]
    (first second : TransformedVertex F) :
    DescribedRectangle first second (rectangleOf first second) := by
  unfold rectangleOf RotateUVs
  simp only []
  split
  · refine ⟨_, _, _, _, rfl, ⟨rfl, rfl⟩, ⟨rfl, rfl⟩, ⟨rfl, rfl⟩, ⟨rfl, rfl⟩, ?_⟩
    intro o ho
    simp only [List.mem_cons, List.mem_singleton, List.not_mem_nil, or_false] at ho
    rcases ho with h | h | h | h | h | h <;> subst h <;> exact ⟨rfl, rfl, rfl⟩
  · refine ⟨_, _, _, _, rfl, ⟨rfl, rfl⟩, ⟨rfl, rfl⟩, ⟨rfl, rfl⟩, ⟨rfl, rfl⟩, ?_⟩
    intro o ho
    simp only [List.mem_cons, List.mem_singleton, List.not_mem_nil, or_false] at ho
    rcases ho with h | h | h | h | h | h <;> subst h <;> exact ⟨rfl, rfl, rfl⟩

/-- Length of a list of blocks of six entries. -/
theorem length_blocks {α : Type} (f : Nat → List α) (hf : ∀ j, (f j).length = 6) (K : Nat) :
    ((List.range K).flatMap f).length = 6 * K := by
  induction K with
  | zero => simp
  | succ K ih =>
    rw [List.range_succ, List.flatMap_append, List.length_append, ih]
    simp [hf]
    ring

/-- Block `k` of a list of blocks of six entries. -/
theorem drop_take_blocks {α : Type} (f : Nat → List α) (hf : ∀ j, (f j).length = 6)
    (K k : Nat) (hk : k < K) :
    (((List.range K).flatMap f).drop (6 * k)).take 6 = f k := by
  induction K with
  | zero => omega
  | succ K ih =>
    have hlen := length_blocks f hf K
    have hlast : (List.range (K + 1)).flatMap f = (List.range K).flatMap f ++ f K := by
      rw [List.range_succ, List.flatMap_append]
      simp
    rw [hlast]
    by_cases hkK : k < K
    · rw [List.drop_append_of_le_length (by omega), List.take_append_of_le_length]
      · exact ih hkK
      · rw [List.length_drop]; omega
    · have hkeq : k = K := by omega
      subst hkeq
      rw [← hlen, List.drop_left]
      rw [← hf k, List.take_length]

/-- What `SoftwareTransformAndDraw` does with rectangles: the clamped
count decides the number of pairs, and the draw is `glDrawArrays` over the
expanded buffer. -/
theorem SoftwareTransformAndDraw_rectangles_result {F : Type} [LT F]
    [DecidableRel (fun (a b : F) => a < b)]
    (env : Env) (transformed : Nat → TransformedVertex F) (saved : TransformedVertex F)
    (vertexCount : Int) (inds : Nat → Nat) :
    SoftwareTransformAndDraw env transformed saved env.GE_PRIM_RECTANGLES vertexCount inds =
      { drawBuffer := DrawBuffer.transformedExpanded,
        numTrans := 6 * (((clampVertexCount env vertexCount).toNat / 2 : Nat) : Int),
        drawIndexed := false,
        transformedExpanded :=
          (List.range ((clampVertexCount env vertexCount).toNat / 2)).flatMap (fun j =>
            rectangleOf (transformed (inds (2 * j) % 2 ^ 16))
              (transformed (inds (2 * j + 1) % 2 ^ 16))),
        draw := GLDraw.glDrawArrays glprim[env.GE_PRIM_RECTANGLES]? 0
          (6 * (((clampVertexCount env vertexCount).toNat / 2 : Nat) : Int)) } := by
  obtain ⟨s, hs⟩ := expandRectangles_result transformed inds
    (clampVertexCount env vertexCount) saved
  unfold SoftwareTransformAndDraw
  simp only [ne_eq, not_true_eq_false, if_false]
  rw [hs]

/-- The clamp leaves a count alone in a build without `USING_GLES2`, and
any count up to `0x10000/3` in every build. -/
theorem clampVertexCount_eq (env : Env) (vertexCount : Int)
    (h : env.USING_GLES2 = false ∨ vertexCount ≤ 21845) :
    clampVertexCount env vertexCount = vertexCount := by
  unfold clampVertexCount
  rcases h with h | h
  · rw [h]; simp
  · rw [if_neg]
    intro hc
    have h3 : (0x10000 / 3 : Int) = 21845 := by decide
    rw [h3] at hc
    omega

/-- The clamp never raises a count. -/
theorem clampVertexCount_le (env : Env) (vertexCount : Int) :
    clampVertexCount env vertexCount ≤ vertexCount := by
  unfold clampVertexCount
  split
  · rename_i hc; exact le_of_lt hc.2
  · exact le_refl _

/-- The clamp keeps a count that is not negative so. -/
theorem clampVertexCount_nonneg (env : Env) (vertexCount : Int) (h0 : 0 ≤ vertexCount) :
    0 ≤ clampVertexCount env vertexCount := by
  unfold clampVertexCount
  split
  · decide
  · exact h0

/-- A count that the clamp has produced passes it unchanged, and so does
the even count below it. -/
theorem clampVertexCount_even (env : Env) (vertexCount : Int) (h0 : 0 ≤ vertexCount) :
    clampVertexCount env (2 * (clampVertexCount env vertexCount / 2)) =
      2 * (clampVertexCount env vertexCount / 2) := by
  have hnn := clampVertexCount_nonneg env vertexCount h0
  by_cases hg : env.USING_GLES2 = false
  · exact clampVertexCount_eq env _ (Or.inl hg)
  · apply clampVertexCount_eq env _ (Or.inr _)
    have hle : clampVertexCount env vertexCount ≤ 21845 := by
      unfold clampVertexCount
      split
      · decide
      · rename_i hc
        have h3 : (0x10000 / 3 : Int) = 21845 := by decide
        rw [h3] at hc
        simp only [not_and, not_lt] at hc
        exact hc (by simpa using hg)
    omega

/-- C22 as stated fails in a build that defines `USING_GLES2`: for
`vertexCount = 21846` the count is clamped to `0x10000/3 = 21845` before
the loop, so `numTrans` is `6 * 10922 = 65532` and not
`6 * floor(21846 / 2) = 65538`. -/
theorem rectangles_clamped_under_GLES2 :
    (SoftwareTransformAndDraw (exampleBuild true) exampleTransformed (exampleVertex 0 0 0 0 0)
      (exampleBuild true).GE_PRIM_RECTANGLES 21846 (fun i => i)).numTrans = 65532 ∧
    (65532 : Int) ≠ 6 * (21846 / 2) := by
  constructor
  · rw [SoftwareTransformAndDraw_rectangles_result]
    decide
  · decide

/-- C22, amended: for `0 ≤ vertexCount ≤ 65536`, every index list and every
content of `transformed`, the rectangle path of `SoftwareTransformAndDraw`
ends with `numTrans = 6 * floor(n / 2)`, where `n` is `vertexCount` after the
clamp of the `USING_GLES2` build (`n = vertexCount` without `USING_GLES2` or
for `vertexCount ≤ 21845`); `numTrans` is at most the capacity `65536 * 3`
of `transformedExpanded` and is the number of entries written; the six
entries of pair `k` are as described (positions, copies of entries 0 and 2,
`z` and colours of the second vertex); and the output is that of the even
count below `n`, so a trailing unpaired vertex produces nothing. -/
theorem SoftwareTransformAndDraw_expands_rectangles {F : Type} [LT F]
    [DecidableRel (fun (a b : F) => a < b)]
    (env : Env) (transformed : Nat → TransformedVertex F) (saved : TransformedVertex F)
    (vertexCount : Int) (inds : Nat → Nat)
    (h0 : 0 ≤ vertexCount) (hmax : vertexCount ≤ 65536) :
    let n := clampVertexCount env vertexCount
    let r := SoftwareTransformAndDraw env transformed saved env.GE_PRIM_RECTANGLES vertexCount inds
    (env.USING_GLES2 = false ∨ vertexCount ≤ 21845 → n = vertexCount) ∧
    r.numTrans = 6 * (n / 2) ∧
    r.numTrans ≤ transformedExpandedCapacity ∧
    (r.transformedExpanded.length : Int) = r.numTrans ∧
    (∀ k : Nat, (k : Int) < n / 2 →
      DescribedRectangle (transformed (inds (2 * k) % 2 ^ 16))
        (transformed (inds (2 * k + 1) % 2 ^ 16))
        ((r.transformedExpanded.drop (6 * k)).take 6)) ∧
    r.transformedExpanded =
      (SoftwareTransformAndDraw env transformed saved env.GE_PRIM_RECTANGLES (2 * (n / 2))
        inds).transformedExpanded := by
  intro n r
  have hnn : 0 ≤ n := clampVertexCount_nonneg env vertexCount h0
  have hle : n ≤ vertexCount := clampVertexCount_le env vertexCount
  have hr : r = _ := SoftwareTransformAndDraw_rectangles_result env transformed saved
    vertexCount inds
  have hhalf : ((n.toNat / 2 : Nat) : Int) = n / 2 := by omega
  have hlen := length_blocks (fun j => rectangleOf (transformed (inds (2 * j) % 2 ^ 16))
    (transformed (inds (2 * j + 1) % 2 ^ 16))) (fun j => rectangleOf_length _ _) (n.toNat / 2)
  refine ⟨clampVertexCount_eq env vertexCount, ?_, ?_, ?_, ?_, ?_⟩
  · rw [hr]
    simp only []
    rw [hhalf]
  · rw [hr]
    simp only [transformedExpandedCapacity]
    omega
  · rw [hr]
    simp only []
    rw [hlen]
    push_cast
    rfl
  · intro k hk
    rw [hr]
    simp only []
    rw [drop_take_blocks _ (fun j => rectangleOf_length _ _) _ k (by omega)]
    exact rectangleOf_described _ _
  · rw [hr, SoftwareTransformAndDraw_rectangles_result]
    simp only []
    rw [clampVertexCount_even env vertexCount h0]
    have : (2 * (n / 2)).toNat / 2 = n.toNat / 2 := by omega
    show _ = (List.range ((2 * (n / 2)).toNat / 2)).flatMap _
    rw [this]

/-- Witness of the amended C22: five indices over the example buffer in a
build with `USING_GLES2`. -/
theorem SoftwareTransformAndDraw_expands_rectangles_witness :
    (0 : Int) ≤ 5 ∧ (5 : Int) ≤ 65536 ∧
    (let n := clampVertexCount (exampleBuild true) 5
     let r := SoftwareTransformAndDraw (exampleBuild true) exampleTransformed
       (exampleVertex 0 0 0 0 0) (exampleBuild true).GE_PRIM_RECTANGLES 5 (fun i => i)
     ((exampleBuild true).USING_GLES2 = false ∨ (5 : Int) ≤ 21845 → n = 5) ∧
     r.numTrans = 6 * (n / 2) ∧
     r.numTrans ≤ transformedExpandedCapacity ∧
     (r.transformedExpanded.length : Int) = r.numTrans ∧
     (∀ k : Nat, (k : Int) < n / 2 →
       DescribedRectangle (exampleTransformed ((fun i => i) (2 * k) % 2 ^ 16))
         (exampleTransformed ((fun i => i) (2 * k + 1) % 2 ^ 16))
         ((r.transformedExpanded.drop (6 * k)).take 6)) ∧
     r.transformedExpanded =
       (SoftwareTransformAndDraw (exampleBuild true) exampleTransformed
         (exampleVertex 0 0 0 0 0) (exampleBuild true).GE_PRIM_RECTANGLES (2 * (n / 2))
         (fun i => i)).transformedExpanded) :=
  ⟨by decide, by decide,
    SoftwareTransformAndDraw_expands_rectangles (exampleBuild true) exampleTransformed
      (exampleVertex 0 0 0 0 0) 5 (fun i => i) (by decide) (by decide)⟩

end GLES
